import Mathlib

/-! The Webvs `ColorMap` component (src/trans/ColorMap.js).

A shallow embedding of the `ColorMap` effect component and of `ColorMapProgram`.

* JavaScript exceptions are modelled by functions that return an `Except JsError _`
  together with the state reached when the exception is thrown (mutations made
  before a `throw` stay visible).
* The WebGL context and the shader-program objects are modelled by a `World`
  that records every call in a trace; `createTexture` and program construction
  hand out fresh handles from a counter.
* Collaborators that are not part of the component's file (`Webvs.parseColor`,
  `Webvs.getBlendMode`, the `Webvs.QuadBoxProgram` base constructor) are
  parameters, collected in `Env`.
* Keystone indices are natural numbers. `second.index - first.index` is
  truncated subtraction; this agrees with the source because `_.times(n, f)`
  does nothing for `n <= 0`.
* `Math.floor(x / steps)` for natural `x` and `steps > 0` is natural division
  (the numerators here are far below `2^53`, so the floating-point quotient
  has the same floor as the exact one).
* The beat signal and the value of `Math.random()` are inputs of `draw`; a
  random value is a double in `[0, 1)`, that is `num / 2 ^ exp` with a
  significand below `2 ^ 53`. The product `Math.random() * maps.length` is
  rounded as double multiplication rounds it (to nearest, ties to even, 53
  significant bits) before `Math.floor` is taken; an array length is below
  `2 ^ 32` and so is itself a double.
* A field that is `undefined` before `init()` is an `Option` with value `none`.
* A run of a component is `init()` on a new component followed by a list of
  calls (`session`); it stops at the first exception.
-/

namespace Webvs

/-! ## Data model -/

/-- The errors thrown in `ColorMap.js`, by kind of JavaScript exception. -/
inductive JsError where
  | error (message : String)
  | typeError (message : String)
  | referenceError (message : String)
  deriving DecidableEq, Repr

deriving instance DecidableEq for Except

/-- A parsed colour: the array `[r, g, b]` returned by `Webvs.parseColor`. -/
structure RGB where
  r : Nat
  g : Nat
  b : Nat
  deriving DecidableEq, Repr

/-- A configured keystone `{index: ..., color: "..."}`. -/
structure Keystone where
  index : Nat
  color : String
  deriving DecidableEq, Repr

/-- A keystone after colour parsing: `{color: [r,g,b], index: ...}`. -/
structure Stone where
  color : RGB
  index : Nat
  deriving DecidableEq, Repr

/-- A `WebGLTexture` handle. -/
abbrev Texture := Nat

/-- A shader-program object. -/
abbrev Program := Nat

/-- The options object handed to the `QuadBoxProgram` base constructor. -/
structure ProgramOptions where
  blendMode : Nat
  swapFrame : Bool
  fragmentShader : List String
  deriving DecidableEq, Repr

/-- Calls observed on the collaborators (colour parser, GL context, programs). -/
inductive Event where
  | parseColor (color : String)
  | getBlendMode (name : String)
  | createTexture (tex : Texture)
  | bindTexture (tex : Texture)
  | texImage2D (width height : Nat) (pixels : List Nat)
  | texParameteri (pname param : String)
  | deleteTexture (tex : Texture)
  | newProgram (prog : Program) (options : ProgramOptions)
  | cleanupProgram (prog : Program)
  | destroyProgram (prog : Program)
  | runProgram (prog : Program) (colorMap : Option Texture)
  deriving DecidableEq, Repr

/-- The GL context and program objects: the trace of calls so far (oldest
first), the next fresh handle, the texture bound to `TEXTURE_2D`, and the
pixel data uploaded to each texture (latest upload first). -/
structure World where
  trace : List Event
  nextHandle : Nat
  bound : Option Texture
  images : List (Texture × List Nat)
  deriving DecidableEq, Repr

/-- Collaborators defined outside `ColorMap.js`. -/
structure Env where
  parseColor : String → Except JsError RGB
  getBlendMode : String → Except JsError Nat
  quadBoxProgram : ProgramOptions → Except JsError Unit

/-! ## GL calls -/

/-- Appends a call to the trace. -/
def World.emit (w : World) (e : Event) : World :=
  { w with trace := w.trace ++ [e] }

/-- Models `gl.createTexture()`: a fresh handle. -/
def createTexture (w : World) : Texture × World :=
  (w.nextHandle, { (w.emit (.createTexture w.nextHandle)) with nextHandle := w.nextHandle + 1 })

/-- Models `gl.bindTexture(gl.TEXTURE_2D, texture)`. -/
def bindTexture (tex : Texture) (w : World) : World :=
  { (w.emit (.bindTexture tex)) with bound := some tex }

/-- Models `gl.texImage2D(gl.TEXTURE_2D, 0, gl.RGB, width, height, 0, gl.RGB,
gl.UNSIGNED_BYTE, pixels)`: the data goes to the bound texture. -/
def texImage2D (width height : Nat) (pixels : List Nat) (w : World) : World :=
  let w1 := w.emit (.texImage2D width height pixels)
  match w.bound with
  | some tex => { w1 with images := (tex, pixels) :: w1.images }
  | none => w1

/-- Models `gl.texParameteri(gl.TEXTURE_2D, pname, param)`. -/
def texParameteri (pname param : String) (w : World) : World :=
  w.emit (.texParameteri pname param)

/-- Models `gl.deleteTexture(tex)`. -/
def deleteTexture (tex : Texture) (w : World) : World :=
  w.emit (.deleteTexture tex)

/-- The pixel data last uploaded to a texture. -/
def World.image (w : World) (tex : Texture) : Option (List Nat) :=
  (w.images.find? (fun p => p.1 == tex)).map Prod.snd

/-! ## Underscore helpers used by `_buildColorMap` -/

/-- Models `_.sortBy(map, function(mapItem) {return mapItem.index;})`: a stable
ascending sort on the index. -/
def sortBy (map : List Keystone) : List Keystone :=
  map.insertionSort (fun a b => a.index ≤ b.index)

/-- Models `_.uniq(array)`: keeps the first occurrence of every value. -/
def uniq (array : List Nat) : List Nat :=
  array.foldl (fun seen value => if seen.contains value then seen else seen ++ [value]) []

/-! ## The typed array and its write cursor -/

/-- The `Uint8Array` named `colorMap` with the write cursor `cmi`; `written`
records the positions that received a store, in order. -/
structure Cursor where
  colorMap : List Nat
  cmi : Nat
  written : List Nat
  deriving DecidableEq, Repr

/-- Models `colorMap[cmi++] = value` on a `Uint8Array`: the value is reduced
modulo 256, a store past the end is dropped. -/
def Cursor.put (s : Cursor) (value : Nat) : Cursor :=
  { colorMap := s.colorMap.set s.cmi (value % 256)
    cmi := s.cmi + 1
    written := if s.cmi < s.colorMap.length then s.written ++ [s.cmi] else s.written }

/-- The body of `_.times(steps, function(i) {...})`: three stores for step `i`. -/
def lerpStep (first second : Stone) (steps : Nat) (s : Cursor) (i : Nat) : Cursor :=
  ((s.put ((first.color.r * (steps - i) + second.color.r * i) / steps)).put
    ((first.color.g * (steps - i) + second.color.g * i) / steps)).put
    ((first.color.b * (steps - i) + second.color.b * i) / steps)

/-- The body of `_.each(pairs, function(pair, i) {...})`. -/
def lerpPair (s : Cursor) (pair : Stone × Stone) : Cursor :=
  let first := pair.1
  let second := pair.2
  let steps := second.index - first.index
  (List.range steps).foldl (lerpStep first second steps) s

/-- The section "lerp intermediate values" of `_buildColorMap`: `map` is the
capped list and `last` the stone read by `_.last(map)` before the trailing cap
was pushed. -/
def lerp (map : List Stone) (last : Stone) : Cursor :=
  let s0 : Cursor := { colorMap := List.replicate (256 * 3) 0, cmi := 0, written := [] }
  let pairs := List.zip (map.take (map.length - 1)) (map.drop (map.length - (map.length - 1)))
  let s1 := pairs.foldl lerpPair s0
  ((s1.put last.color.r).put last.color.g).put last.color.b

/-- The section "add a cap entries at the ends": returns the capped list and
`last`. On an empty list `first` is `undefined` and `first.index` throws. -/
def addCaps (map : List Stone) : Except JsError (List Stone × Stone) :=
  match map.head? with
  | none => .error (.typeError "Cannot read property 'index' of undefined")
  | some first =>
    let map1 := if first.index ≠ 0 then { color := first.color, index := 0 } :: map else map
    match map1.getLast? with
    | none => .error (.typeError "Cannot read property 'index' of undefined")
    | some last =>
      let map2 := if last.index ≠ 255 then map1 ++ [{ color := last.color, index := 255 }] else map1
      .ok (map2, last)

/-- The section "parse all the colors": `Webvs.parseColor` is called on each
keystone in turn and the first failure propagates. -/
def parseAll (env : Env) : List Keystone → World → Except JsError (List Stone) × World
  | [], w => (.ok [], w)
  | mapItem :: rest, w =>
    let w1 := w.emit (.parseColor mapItem.color)
    match env.parseColor mapItem.color with
    | .error e => (.error e, w1)
    | .ok color =>
      match parseAll env rest w1 with
      | (.error e, w2) => (.error e, w2)
      | (.ok stones, w2) => (.ok ({ color := color, index := mapItem.index } :: stones), w2)

/-- The section "put the color values into a 256x1 texture". -/
def upload (colorMap : List Nat) (w : World) : Texture × World :=
  let (texture, w1) := createTexture w
  let w2 := bindTexture texture w1
  let w3 := texImage2D 256 1 colorMap w2
  let w4 := texParameteri "TEXTURE_MAG_FILTER" "NEAREST" w3
  let w5 := texParameteri "TEXTURE_MIN_FILTER" "NEAREST" w4
  let w6 := texParameteri "TEXTURE_WRAP_S" "CLAMP_TO_EDGE" w5
  let w7 := texParameteri "TEXTURE_WRAP_T" "CLAMP_TO_EDGE" w6
  (texture, w7)

/-- Models `ColorMap.prototype._buildColorMap(map)`. -/
def _buildColorMap (env : Env) (map : List Keystone) (w : World) :
    Except JsError Texture × World :=
  let map := sortBy map
  let indices := map.map (fun mapItem => mapItem.index)
  if (uniq indices).length != indices.length then
    (.error (.error "map cannot have repeated indices"), w)
  else
    match parseAll env map w with
    | (.error e, w1) => (.error e, w1)
    | (.ok stones, w1) =>
      match addCaps stones with
      | .error e => (.error e, w1)
      | .ok (capped, last) =>
        let colorMap := (lerp capped last).colorMap
        let (texture, w2) := upload colorMap w1
        (.ok texture, w2)

/-! ## `ColorMapProgram` -/

/-- The `switch(key)` of the `ColorMapProgram` constructor. The `default`
branch evaluates `options.key`, and no binding named `options` is in scope
there, so it throws a `ReferenceError` before the `Error` is built. -/
def keyEq (key : String) : Except JsError String :=
  match key with
  | "RED" => .ok "srcColor.r"
  | "GREEN" => .ok "srcColor.g"
  | "BLUE" => .ok "srcColor.b"
  | "(R+G+B)/2" => .ok "min((srcColor.r+srcColor.g+srcColor.b)/2.0, 1.0)"
  | "(R+G+B)/3" => .ok "(srcColor.r+srcColor.g+srcColor.b)/3.0"
  | "MAX" => .ok "max(srcColor.r, max(srcColor.g, srcColor.b))"
  | _ => .error (.referenceError "options is not defined")

/-- The options object built by the `ColorMapProgram` constructor. -/
def programOptions (keyEq : String) (blendMode : Nat) : ProgramOptions :=
  { blendMode := blendMode
    swapFrame := true
    fragmentShader :=
      [ "uniform sampler2D u_colorMap;",
        "void main() \x7b",
        "   vec4 srcColor = getSrcColor();",
        "   setFragColor(texture2D(u_colorMap, vec2((" ++ keyEq ++ "), 0)));",
        "\x7d" ] }

/-- Models `new Webvs.ColorMapProgram(gl, key, blendMode)`. The call of the
base constructor is recorded in the trace whether or not it succeeds. -/
def ColorMapProgram (env : Env) (key : String) (blendMode : Nat) (w : World) :
    Except JsError Program × World :=
  match keyEq key with
  | .error e => (.error e, w)
  | .ok keyEq =>
    let options := programOptions keyEq blendMode
    let program := w.nextHandle
    let w1 := { (w.emit (.newProgram program options)) with nextHandle := w.nextHandle + 1 }
    match env.quadBoxProgram options with
    | .error e => (.error e, w1)
    | .ok _ => (.ok program, w1)

/-! ## The `ColorMap` component -/

/-- The options of a `ColorMap` component. -/
structure Options where
  key : String
  output : String
  mapCycleMode : String
  maps : List (List Keystone)
  deriving DecidableEq, Repr

/-- The `defaultOptions` of the class. -/
def defaultOptions : Options :=
  { key := "RED"
    output := "REPLACE"
    mapCycleMode := "SINGLE"
    maps := [[{ index := 0, color := "#000000" }, { index := 255, color := "#FFFFFF" }]] }

/-- The methods named in the `onChange` table. -/
inductive Handler where
  | updateMap
  | updateProgram
  deriving DecidableEq, Repr

/-- The `onChange` table of the class. -/
def onChange : List (String × Handler) :=
  [("maps", .updateMap), ("key", .updateProgram), ("output", .updateProgram)]

/-- The fields of a `ColorMap` instance. `none` stands for `undefined`; for
`currentMap` it also stands for `NaN`. -/
structure ColorMap where
  opts : Options
  program : Option Program
  colorMaps : Option (List Texture)
  currentMap : Option Nat
  deriving DecidableEq, Repr

/-- The least `s' ≥ s` with `x < 2 ^ (53 + s')`, searched upwards in at most
`fuel` steps. -/
def shiftFrom : Nat → Nat → Nat → Nat
  | 0, s, _ => s
  | fuel + 1, s, x => if x < 2 ^ (53 + s) then s else shiftFrom fuel (s + 1) x

/-- The number of low binary digits that `x` loses when it is kept to the 53
significant bits of a double: the least `s` with `x < 2 ^ (53 + s)`. -/
def lostBits (x : Nat) : Nat := shiftFrom x 0 x

/-- Models the rounding of a double-precision operation (IEEE 754, round to
nearest, ties to even, 53 significant bits) on the exact result `x / 2 ^ e`;
the rounded result is `roundDouble x / 2 ^ e`. -/
def roundDouble (x : Nat) : Nat :=
  let s := lostBits x
  let q := x / 2 ^ s
  let rem := x % 2 ^ s
  if 2 ^ s < 2 * rem ∨ (2 * rem = 2 ^ s ∧ q % 2 = 1) then (q + 1) * 2 ^ s else q * 2 ^ s

/-- A value returned by `Math.random()`: the double `num / 2 ^ exp`, in
`[0, 1)`. A double has at most 53 significant bits and is a multiple of
`2 ^ -1074`. -/
structure RandomDraw where
  num : Nat
  exp : Nat
  significand : num < 2 ^ 53
  exponent : exp ≤ 1074
  lt_one : num < 2 ^ exp

/-- Models `Math.floor(Math.random() * n)` for an array length `n`: the exact
product `num * n / 2 ^ exp` rounded to a double, then its floor. A product
that needs rounding has a numerator of at least `2 ^ 53` over a denominator of
at most `2 ^ 1074`, so it lies in the range of normal doubles, where rounding
keeps 53 significant bits; a product that needs none is a double already. -/
def RandomDraw.floorMul (random : RandomDraw) (n : Nat) : Nat :=
  roundDouble (random.num * n) / 2 ^ random.exp

/-- Models `(x + 1) % n` on JavaScript numbers: `NaN` when `x` is not a
number or `n` is zero. -/
def succMod (x : Option Nat) (n : Nat) : Option Nat :=
  match x with
  | none => none
  | some c => if n = 0 then none else some ((c + 1) % n)

/-- Models `array[i]`: `undefined` when `i` is not an index of the array. -/
def elementAt (array : List Texture) (i : Option Nat) : Option Texture :=
  match i with
  | none => none
  | some n => array.get? n

/-- The `if(this.main.analyser.beat) {...}` block of `draw`. -/
def cycle (beat : Bool) (random : RandomDraw) (self : ColorMap) : Except JsError ColorMap :=
  if beat then
    if self.opts.mapCycleMode == "ONBEATRANDOM" then
      .ok { self with
        currentMap := some (random.floorMul self.opts.maps.length) }
    else if self.opts.mapCycleMode == "ONBEATSEQUENTIAL" then
      match self.colorMaps with
      | none => .error (.typeError "Cannot read property 'length' of undefined")
      | some colorMaps =>
        .ok { self with currentMap := succMod self.currentMap colorMaps.length }
    else .ok self
  else .ok self

/-- Models `ColorMap.prototype.draw()` for one frame; `beat` is
`this.main.analyser.beat` and `random` the value `Math.random()` would return. -/
def draw (beat : Bool) (random : RandomDraw) (self : ColorMap) (w : World) :
    Except JsError Unit × ColorMap × World :=
  match cycle beat random self with
  | .error e => (.error e, self, w)
  | .ok self1 =>
    match self1.program with
    | none => (.error (.typeError "Cannot read property 'run' of undefined"), self1, w)
    | some program =>
      match self1.colorMaps with
      | none => (.error (.typeError "Cannot read property of undefined"), self1, w)
      | some colorMaps =>
        (.ok (), self1, w.emit (.runProgram program (elementAt colorMaps self1.currentMap)))

/-- Models `_.each(this.colorMaps, function(tex) { this.gl.deleteTexture(tex); }, this)`. -/
def deleteAll (colorMaps : List Texture) (w : World) : World :=
  colorMaps.foldl (fun w tex => deleteTexture tex w) w

/-- Models `ColorMap.prototype.destroy()`. -/
def destroy (self : ColorMap) (w : World) : Except JsError Unit × ColorMap × World :=
  match self.program with
  | none => (.error (.typeError "Cannot read property 'destroy' of undefined"), self, w)
  | some program =>
    let w1 := w.emit (.destroyProgram program)
    match self.colorMaps with
    | none => (.ok (), self, w1)
    | some colorMaps => (.ok (), self, deleteAll colorMaps w1)

/-- Models `ColorMap.prototype.updateProgram()`. -/
def updateProgram (env : Env) (self : ColorMap) (w : World) :
    Except JsError Unit × ColorMap × World :=
  let w1 := match self.program with
    | some program => w.emit (.cleanupProgram program)
    | none => w
  let w2 := w1.emit (.getBlendMode self.opts.output)
  match env.getBlendMode self.opts.output with
  | .error e => (.error e, self, w2)
  | .ok output =>
    match ColorMapProgram env self.opts.key output w2 with
    | (.error e, w3) => (.error e, self, w3)
    | (.ok program, w3) => (.ok (), { self with program := some program }, w3)

/-- Models `_.map(this.opts.maps, function(map) { return this._buildColorMap(map); }, this)`. -/
def buildAll (env : Env) : List (List Keystone) → World → Except JsError (List Texture) × World
  | [], w => (.ok [], w)
  | map :: rest, w =>
    match _buildColorMap env map w with
    | (.error e, w1) => (.error e, w1)
    | (.ok texture, w1) =>
      match buildAll env rest w1 with
      | (.error e, w2) => (.error e, w2)
      | (.ok textures, w2) => (.ok (texture :: textures), w2)

/-- Models `ColorMap.prototype.updateMap()`. -/
def updateMap (env : Env) (self : ColorMap) (w : World) :
    Except JsError Unit × ColorMap × World :=
  let w1 := match self.colorMaps with
    | some colorMaps => deleteAll colorMaps w
    | none => w
  match buildAll env self.opts.maps w1 with
  | (.error e, w2) => (.error e, self, w2)
  | (.ok colorMaps, w2) =>
    (.ok (), { self with colorMaps := some colorMaps, currentMap := some 0 }, w2)

/-- Models `ColorMap.prototype.init()`. -/
def init (env : Env) (self : ColorMap) (w : World) : Except JsError Unit × ColorMap × World :=
  match updateProgram env self w with
  | (.error e, self1, w1) => (.error e, self1, w1)
  | (.ok _, self1, w1) => updateMap env self1 w1

/-- A run of frames: `draw` is called once per frame with that frame's beat
signal and random draw; the first exception ends the run. -/
def drawFrames : List (Bool × RandomDraw) → ColorMap → World →
    Except JsError Unit × ColorMap × World
  | [], self, w => (.ok (), self, w)
  | frame :: rest, self, w =>
    match draw frame.1 frame.2 self w with
    | (.error e, self1, w1) => (.error e, self1, w1)
    | (.ok _, self1, w1) => drawFrames rest self1 w1

/-! ## Collaborators for concrete runs -/

/-- The value of one hexadecimal digit, in either case. -/
def hexDigit (c : Char) : Option Nat :=
  if '0' ≤ c ∧ c ≤ '9' then some (c.toNat - '0'.toNat)
  else if 'a' ≤ c ∧ c ≤ 'f' then some (c.toNat - 'a'.toNat + 10)
  else if 'A' ≤ c ∧ c ≤ 'F' then some (c.toNat - 'A'.toNat + 10)
  else none

/-- Modelled from the spec: `Webvs.parseColor`, which is defined outside
`ColorMap.js`. The colour literal format is 6 hex digits prefixed with `#`,
case-insensitive; any other form fails to parse. -/
def parseColor (color : String) : Except JsError RGB :=
  match color.toList with
  | ['#', r1, r0, g1, g0, b1, b0] =>
    match hexDigit r1, hexDigit r0, hexDigit g1, hexDigit g0, hexDigit b1, hexDigit b0 with
    | some r1, some r0, some g1, some g0, some b1, some b0 =>
      .ok { r := 16 * r1 + r0, g := 16 * g1 + g0, b := 16 * b1 + b0 }
    | _, _, _, _, _, _ => .error (.error "Invalid Color Format")
  | _ => .error (.error "Invalid Color Format")

/-- Modelled from the spec: `Webvs.getBlendMode`, which is defined outside
`ColorMap.js`. The set of blend modes belongs to the blending module; this
one knows the default mode `REPLACE` and rejects every other name. -/
def getBlendMode (name : String) : Except JsError Nat :=
  if name = "REPLACE" then .ok 1 else .error (.error "Unknown blendMode")

/-- Collaborators for concrete runs: the colour parser and blend-mode lookup
above, and a base program constructor that always succeeds. -/
def sampleEnv : Env :=
  { parseColor := parseColor
    getBlendMode := getBlendMode
    quadBoxProgram := fun _ => .ok () }

/-- A map given out of order, with neither end at 0 or 255, for concrete runs. -/
def sampleMap : List Keystone :=
  [{ index := 200, color := "#102030" }, { index := 10, color := "#ffFF00" }]

/-- The random draw 0. -/
def RandomDraw.zero : RandomDraw :=
  { num := 0, exp := 0, significand := by decide, exponent := by decide, lt_one := by decide }

/-- The random draw 0.6666666666666666, the double nearest to 2/3:
`6004799503160661 / 2 ^ 53`. -/
def RandomDraw.twoThirds : RandomDraw :=
  { num := 6004799503160661, exp := 53, significand := by decide, exponent := by decide,
    lt_one := by decide }

/-- The largest double below 1: `(2 ^ 53 - 1) / 2 ^ 53`. -/
def RandomDraw.largest : RandomDraw :=
  { num := 9007199254740991, exp := 53, significand := by decide, exponent := by decide,
    lt_one := by decide }

/-- A GL context on which nothing has been called yet. -/
def World.initial : World :=
  { trace := [], nextHandle := 0, bound := none, images := [] }

/-- Options with three configured maps in mode `ONBEATSEQUENTIAL`, for concrete runs. -/
def threeMapOptions : Options :=
  { key := "RED"
    output := "REPLACE"
    mapCycleMode := "ONBEATSEQUENTIAL"
    maps :=
      [ [{ index := 0, color := "#000000" }, { index := 255, color := "#FFFFFF" }],
        [{ index := 50, color := "#102030" }],
        [{ index := 200, color := "#102030" }, { index := 10, color := "#ffFF00" }] ] }

/-! ## Definitions used to state the properties -/

/-- The key functions the spec enumerates. -/
def supportedKeys : List String :=
  ["RED", "GREEN", "BLUE", "(R+G+B)/2", "(R+G+B)/3", "MAX"]

/-- What a rebuild of the map set has established, from the world `w` and the
textures `held` before it to the component `self'` and the world `w'` after
it: `currentMap` is 0; `colorMaps` holds one texture per configured map, in
the configured order, each created during the rebuild by a `_buildColorMap`
call on that map and still carrying the table uploaded by that call; and every
texture held before has been passed to `deleteTexture`. -/
def Rebuilt (env : Env) (held : Option (List Texture)) (maps : List (List Keystone))
    (w : World) (self' : ColorMap) (w' : World) : Prop :=
  self'.currentMap = some 0 ∧
  ∃ (colorMaps : List Texture) (evs : List Event),
    self'.colorMaps = some colorMaps ∧
    colorMaps.length = maps.length ∧
    colorMaps.Nodup ∧
    w'.trace = w.trace ++ evs ∧
    (∀ t ∈ held.getD [], Event.deleteTexture t ∈ evs) ∧
    ∀ (i : Nat) (map : List Keystone), maps[i]? = some map →
      ∃ (t : Texture) (table : List Nat) (wa wb : World),
      colorMaps[i]? = some t ∧ w.nextHandle ≤ t ∧ Event.createTexture t ∈ evs ∧
      _buildColorMap env map wa = (.ok t, wb) ∧
      wb.image t = some table ∧ w'.image t = some table

/-- The colour computed for step `i` of a pair of colours `steps` apart:
`floor((L_c * (steps - i) + R_c * i) / steps)` on each channel `c`. -/
def mix (first second : RGB) (steps i : Nat) : RGB :=
  { r := (first.r * (steps - i) + second.r * i) / steps
    g := (first.g * (steps - i) + second.g * i) / steps
    b := (first.b * (steps - i) + second.b * i) / steps }

/-- The bytes of a list of colours, three per colour. -/
def flat : List RGB → List Nat
  | [] => []
  | c :: cs => c.r :: c.g :: c.b :: flat cs

/-- Entry number `i` of a table of bytes. -/
def entry (colorMap : List Nat) (i : Nat) : RGB :=
  { r := colorMap.getD (3 * i) 0
    g := colorMap.getD (3 * i + 1) 0
    b := colorMap.getD (3 * i + 2) 0 }

/-- A colour whose three channels are bytes. -/
def RGB.IsByte (c : RGB) : Prop := c.r < 256 ∧ c.g < 256 ∧ c.b < 256

/-- Consecutive stores of a list of values. -/
def putAll (s : Cursor) (values : List Nat) : Cursor :=
  values.foldl Cursor.put s

/-- The colours stored for one pair. -/
def pairEntries (first second : Stone) : List RGB :=
  (List.range (second.index - first.index)).map
    (mix first.color second.color (second.index - first.index))

/-- The colours stored for all adjacent pairs of a list of stones. -/
def chainEntries : List Stone → List RGB
  | first :: second :: rest => pairEntries first second ++ chainEntries (second :: rest)
  | _ => []

/-- Strictly increasing indices. -/
def Ascending (map : List Stone) : Prop :=
  map.Pairwise (fun a b => a.index < b.index)

/-- The colour `Webvs.parseColor` returns for a colour string that parses. -/
def colorOf (env : Env) (color : String) : RGB :=
  match env.parseColor color with
  | .ok c => c
  | .error _ => { r := 0, g := 0, b := 0 }

/-- The parsed keystones, when every colour parses. -/
def stonesOf (env : Env) (map : List Keystone) : List Stone :=
  map.map (fun k => { color := colorOf env k.color, index := k.index })

/-- A keystone list the builder accepts and the spec calls valid: not empty,
distinct indices within `0..255`, colours that parse to byte triples. -/
structure ValidMap (env : Env) (map : List Keystone) : Prop where
  nonempty : map ≠ []
  distinct : (map.map Keystone.index).Nodup
  inRange : ∀ k ∈ map, k.index ≤ 255
  parses : ∀ k ∈ map, ∃ c, env.parseColor k.color = .ok c ∧ c.IsByte

/-! ## Runs of a component -/

/-- Modelled from the spec: the option store of the `Webvs.Component` base
class, which is defined outside `ColorMap.js`. On a mutation of the option
`name` it invokes the rebuild routine that the `onChange` table of the class
names for that option, if it names one. -/
def dispatch (env : Env) (name : String) (self : ColorMap) (w : World) :
    Except JsError Unit × ColorMap × World :=
  match onChange.lookup name with
  | some .updateMap => updateMap env self w
  | some .updateProgram => updateProgram env self w
  | none => (.ok (), self, w)

/-- What the driver can do to an initialised component: call a rebuild routine,
draw a frame, or change one of the four options. -/
inductive Call where
  | updateMap
  | updateProgram
  | draw (beat : Bool) (random : RandomDraw)
  | setMaps (maps : List (List Keystone))
  | setKey (key : String)
  | setOutput (output : String)
  | setMapCycleMode (mode : String)

/-- One call on the component. A change of an option stores the new value and
then goes through `dispatch`. -/
def runCall (env : Env) (call : Call) (self : ColorMap) (w : World) :
    Except JsError Unit × ColorMap × World :=
  match call with
  | .updateMap => updateMap env self w
  | .updateProgram => updateProgram env self w
  | .draw beat random => draw beat random self w
  | .setMaps maps => dispatch env "maps" { self with opts := { self.opts with maps := maps } } w
  | .setKey key => dispatch env "key" { self with opts := { self.opts with key := key } } w
  | .setOutput output =>
    dispatch env "output" { self with opts := { self.opts with output := output } } w
  | .setMapCycleMode mode =>
    dispatch env "mapCycleMode" { self with opts := { self.opts with mapCycleMode := mode } } w

/-- A sequence of calls; the first exception ends it. -/
def runCalls (env : Env) : List Call → ColorMap → World →
    Except JsError Unit × ColorMap × World
  | [], self, w => (.ok (), self, w)
  | call :: rest, self, w =>
    match runCall env call self w with
    | (.error e, self1, w1) => (.error e, self1, w1)
    | (.ok _, self1, w1) => runCalls env rest self1 w1

/-- A component as constructed, before `init()`: no program, no textures. -/
def ColorMap.new (opts : Options) : ColorMap :=
  { opts := opts, program := none, colorMaps := none, currentMap := none }

/-- The life of a component up to some point: `init()` on a new component,
then a sequence of calls. -/
def session (env : Env) (opts : Options) (calls : List Call) (w : World) :
    Except JsError Unit × ColorMap × World :=
  match init env (ColorMap.new opts) w with
  | (.error e, self1, w1) => (.error e, self1, w1)
  | (.ok _, self1, w1) => runCalls env calls self1 w1

/-- The textures passed back by `createTexture` in a trace, in order. -/
def createdIn (trace : List Event) : List Texture :=
  trace.filterMap (fun e => match e with
    | .createTexture t => some t
    | _ => none)

/-- The textures passed to `deleteTexture` in a trace, in order. -/
def deletedIn (trace : List Event) : List Texture :=
  trace.filterMap (fun e => match e with
    | .deleteTexture t => some t
    | _ => none)

/-- The programs whose `destroy()` was called in a trace, in order. -/
def destroyedIn (trace : List Event) : List Program :=
  trace.filterMap (fun e => match e with
    | .destroyProgram p => some p
    | _ => none)

/-- The textures handed to `program.run` in a trace, in order. -/
def drawnWith (trace : List Event) : List (Option Texture) :=
  trace.filterMap (fun e => match e with
    | .runProgram _ tex => some tex
    | _ => none)

/-- The live textures of a trace: created with `createTexture` and not passed
to `deleteTexture`. -/
def liveTextures (trace : List Event) : List Texture :=
  (createdIn trace).filter (fun t => !(deletedIn trace).contains t)

/-- The component with another value of the `mapCycleMode` option. -/
def withMode (self : ColorMap) (mode : String) : ColorMap :=
  { self with opts := { self.opts with mapCycleMode := mode } }

/-- The cycle modes the spec enumerates. -/
def cycleModes : List String :=
  ["SINGLE", "ONBEATRANDOM", "ONBEATSEQUENTIAL"]

/-- A map set whose second map has two keystones at index 7, for concrete runs. -/
def brokenMaps : List (List Keystone) :=
  [ [{ index := 0, color := "#000000" }, { index := 255, color := "#FFFFFF" }],
    [{ index := 7, color := "#102030" }, { index := 7, color := "#405060" }] ]

/-- The texture bookkeeping of an initialised component against the events
`evs` of its life so far: it has a program and a texture list, the textures
created so far are, in order, those deleted so far followed by `colorMaps`,
no handle was created twice, and every created handle is below `bound`. -/
def Owns (self : ColorMap) (evs : List Event) (bound : Nat) : Prop :=
  ∃ (program : Program) (colorMaps : List Texture),
    self.program = some program ∧ self.colorMaps = some colorMaps ∧
    createdIn evs = deletedIn evs ++ colorMaps ∧
    (createdIn evs).Nodup ∧
    ∀ t ∈ createdIn evs, t < bound

/-- The map cursor is in range: `colorMaps` holds one texture per configured
map and `currentMap` is an index into it. -/
def InRange (self : ColorMap) : Prop :=
  ∃ (colorMaps : List Texture) (m : Nat),
    self.colorMaps = some colorMaps ∧
    colorMaps.length = self.opts.maps.length ∧
    self.currentMap = some m ∧
    m < colorMaps.length

/-- The calls allowed when every configured map set must hold at least one map. -/
def Call.KeepsAMap (call : Call) : Prop :=
  ∀ maps, call = Call.setMaps maps → maps ≠ []

/-- The three-map options in mode `ONBEATRANDOM`, for concrete runs. -/
def randomModeOptions : Options :=
  { threeMapOptions with mapCycleMode := "ONBEATRANDOM" }

/-- A run for concrete checks: a beat, a change of mode, another beat, a new
map set of two maps, and back to mode `ONBEATRANDOM`. -/
def sampleCalls : List Call :=
  [ .draw true RandomDraw.twoThirds,
    .setMapCycleMode "ONBEATSEQUENTIAL",
    .draw true RandomDraw.zero,
    .setMaps [sampleMap, sampleMap],
    .setMapCycleMode "ONBEATRANDOM" ]

/-! ## The key expressions as GLSL terms -/

/-- The GLSL expressions that occur as key expressions. -/
inductive Glsl where
  | r
  | g
  | b
  | one
  | two
  | three
  | paren (x : Glsl)
  | add (x y : Glsl)
  | div (x y : Glsl)
  | min (x y : Glsl)
  | max (x y : Glsl)
  deriving DecidableEq, Repr

/-- The source text of a GLSL expression. -/
def Glsl.render : Glsl → String
  | .r => "srcColor.r"
  | .g => "srcColor.g"
  | .b => "srcColor.b"
  | .one => "1.0"
  | .two => "2.0"
  | .three => "3.0"
  | .paren x => "(" ++ x.render ++ ")"
  | .add x y => x.render ++ "+" ++ y.render
  | .div x y => x.render ++ "/" ++ y.render
  | .min x y => "min(" ++ x.render ++ ", " ++ y.render ++ ")"
  | .max x y => "max(" ++ x.render ++ ", " ++ y.render ++ ")"

/-- The value of a GLSL expression on a source colour, in exact arithmetic. -/
def Glsl.eval (red green blue : ℚ) : Glsl → ℚ
  | .r => red
  | .g => green
  | .b => blue
  | .one => 1
  | .two => 2
  | .three => 3
  | .paren x => x.eval red green blue
  | .add x y => x.eval red green blue + y.eval red green blue
  | .div x y => x.eval red green blue / y.eval red green blue
  | .min x y => Min.min (x.eval red green blue) (y.eval red green blue)
  | .max x y => Max.max (x.eval red green blue) (y.eval red green blue)

/-- The GLSL term of the key expression the `switch(key)` selects. -/
def keyTerm (key : String) : Option Glsl :=
  match key with
  | "RED" => some .r
  | "GREEN" => some .g
  | "BLUE" => some .b
  | "(R+G+B)/2" => some (.min (.div (.paren (.add (.add .r .g) .b)) .two) .one)
  | "(R+G+B)/3" => some (.div (.paren (.add (.add .r .g) .b)) .three)
  | "MAX" => some (.max .r (.max .g .b))
  | _ => none

/-! ## Lemmas on the helpers -/

theorem uniq_fold_length (l seen : List Nat) :
    (l.foldl (fun seen value => if seen.contains value then seen else seen ++ [value]) seen).length
      ≤ seen.length + l.length := by
  induction l generalizing seen with
  | nil => simp
  | cons a l ih =>
    simp only [List.foldl_cons, List.length_cons]
    split
    · have := ih seen; omega
    · have := ih (seen ++ [a])
      simp only [List.length_append, List.length_singleton] at this; omega

theorem uniq_fold_nodup (l seen : List Nat) :
    (l.foldl (fun seen value => if seen.contains value then seen else seen ++ [value]) seen).length
      = seen.length + l.length ↔ (l.Nodup ∧ ∀ x ∈ l, x ∉ seen) := by
  induction l generalizing seen with
  | nil => simp
  | cons a l ih =>
    simp only [List.foldl_cons, List.length_cons, List.nodup_cons, List.mem_cons]
    by_cases h : seen.contains a = true
    · rw [if_pos h]
      have h1 := uniq_fold_length l seen
      have ha : a ∈ seen := by simpa using h
      constructor
      · intro h2; omega
      · rintro ⟨_, h3⟩; exact absurd ha (h3 a (Or.inl rfl))
    · rw [if_neg h]
      have ha : a ∉ seen := by simpa using h
      have := ih (seen ++ [a])
      simp only [List.length_append, List.length_singleton, List.mem_append,
        List.mem_singleton, not_or] at this
      rw [show seen.length + (l.length + 1) = seen.length + 1 + l.length by omega, this]
      constructor
      · rintro ⟨h1, h2⟩
        refine ⟨⟨fun hal => (h2 a hal).2 rfl, h1⟩, ?_⟩
        rintro x (rfl | hx)
        · exact ha
        · exact (h2 x hx).1
      · rintro ⟨⟨h1, h2⟩, h3⟩
        refine ⟨h2, fun x hx => ⟨h3 x (Or.inr hx), ?_⟩⟩
        rintro rfl; exact h1 hx

theorem uniq_length_eq_iff (l : List Nat) : (uniq l).length = l.length ↔ l.Nodup := by
  have := uniq_fold_nodup l []
  simpa [uniq] using this

/-! ## The stores of `lerp` as one sequence of values -/

theorem flat_append (xs ys : List RGB) : flat (xs ++ ys) = flat xs ++ flat ys := by
  induction xs with
  | nil => rfl
  | cons c cs ih => simp [flat, ih]

theorem flat_length (xs : List RGB) : (flat xs).length = 3 * xs.length := by
  induction xs with
  | nil => rfl
  | cons c cs ih => simp [flat, ih]; omega

theorem putAll_append (s : Cursor) (xs ys : List Nat) :
    putAll s (xs ++ ys) = putAll (putAll s xs) ys := by
  simp [putAll, List.foldl_append]

theorem lerpStep_eq (first second : Stone) (steps : Nat) (s : Cursor) (i : Nat) :
    lerpStep first second steps s i = putAll s (flat [mix first.color second.color steps i]) :=
  rfl

theorem foldl_lerpStep (first second : Stone) (steps : Nat) (l : List Nat) (s : Cursor) :
    l.foldl (lerpStep first second steps) s
      = putAll s (flat (l.map (mix first.color second.color steps))) := by
  induction l generalizing s with
  | nil => rfl
  | cons i l ih =>
    rw [List.foldl_cons, ih, lerpStep_eq, ← putAll_append]
    rfl

theorem lerpPair_eq (s : Cursor) (first second : Stone) :
    lerpPair s (first, second) = putAll s (flat (pairEntries first second)) :=
  foldl_lerpStep first second _ _ s

theorem foldl_lerpPair (map : List Stone) (s : Cursor) :
    (List.zip map map.tail).foldl lerpPair s = putAll s (flat (chainEntries map)) := by
  induction map generalizing s with
  | nil => rfl
  | cons first rest ih =>
    cases rest with
    | nil => rfl
    | cons second rest =>
      have h := ih (lerpPair s (first, second))
      simp only [List.tail_cons] at h
      simp only [List.tail_cons, List.zip_cons_cons, List.foldl_cons, chainEntries]
      rw [h, lerpPair_eq, flat_append, putAll_append]

theorem zip_dropLast_tail (map : List Stone) :
    List.zip (map.take (map.length - 1)) (map.drop (map.length - (map.length - 1)))
      = List.zip map map.tail := by
  cases map with
  | nil => rfl
  | cons a l =>
    have h1 : (a :: l).length - ((a :: l).length - 1) = 1 := by simp
    rw [h1, ← List.dropLast_eq_take]
    simp only [List.drop_one, List.tail_cons]
    clear h1
    induction l generalizing a with
    | nil => rfl
    | cons b l ih =>
      rw [List.dropLast_cons₂, List.zip_cons_cons, List.zip_cons_cons, ih b]

/-- All stores of `lerp` are the stores of one list of bytes. -/
theorem lerp_eq_putAll (map : List Stone) (last : Stone) :
    lerp map last
      = putAll { colorMap := List.replicate (256 * 3) 0, cmi := 0, written := [] }
          (flat (chainEntries map ++ [last.color])) := by
  unfold lerp
  simp only []
  rw [zip_dropLast_tail, foldl_lerpPair, flat_append, putAll_append]
  rfl

theorem putAll_spec (values : List Nat) (s : Cursor) (pre mid post : List Nat)
    (hs : s.colorMap = pre ++ mid ++ post) (hpre : pre.length = s.cmi)
    (hmid : mid.length = values.length) :
    putAll s values =
      { colorMap := pre ++ values.map (fun v => v % 256) ++ post
        cmi := s.cmi + values.length
        written := s.written ++ List.range' s.cmi values.length } := by
  induction values generalizing s pre mid with
  | nil =>
    cases mid with
    | nil => cases s; simp_all [putAll]
    | cons _ _ => simp at hmid
  | cons v values ih =>
    cases mid with
    | nil => simp at hmid
    | cons m mid =>
      have hlt : s.cmi < s.colorMap.length := by rw [hs]; simp; omega
      have hput : s.put v = { colorMap := (pre ++ [v % 256]) ++ mid ++ post
                              cmi := s.cmi + 1
                              written := s.written ++ [s.cmi] } := by
        unfold Cursor.put
        rw [if_pos hlt, hs, ← hpre]
        simp [List.append_assoc]
      have := ih (s.put v) (pre ++ [v % 256]) mid (by rw [hput]) (by rw [hput]; simp [hpre])
        (by simpa using hmid)
      show putAll (s.put v) values = _
      rw [this, hput]
      simp [List.range'_succ, List.append_assoc, Nat.add_assoc, Nat.add_comm 1]

/-- When exactly 768 values are stored, every position is written once, in order. -/
theorem lerp_full (map : List Stone) (last : Stone)
    (h : (chainEntries map).length = 255) :
    lerp map last =
      { colorMap := (flat (chainEntries map ++ [last.color])).map (fun v => v % 256)
        cmi := 768
        written := List.range 768 } := by
  have hlen : (flat (chainEntries map ++ [last.color])).length = 768 := by
    rw [flat_length]; simp [h]
  rw [lerp_eq_putAll, putAll_spec _ _ [] (List.replicate (256 * 3) 0) []
    (by simp only [List.nil_append, List.append_nil]) rfl
    (by rw [List.length_replicate, hlen])]
  simp only [List.nil_append, List.append_nil, hlen, Nat.zero_add, List.range_eq_range']

/-! ## Arithmetic of one interpolation step -/

theorem lerp_le (a b steps i bound : Nat) (ha : a ≤ bound) (hb : b ≤ bound) (hi : i ≤ steps) :
    (a * (steps - i) + b * i) / steps ≤ bound := by
  rcases Nat.eq_zero_or_pos steps with h | h
  · subst h; simp
  · apply Nat.div_le_of_le_mul
    calc a * (steps - i) + b * i ≤ bound * (steps - i) + bound * i :=
          Nat.add_le_add (Nat.mul_le_mul_right _ ha) (Nat.mul_le_mul_right _ hb)
      _ = bound * (steps - i + i) := by rw [Nat.mul_add]
      _ = bound * steps := by rw [Nat.sub_add_cancel hi]
      _ = steps * bound := Nat.mul_comm _ _

theorem lerp_zero (a b steps : Nat) (h : 0 < steps) : (a * (steps - 0) + b * 0) / steps = a := by
  simp [Nat.mul_div_cancel _ h]

theorem lerp_const (c steps i : Nat) (h : 0 < steps) (hi : i ≤ steps) :
    (c * (steps - i) + c * i) / steps = c := by
  rw [← Nat.mul_add, Nat.sub_add_cancel hi, Nat.mul_div_cancel _ h]

theorem mix_zero (first second : RGB) (steps : Nat) (h : 0 < steps) :
    mix first second steps 0 = first := by
  cases first
  simp only [mix, lerp_zero _ _ _ h]

theorem mix_const (c : RGB) (steps i : Nat) (h : i < steps) : mix c c steps i = c := by
  cases c
  simp only [mix, lerp_const _ _ _ (by omega : 0 < steps) (by omega : i ≤ steps)]

theorem mix_isByte (first second : RGB) (steps i : Nat) (h1 : first.IsByte) (h2 : second.IsByte)
    (hi : i ≤ steps) : (mix first second steps i).IsByte := by
  obtain ⟨a1, a2, a3⟩ := h1
  obtain ⟨b1, b2, b3⟩ := h2
  refine ⟨?_, ?_, ?_⟩
  · exact Nat.lt_succ_of_le (lerp_le _ _ _ _ 255 (by omega) (by omega) hi)
  · exact Nat.lt_succ_of_le (lerp_le _ _ _ _ 255 (by omega) (by omega) hi)
  · exact Nat.lt_succ_of_le (lerp_le _ _ _ _ 255 (by omega) (by omega) hi)

/-! ## Reading entries back from the bytes -/

theorem entry_flat (f : Nat → Nat) (es : List RGB) (i : Nat) (e : RGB) (h : es[i]? = some e) :
    entry ((flat es).map f) i = { r := f e.r, g := f e.g, b := f e.b } := by
  induction es generalizing i with
  | nil => simp at h
  | cons c cs ih =>
    cases i with
    | zero =>
      simp only [List.getElem?_cons_zero, Option.some.injEq] at h
      subst h
      simp [entry, flat]
    | succ i =>
      simp only [List.getElem?_cons_succ] at h
      have := ih i h
      simp only [entry, flat, List.map_cons] at this ⊢
      rw [show 3 * (i + 1) = 3 * i + 1 + 1 + 1 by omega,
        show 3 * i + 1 + 1 + 1 + 1 = 3 * i + 1 + 1 + 1 + 1 by rfl,
        show 3 * i + 1 + 1 + 1 + 2 = 3 * i + 2 + 1 + 1 + 1 by omega]
      simpa [List.getD_cons_succ] using this

theorem entry_flat_byte (es : List RGB) (i : Nat) (e : RGB) (h : es[i]? = some e)
    (hb : e.IsByte) : entry ((flat es).map (fun v => v % 256)) i = e := by
  rw [entry_flat _ es i e h]
  obtain ⟨h1, h2, h3⟩ := hb
  cases e
  simp only [RGB.mk.injEq]
  exact ⟨Nat.mod_eq_of_lt h1, Nat.mod_eq_of_lt h2, Nat.mod_eq_of_lt h3⟩

/-! ## Position of each pair in the table -/

theorem pairEntries_length (first second : Stone) :
    (pairEntries first second).length = second.index - first.index := by
  simp [pairEntries]

theorem pairEntries_get (first second : Stone) (i : Nat) (h : i < second.index - first.index) :
    (pairEntries first second)[i]?
      = some (mix first.color second.color (second.index - first.index) i) := by
  simp [pairEntries, List.getElem?_range h]

theorem mem_zip_tail_index (first : Stone) (rest : List Stone) (h : Ascending (first :: rest))
    (L R : Stone) (hLR : (L, R) ∈ List.zip (first :: rest) rest) :
    first.index ≤ L.index ∧ L.index < R.index := by
  induction rest generalizing first with
  | nil => simp at hLR
  | cons second rest ih =>
    simp only [List.zip_cons_cons, List.mem_cons, Prod.mk.injEq] at hLR
    have h' := List.pairwise_cons.mp h
    rcases hLR with ⟨rfl, rfl⟩ | hLR
    · exact ⟨Nat.le_refl _, h'.1 _ (List.mem_cons_self _ _)⟩
    · have := ih second h'.2 hLR
      have h2 := h'.1 second (List.mem_cons_self _ _)
      exact ⟨by omega, this.2⟩

theorem chainEntries_length (first : Stone) (rest : List Stone) (h : Ascending (first :: rest)) :
    (chainEntries (first :: rest)).length
      = ((first :: rest).getLast (List.cons_ne_nil _ _)).index - first.index := by
  induction rest generalizing first with
  | nil => simp [chainEntries]
  | cons second rest ih =>
    have h' := List.pairwise_cons.mp h
    have h1 := ih second h'.2
    have h2 := h'.1 second (List.mem_cons_self _ _)
    have h3 : second.index ≤ ((second :: rest).getLast (List.cons_ne_nil _ _)).index := by
      rcases List.mem_cons.mp (List.getLast_mem (List.cons_ne_nil second rest)) with h4 | h4
      · rw [h4]
      · exact Nat.le_of_lt ((List.pairwise_cons.mp h'.2).1 _ h4)
    rw [List.getLast_cons (List.cons_ne_nil _ _)]
    simp only [chainEntries, List.length_append, pairEntries_length, h1]
    omega

/-- The colours of the pair `(L, R)` occupy the entries `L.index - first.index + i`. -/
theorem chainEntries_get (first : Stone) (rest : List Stone) (h : Ascending (first :: rest))
    (L R : Stone) (hLR : (L, R) ∈ List.zip (first :: rest) rest)
    (i : Nat) (hi : i < R.index - L.index) :
    (chainEntries (first :: rest))[L.index - first.index + i]?
      = some (mix L.color R.color (R.index - L.index) i) := by
  induction rest generalizing first with
  | nil => simp at hLR
  | cons second rest ih =>
    have h' := List.pairwise_cons.mp h
    have h2 := h'.1 second (List.mem_cons_self _ _)
    simp only [List.zip_cons_cons, List.mem_cons, Prod.mk.injEq] at hLR
    simp only [chainEntries]
    rcases hLR with ⟨rfl, rfl⟩ | hLR
    · rw [Nat.sub_self, Nat.zero_add, List.getElem?_append_left (by rw [pairEntries_length]; exact hi)]
      exact pairEntries_get _ _ i hi
    · have h3 := mem_zip_tail_index second rest h'.2 L R hLR
      rw [List.getElem?_append_right (by rw [pairEntries_length]; omega), pairEntries_length,
        show L.index - first.index + i - (second.index - first.index) = L.index - second.index + i
          by omega]
      exact ih second h'.2 hLR

/-! ## Sorting, parsing and capping -/

theorem colorOf_eq (env : Env) (color : String) (c : RGB) (h : env.parseColor color = .ok c) :
    colorOf env color = c := by
  simp [colorOf, h]

theorem parseAll_ok (env : Env) (l : List Keystone) (w : World)
    (h : ∀ k ∈ l, ∃ c, env.parseColor k.color = .ok c) :
    parseAll env l w
      = (.ok (stonesOf env l),
         { w with trace := w.trace ++ l.map (fun k => Event.parseColor k.color) }) := by
  induction l generalizing w with
  | nil => simp [parseAll, stonesOf]
  | cons k l ih =>
    obtain ⟨c, hc⟩ := h k (List.mem_cons_self _ _)
    have := ih (w.emit (.parseColor k.color)) (fun k' hk' => h k' (List.mem_cons_of_mem _ hk'))
    simp only [World.emit] at this
    simp only [parseAll, hc, World.emit, this, stonesOf, List.map_cons, colorOf_eq env _ c hc,
      List.append_assoc, List.singleton_append]

theorem sortBy_perm (map : List Keystone) : (sortBy map).Perm map :=
  List.perm_insertionSort _ _

theorem sortBy_sorted (map : List Keystone) :
    (sortBy map).Pairwise (fun a b => a.index ≤ b.index) := by
  have h1 : IsTotal Keystone (fun a b => a.index ≤ b.index) := ⟨fun a b => Nat.le_total _ _⟩
  have h2 : IsTrans Keystone (fun a b => a.index ≤ b.index) := ⟨fun _ _ _ => Nat.le_trans⟩
  exact List.sorted_insertionSort _ _

theorem sortBy_nodup (map : List Keystone) :
    ((sortBy map).map Keystone.index).Nodup ↔ (map.map Keystone.index).Nodup :=
  ((sortBy_perm map).map _).nodup_iff

theorem stonesOf_ascending (env : Env) (map : List Keystone)
    (h : (map.map Keystone.index).Nodup) : Ascending (stonesOf env (sortBy map)) := by
  have h1 := sortBy_sorted map
  have h2 : (sortBy map).Pairwise (fun a b => a.index ≠ b.index) := by
    have := (sortBy_nodup map).mpr h
    rwa [List.Nodup, List.pairwise_map] at this
  unfold Ascending stonesOf
  rw [List.pairwise_map]
  exact (h1.and h2).imp (fun ⟨a, b⟩ => Nat.lt_of_le_of_ne a b)

theorem ascending_le_getLast (map : List Stone) (h : Ascending map) (hne : map ≠ [])
    (x : Stone) (hx : x ∈ map) : x.index ≤ (map.getLast hne).index := by
  induction map with
  | nil => exact absurd rfl hne
  | cons a l ih =>
    have h' := List.pairwise_cons.mp h
    cases l with
    | nil =>
      simp only [List.mem_singleton] at hx
      subst hx; simp
    | cons b l =>
      rw [List.getLast_cons (List.cons_ne_nil _ _)]
      rcases List.mem_cons.mp hx with rfl | hx
      · have := h'.1 _ (List.getLast_mem (List.cons_ne_nil b l))
        omega
      · exact ih h'.2 (List.cons_ne_nil _ _) hx

/-- What `addCaps` returns on an ascending non-empty list within `0..255`. -/
theorem addCaps_spec (first : Stone) (rest : List Stone) (h : Ascending (first :: rest))
    (hr : ∀ s ∈ first :: rest, s.index ≤ 255) :
    ∃ head tail,
      addCaps (first :: rest)
        = .ok (head :: tail, (first :: rest).getLast (List.cons_ne_nil _ _)) ∧
      Ascending (head :: tail) ∧
      head.index = 0 ∧ head.color = first.color ∧
      ((head :: tail).getLast (List.cons_ne_nil _ _)).index = 255 ∧
      ((head :: tail).getLast (List.cons_ne_nil _ _)).color
        = ((first :: rest).getLast (List.cons_ne_nil _ _)).color ∧
      (∀ s ∈ head :: tail, ∃ s' ∈ first :: rest, s.color = s'.color) ∧
      (∀ s ∈ first :: rest, s ∈ head :: tail) := by
  have hlast := ascending_le_getLast (first :: rest) h (List.cons_ne_nil _ _)
  have hmem := List.getLast_mem (List.cons_ne_nil first rest)
  have h' := List.pairwise_cons.mp h
  generalize hl : (first :: rest).getLast (List.cons_ne_nil _ _) = last at hlast hmem
  have hl255 := hr last hmem
  have hgl : ∀ (pre : List Stone), (pre ++ first :: rest).getLast? = some last := by
    intro pre
    rw [List.getLast?_append_of_ne_nil _ (List.cons_ne_nil _ _), List.getLast?_eq_getLast _
      (List.cons_ne_nil _ _), hl]
  by_cases h0 : first.index = 0 <;> by_cases h255 : last.index = 255
  · refine ⟨first, rest, ?_, h, h0, rfl, ?_, ?_, ?_, fun s hs => hs⟩
    · have := hgl []
      simp only [List.nil_append] at this
      simp [addCaps, h0, this, h255]
    · rw [hl]; exact h255
    · rw [hl]
    · exact fun s hs => ⟨s, hs, rfl⟩
  · refine ⟨first, rest ++ [{ color := last.color, index := 255 }], ?_, ?_, h0, rfl, ?_, ?_, ?_, ?_⟩
    · have := hgl []
      simp only [List.nil_append] at this
      simp [addCaps, h0, this, h255]
    · show Ascending ((first :: rest) ++ [_])
      unfold Ascending
      rw [List.pairwise_append]
      refine ⟨h, List.pairwise_singleton _ _, ?_⟩
      intro a ha b hb
      simp only [List.mem_singleton] at hb
      subst hb
      have := hlast a ha
      show a.index < 255
      omega
    · simp [List.getLast_cons, List.getLast_append]
    · simp [List.getLast_cons, List.getLast_append]
    · intro s hs
      rw [← List.cons_append, List.mem_append, List.mem_singleton] at hs
      rcases hs with hs | rfl
      · exact ⟨s, hs, rfl⟩
      · exact ⟨last, hmem, rfl⟩
    · intro s hs
      rw [← List.cons_append, List.mem_append]
      exact Or.inl hs
  · refine ⟨{ color := first.color, index := 0 }, first :: rest, ?_, ?_, rfl, rfl, ?_, ?_, ?_, ?_⟩
    · have := hgl [{ color := first.color, index := 0 }]
      simp only [List.singleton_append] at this
      simp [addCaps, h0, this, h255]
    · unfold Ascending
      rw [List.pairwise_cons]
      refine ⟨?_, h⟩
      intro a ha
      show 0 < a.index
      rcases List.mem_cons.mp ha with rfl | ha
      · omega
      · have := h'.1 a ha; omega
    · rw [List.getLast_cons (List.cons_ne_nil _ _), hl]; exact h255
    · rw [List.getLast_cons (List.cons_ne_nil _ _), hl]
    · intro s hs
      rcases List.mem_cons.mp hs with rfl | hs
      · exact ⟨first, List.mem_cons_self _ _, rfl⟩
      · exact ⟨s, hs, rfl⟩
    · exact fun s hs => List.mem_cons_of_mem _ hs
  · refine ⟨{ color := first.color, index := 0 },
      (first :: rest) ++ [{ color := last.color, index := 255 }], ?_, ?_, rfl, rfl, ?_, ?_, ?_, ?_⟩
    · have := hgl [{ color := first.color, index := 0 }]
      simp only [List.singleton_append] at this
      simp [addCaps, h0, this, h255]
    · unfold Ascending
      rw [List.pairwise_cons, List.pairwise_append]
      refine ⟨?_, h, List.pairwise_singleton _ _, ?_⟩
      · intro a ha
        show 0 < a.index
        rw [List.mem_append, List.mem_singleton] at ha
        rcases ha with ha | rfl
        · rcases List.mem_cons.mp ha with rfl | ha
          · omega
          · have := h'.1 a ha; omega
        · show 0 < 255
          omega
      · intro a ha b hb
        simp only [List.mem_singleton] at hb
        subst hb
        have := hlast a ha
        show a.index < 255
        omega
    · simp [List.getLast_cons, List.getLast_append]
    · simp [List.getLast_cons, List.getLast_append]
    · intro s hs
      rw [List.mem_cons, List.mem_append, List.mem_singleton] at hs
      rcases hs with rfl | hs | rfl
      · exact ⟨first, List.mem_cons_self _ _, rfl⟩
      · exact ⟨s, hs, rfl⟩
      · exact ⟨last, hmem, rfl⟩
    · intro s hs
      exact List.mem_cons_of_mem _ (List.mem_append_left _ hs)

/-! ## The table built from a capped list -/

theorem upload_fst (table : List Nat) (w : World) : (upload table w).1 = w.nextHandle := rfl

theorem upload_nextHandle (table : List Nat) (w : World) :
    (upload table w).2.nextHandle = w.nextHandle + 1 := by
  simp only [upload, createTexture, bindTexture, texImage2D, texParameteri, World.emit]

theorem upload_trace (table : List Nat) (w : World) :
    (upload table w).2.trace = w.trace ++
      [.createTexture w.nextHandle, .bindTexture w.nextHandle, .texImage2D 256 1 table,
       .texParameteri "TEXTURE_MAG_FILTER" "NEAREST", .texParameteri "TEXTURE_MIN_FILTER" "NEAREST",
       .texParameteri "TEXTURE_WRAP_S" "CLAMP_TO_EDGE",
       .texParameteri "TEXTURE_WRAP_T" "CLAMP_TO_EDGE"] := by
  simp [upload, createTexture, bindTexture, texImage2D, texParameteri, World.emit]

theorem upload_images (table : List Nat) (w : World) :
    (upload table w).2.images = (w.nextHandle, table) :: w.images := by
  simp only [upload, createTexture, bindTexture, texImage2D, texParameteri, World.emit]

theorem upload_image (table : List Nat) (w : World) :
    (upload table w).2.image w.nextHandle = some table := by
  simp [World.image, upload_images]

theorem table_facts (head : Stone) (tail : List Stone) (last : Stone)
    (hasc : Ascending (head :: tail)) (h0 : head.index = 0)
    (h255 : ((head :: tail).getLast (List.cons_ne_nil _ _)).index = 255)
    (hbytes : ∀ s ∈ head :: tail, s.color.IsByte) (hlast : last.color.IsByte) :
    lerp (head :: tail) last =
      { colorMap := (flat (chainEntries (head :: tail) ++ [last.color])).map (fun v => v % 256)
        cmi := 768
        written := List.range 768 } ∧
    (lerp (head :: tail) last).colorMap.length = 768 ∧
    (∀ L R, (L, R) ∈ List.zip (head :: tail) tail → ∀ i, i < R.index - L.index →
      entry (lerp (head :: tail) last).colorMap (L.index + i)
        = mix L.color R.color (R.index - L.index) i) ∧
    entry (lerp (head :: tail) last).colorMap 0 = head.color ∧
    entry (lerp (head :: tail) last).colorMap 255 = last.color := by
  have hlen : (chainEntries (head :: tail)).length = 255 := by
    rw [chainEntries_length head tail hasc, h255, h0]
  have hfull := lerp_full (head :: tail) last hlen
  have hpairs : ∀ L R, (L, R) ∈ List.zip (head :: tail) tail → ∀ i, i < R.index - L.index →
      entry (lerp (head :: tail) last).colorMap (L.index + i)
        = mix L.color R.color (R.index - L.index) i := by
    intro L R hLR i hi
    have hget := chainEntries_get head tail hasc L R hLR i hi
    rw [h0, Nat.sub_zero] at hget
    have hmem := List.of_mem_zip hLR
    rw [hfull]
    apply entry_flat_byte
    · rw [List.getElem?_append_left]
      · exact hget
      · exact (List.getElem?_eq_some_iff.mp hget).1
    · exact mix_isByte _ _ _ _ (hbytes L hmem.1) (hbytes R (List.mem_cons_of_mem _ hmem.2))
        (Nat.le_of_lt hi)
  refine ⟨hfull, ?_, hpairs, ?_, ?_⟩
  · rw [hfull]
    simp [flat_length, hlen]
  · cases tail with
    | nil =>
      simp only [List.getLast_singleton] at h255
      omega
    | cons second tail =>
      have hlt : head.index < second.index :=
        (List.pairwise_cons.mp hasc).1 second (List.mem_cons_self _ _)
      have := hpairs head second (by simp) 0 (by omega)
      rw [h0] at this
      rw [this, mix_zero _ _ _ (by omega)]
  · rw [hfull]
    apply entry_flat_byte _ _ _ _ hlast
    rw [List.getElem?_append_right (by omega), hlen]
    rfl

/-- Every colour of the table is the common colour of the stones, when they share one. -/
theorem chainEntries_const (c : RGB) (map : List Stone) (h : ∀ s ∈ map, s.color = c) :
    ∀ e ∈ chainEntries map, e = c := by
  induction map with
  | nil => simp [chainEntries]
  | cons first rest ih =>
    cases rest with
    | nil => simp [chainEntries]
    | cons second rest =>
      intro e he
      simp only [chainEntries, List.mem_append] at he
      rcases he with he | he
      · simp only [pairEntries, List.mem_map, List.mem_range] at he
        obtain ⟨i, hi, rfl⟩ := he
        rw [h first (List.mem_cons_self _ _),
          h second (List.mem_cons_of_mem _ (List.mem_cons_self _ _))]
        exact mix_const c _ i hi
      · exact ih (fun s hs => h s (List.mem_cons_of_mem _ hs)) e he

/-! ## `_buildColorMap` on a valid map -/

theorem build_unfold (env : Env) (map : List Keystone) (w w1 : World) (stones capped : List Stone)
    (last : Stone) (hd : (map.map Keystone.index).Nodup)
    (hp : parseAll env (sortBy map) w = (.ok stones, w1)) (hc : addCaps stones = .ok (capped, last)) :
    _buildColorMap env map w
      = (.ok w1.nextHandle, (upload (lerp capped last).colorMap w1).2) := by
  have h := (uniq_length_eq_iff _).mpr ((sortBy_nodup map).mpr hd)
  unfold _buildColorMap
  simp only [h, bne_self_eq_false, Bool.false_eq_true, if_false, hp, hc]
  generalize (lerp capped last).colorMap = table
  rfl

theorem key_of_index (map : List Keystone) (hd : (map.map Keystone.index).Nodup)
    (k k' : Keystone) (hk : k ∈ map) (hk' : k' ∈ map) (h : k.index = k'.index) : k = k' :=
  List.inj_on_of_nodup_map hd hk hk' h

theorem mem_stonesOf (env : Env) (map : List Keystone) (s : Stone) (hs : s ∈ stonesOf env map) :
    ∃ k ∈ map, s.index = k.index ∧ s.color = colorOf env k.color := by
  simp only [stonesOf, List.mem_map] at hs
  obtain ⟨k, hk, rfl⟩ := hs
  exact ⟨k, hk, rfl, rfl⟩

theorem stonesOf_mem (env : Env) (map : List Keystone) (k : Keystone) (hk : k ∈ map) :
    { color := colorOf env k.color, index := k.index } ∈ stonesOf env map :=
  List.mem_map.mpr ⟨k, hk, rfl⟩

/-- The facts about a successful build that the properties below rest on. -/
theorem build_valid (env : Env) (map : List Keystone) (w : World) (hv : ValidMap env map) :
    ∃ first rest head tail,
      stonesOf env (sortBy map) = first :: rest ∧
      parseAll env (sortBy map) w
        = (.ok (first :: rest),
           { w with trace := w.trace ++ (sortBy map).map (fun k => Event.parseColor k.color) }) ∧
      addCaps (first :: rest)
        = .ok (head :: tail, (first :: rest).getLast (List.cons_ne_nil _ _)) ∧
      _buildColorMap env map w
        = (.ok w.nextHandle,
           (upload (lerp (head :: tail) ((first :: rest).getLast (List.cons_ne_nil _ _))).colorMap
             { w with trace := w.trace ++ (sortBy map).map (fun k => Event.parseColor k.color) }).2) ∧
      Ascending (first :: rest) ∧
      Ascending (head :: tail) ∧ head.index = 0 ∧ head.color = first.color ∧
      ((head :: tail).getLast (List.cons_ne_nil _ _)).index = 255 ∧
      (∀ s ∈ head :: tail, ∃ s' ∈ first :: rest, s.color = s'.color) ∧
      (∀ s ∈ first :: rest, s ∈ head :: tail) ∧
      (∀ s ∈ first :: rest, s.color.IsByte) := by
  have hperm := sortBy_perm map
  have hparse : ∀ k ∈ sortBy map, ∃ c, env.parseColor k.color = .ok c := by
    intro k hk
    obtain ⟨c, hc, _⟩ := hv.parses k (hperm.mem_iff.mp hk)
    exact ⟨c, hc⟩
  have hp := parseAll_ok env (sortBy map) w hparse
  have hasc := stonesOf_ascending env map hv.distinct
  have hbyte : ∀ s ∈ stonesOf env (sortBy map), s.color.IsByte := by
    intro s hs
    obtain ⟨k, hk, _, hcol⟩ := mem_stonesOf env _ s hs
    obtain ⟨c, hc, hb⟩ := hv.parses k (hperm.mem_iff.mp hk)
    rw [hcol, colorOf_eq env _ c hc]
    exact hb
  have hrange : ∀ s ∈ stonesOf env (sortBy map), s.index ≤ 255 := by
    intro s hs
    obtain ⟨k, hk, hidx, _⟩ := mem_stonesOf env _ s hs
    rw [hidx]
    exact hv.inRange k (hperm.mem_iff.mp hk)
  have hne : stonesOf env (sortBy map) ≠ [] := by
    intro h
    have h1 : (sortBy map) = [] := List.map_eq_nil_iff.mp h
    rw [h1] at hperm
    exact hv.nonempty hperm.symm.eq_nil
  obtain ⟨first, rest, hfr⟩ := List.exists_cons_of_ne_nil hne
  rw [hfr] at hp hasc hbyte hrange
  obtain ⟨head, tail, hcaps, hasc', h0, hcol0, h255, _, hsub, hsup⟩ :=
    addCaps_spec first rest hasc hrange
  have hb := build_unfold env map w _ _ _ _ hv.distinct hp hcaps
  exact ⟨first, rest, head, tail, hfr, hp, hcaps, hb, hasc, hasc', h0, hcol0, h255, hsub, hsup,
    hbyte⟩

/-! ## Properties of `_buildColorMap` -/

/-- C1: for a non-empty keystone list with distinct indices in `0..255` whose
colours parse to byte triples, `_buildColorMap` succeeds; the lerp section
stores exactly 768 bytes, at the positions 0, 1, ..., 767 in turn; the uploaded
table has 768 bytes (256 RGB entries); entry 0 is the colour of the keystone
with the smallest index and entry 255 the colour of the keystone with the
largest index. -/
theorem buildColorMap_covers (env : Env) (map : List Keystone) (w : World)
    (hv : ValidMap env map) :
    ∃ stones w1 capped last w' table,
      parseAll env (sortBy map) w = (.ok stones, w1) ∧
      addCaps stones = .ok (capped, last) ∧
      (lerp capped last).written = List.range 768 ∧
      (lerp capped last).cmi = 768 ∧
      (lerp capped last).colorMap = table ∧
      _buildColorMap env map w = (.ok w.nextHandle, w') ∧
      w'.image w.nextHandle = some table ∧
      Event.texImage2D 256 1 table ∈ w'.trace ∧
      table.length = 256 * 3 ∧
      (∀ k ∈ map, (∀ k' ∈ map, k.index ≤ k'.index) →
        ∀ c, env.parseColor k.color = .ok c → entry table 0 = c) ∧
      (∀ k ∈ map, (∀ k' ∈ map, k'.index ≤ k.index) →
        ∀ c, env.parseColor k.color = .ok c → entry table 255 = c) := by
  obtain ⟨first, rest, head, tail, hfr, hp, hcaps, hb, hasc, hasc', h0, hcol0, h255, hsub, hsup,
    hbyte⟩ := build_valid env map w hv
  have hbytes : ∀ s ∈ head :: tail, s.color.IsByte := by
    intro s hs
    obtain ⟨s', hs', he⟩ := hsub s hs
    rw [he]; exact hbyte s' hs'
  have hlastmem := List.getLast_mem (List.cons_ne_nil first rest)
  obtain ⟨hfull, hlen, _, he0, he255⟩ := table_facts head tail _ hasc' h0 h255 hbytes
    (hbyte _ hlastmem)
  have hperm := sortBy_perm map
  refine ⟨_, _, _, _, _, _, hp, hcaps, ?_, ?_, rfl, hb, upload_image _ _, ?_, hlen, ?_, ?_⟩
  · rw [hfull]
  · rw [hfull]
  · rw [upload_trace]; simp
  · intro k hk hmin c hc
    rw [he0, hcol0]
    have hfm : first ∈ stonesOf env (sortBy map) := by rw [hfr]; exact List.mem_cons_self _ _
    obtain ⟨k', hk', hidx, hcol⟩ := mem_stonesOf env _ first hfm
    have hks : ({ color := colorOf env k.color, index := k.index } : Stone) ∈ first :: rest := by
      rw [← hfr]; exact stonesOf_mem env _ k (hperm.mem_iff.mpr hk)
    have hle : first.index ≤ k.index := by
      rcases List.mem_cons.mp hks with h | h
      · rw [← h]
      · exact Nat.le_of_lt ((List.pairwise_cons.mp hasc).1 _ h)
    have hk'm := hperm.mem_iff.mp hk'
    have := hmin k' hk'm
    have heq : k = k' := key_of_index map hv.distinct k k' hk hk'm (by omega)
    rw [hcol, ← heq, colorOf_eq env _ c hc]
  · intro k hk hmax c hc
    rw [he255]
    have hlm : (first :: rest).getLast (List.cons_ne_nil _ _) ∈ stonesOf env (sortBy map) := by
      rw [hfr]; exact hlastmem
    obtain ⟨k', hk', hidx, hcol⟩ := mem_stonesOf env _ _ hlm
    have hks : ({ color := colorOf env k.color, index := k.index } : Stone) ∈ first :: rest := by
      rw [← hfr]; exact stonesOf_mem env _ k (hperm.mem_iff.mpr hk)
    have hle := ascending_le_getLast _ hasc (List.cons_ne_nil _ _) _ hks
    have hk'm := hperm.mem_iff.mp hk'
    have := hmax k' hk'm
    have heq : k = k' := key_of_index map hv.distinct k k' hk hk'm (by simp only at hle; omega)
    rw [hcol, ← heq, colorOf_eq env _ c hc]

/-- C1 at the map `[{index 200, #102030}, {index 10, #ffFF00}]`: entry 0 is the
colour of the keystone at 10 and entry 255 the colour of the keystone at 200. -/
theorem buildColorMap_covers_witness :
    ValidMap sampleEnv sampleMap ∧
    ∃ stones w1 capped last w' table,
      parseAll sampleEnv (sortBy sampleMap) World.initial = (.ok stones, w1) ∧
      addCaps stones = .ok (capped, last) ∧
      (lerp capped last).written = List.range 768 ∧
      (lerp capped last).cmi = 768 ∧
      _buildColorMap sampleEnv sampleMap World.initial = (.ok 0, w') ∧
      w'.image 0 = some table ∧
      table.length = 768 ∧
      entry table 0 = { r := 255, g := 255, b := 0 } ∧
      entry table 255 = { r := 16, g := 32, b := 48 } := by
  have hv : ValidMap sampleEnv sampleMap :=
    { nonempty := by decide
      distinct := by decide
      inRange := by decide
      parses := by
        intro k hk
        simp only [sampleMap, List.mem_cons, List.mem_singleton, List.not_mem_nil, or_false] at hk
        rcases hk with rfl | rfl
        · exact ⟨{ r := 16, g := 32, b := 48 }, rfl, by decide, by decide, by decide⟩
        · exact ⟨{ r := 255, g := 255, b := 0 }, rfl, by decide, by decide, by decide⟩ }
  obtain ⟨stones, w1, capped, last, w', table, h1, h2, h3, h4, _, h6, h7, _, h9, hmin, hmax⟩ :=
    buildColorMap_covers sampleEnv sampleMap World.initial hv
  exact ⟨hv, stones, w1, capped, last, w', table, h1, h2, h3, h4, h6, h7, h9,
    hmin { index := 10, color := "#ffFF00" } (by decide) (by decide) _ rfl,
    hmax { index := 200, color := "#102030" } (by decide) (by decide) _ rfl⟩

/-- C2: for a valid keystone list the build succeeds, the sorted and capped
list runs in strictly increasing index order from 0 to 255 and contains every
parsed keystone, and for every adjacent pair `(L, R)` of it, with
`steps = R.index - L.index` and every `i < steps`, each channel of table entry
`L.index + i` is `floor((L_c * (steps - i) + R_c * i) / steps)`. -/
theorem buildColorMap_lerp (env : Env) (map : List Keystone) (w : World)
    (hv : ValidMap env map) :
    ∃ stones w1 capped last w' table,
      parseAll env (sortBy map) w = (.ok stones, w1) ∧
      addCaps stones = .ok (capped, last) ∧
      capped.Pairwise (fun a b => a.index < b.index) ∧
      capped.head?.map Stone.index = some 0 ∧
      capped.getLast?.map Stone.index = some 255 ∧
      (∀ k ∈ map, ∀ c, env.parseColor k.color = .ok c →
        ({ color := c, index := k.index } : Stone) ∈ capped) ∧
      _buildColorMap env map w = (.ok w.nextHandle, w') ∧
      w'.image w.nextHandle = some table ∧
      ∀ L R, (L, R) ∈ List.zip capped capped.tail → ∀ i, i < R.index - L.index →
        entry table (L.index + i) =
          { r := (L.color.r * (R.index - L.index - i) + R.color.r * i) / (R.index - L.index)
            g := (L.color.g * (R.index - L.index - i) + R.color.g * i) / (R.index - L.index)
            b := (L.color.b * (R.index - L.index - i) + R.color.b * i) / (R.index - L.index) } := by
  obtain ⟨first, rest, head, tail, hfr, hp, hcaps, hb, hasc, hasc', h0, hcol0, h255, hsub, hsup,
    hbyte⟩ := build_valid env map w hv
  have hbytes : ∀ s ∈ head :: tail, s.color.IsByte := by
    intro s hs
    obtain ⟨s', hs', he⟩ := hsub s hs
    rw [he]; exact hbyte s' hs'
  have hlastmem := List.getLast_mem (List.cons_ne_nil first rest)
  obtain ⟨_, _, hpairs, _, _⟩ := table_facts head tail _ hasc' h0 h255 hbytes (hbyte _ hlastmem)
  refine ⟨_, _, _, _, _, _, hp, hcaps, hasc', ?_, ?_, ?_, hb, upload_image _ _, ?_⟩
  · simp [h0]
  · rw [List.getLast?_eq_getLast _ (List.cons_ne_nil _ _)]
    simp [h255]
  · intro k hk c hc
    apply hsup
    rw [← hfr, ← colorOf_eq env _ c hc]
    exact stonesOf_mem env _ k ((sortBy_perm map).mem_iff.mpr hk)
  · intro L R hLR i hi
    exact hpairs L R hLR i hi

/-- C2 at the map `[{index 200, #102030}, {index 10, #ffFF00}]`: step 5 of the
pair from the keystone at 10 to the keystone at 200 is table entry 15. -/
theorem buildColorMap_lerp_witness :
    ValidMap sampleEnv sampleMap ∧
    ∃ w' table,
      _buildColorMap sampleEnv sampleMap World.initial = (.ok 0, w') ∧
      w'.image 0 = some table ∧
      entry table (10 + 5) =
        { r := (255 * (200 - 10 - 5) + 16 * 5) / (200 - 10)
          g := (255 * (200 - 10 - 5) + 32 * 5) / (200 - 10)
          b := (0 * (200 - 10 - 5) + 48 * 5) / (200 - 10) } ∧
      entry table 15 = { r := 248, g := 249, b := 1 } := by
  have hv : ValidMap sampleEnv sampleMap :=
    { nonempty := by decide
      distinct := by decide
      inRange := by decide
      parses := by
        intro k hk
        simp only [sampleMap, List.mem_cons, List.mem_singleton, List.not_mem_nil, or_false] at hk
        rcases hk with rfl | rfl
        · exact ⟨{ r := 16, g := 32, b := 48 }, rfl, by decide, by decide, by decide⟩
        · exact ⟨{ r := 255, g := 255, b := 0 }, rfl, by decide, by decide, by decide⟩ }
  obtain ⟨stones, w1, capped, last, w', table, h1, h2, _, _, _, _, h7, h8, hpairs⟩ :=
    buildColorMap_lerp sampleEnv sampleMap World.initial hv
  have e1 : (parseAll sampleEnv (sortBy sampleMap) World.initial).1
      = .ok [{ color := { r := 255, g := 255, b := 0 }, index := 10 },
             { color := { r := 16, g := 32, b := 48 }, index := 200 }] := by decide
  rw [h1] at e1
  obtain rfl := Except.ok.inj e1
  have e2 : addCaps [{ color := { r := 255, g := 255, b := 0 }, index := 10 },
             { color := { r := 16, g := 32, b := 48 }, index := 200 }]
      = .ok ([{ color := { r := 255, g := 255, b := 0 }, index := 0 },
              { color := { r := 255, g := 255, b := 0 }, index := 10 },
              { color := { r := 16, g := 32, b := 48 }, index := 200 },
              { color := { r := 16, g := 32, b := 48 }, index := 255 }],
             { color := { r := 16, g := 32, b := 48 }, index := 200 }) := by decide
  rw [h2] at e2
  obtain ⟨rfl, rfl⟩ := Prod.mk.inj (Except.ok.inj e2)
  have h := hpairs { color := { r := 255, g := 255, b := 0 }, index := 10 }
    { color := { r := 16, g := 32, b := 48 }, index := 200 } (by decide) 5 (by decide)
  exact ⟨hv, w', table, h7, h8, h, h⟩

/-- C3: the two-stop map `[{index 0, #000000}, {index 255, #FFFFFF}]` is the
default value of the `maps` option, and whenever the colour parser reads
`#000000` as `[0,0,0]` and `#FFFFFF` as `[255,255,255]`, `_buildColorMap`
builds from it a table whose entry `i` is `[i, i, i]` for every `i` in `0..255`. -/
theorem buildColorMap_twoStop (env : Env) (w : World)
    (hblack : env.parseColor "#000000" = .ok { r := 0, g := 0, b := 0 })
    (hwhite : env.parseColor "#FFFFFF" = .ok { r := 255, g := 255, b := 255 }) :
    defaultOptions.maps = [[{ index := 0, color := "#000000" }, { index := 255, color := "#FFFFFF" }]] ∧
    ∃ w' table,
      _buildColorMap env [{ index := 0, color := "#000000" }, { index := 255, color := "#FFFFFF" }] w
        = (.ok w.nextHandle, w') ∧
      w'.image w.nextHandle = some table ∧
      table.length = 256 * 3 ∧
      ∀ i, i ≤ 255 → entry table i = { r := i, g := i, b := i } := by
  refine ⟨rfl, ?_⟩
  have hsort : sortBy [{ index := 0, color := "#000000" }, { index := 255, color := "#FFFFFF" }]
      = [{ index := 0, color := "#000000" }, { index := 255, color := "#FFFFFF" }] := by decide
  have hp : parseAll env
      (sortBy [{ index := 0, color := "#000000" }, { index := 255, color := "#FFFFFF" }]) w
      = (.ok [{ color := { r := 0, g := 0, b := 0 }, index := 0 },
              { color := { r := 255, g := 255, b := 255 }, index := 255 }],
         (w.emit (.parseColor "#000000")).emit (.parseColor "#FFFFFF")) := by
    rw [hsort]
    simp only [parseAll, hblack, hwhite]
  have hc : addCaps [{ color := { r := 0, g := 0, b := 0 }, index := 0 },
              { color := { r := 255, g := 255, b := 255 }, index := 255 }]
      = .ok ([{ color := { r := 0, g := 0, b := 0 }, index := 0 },
              { color := { r := 255, g := 255, b := 255 }, index := 255 }],
             { color := { r := 255, g := 255, b := 255 }, index := 255 }) := by decide
  have hb := build_unfold env _ w _ _ _ _ (by decide) hp hc
  obtain ⟨_, hlen, hpairs, _, he255⟩ := table_facts
    { color := { r := 0, g := 0, b := 0 }, index := 0 }
    [{ color := { r := 255, g := 255, b := 255 }, index := 255 }]
    { color := { r := 255, g := 255, b := 255 }, index := 255 }
    (by unfold Ascending; decide) rfl rfl
    (by intro s hs
        simp only [List.mem_cons, List.mem_singleton, List.not_mem_nil, or_false] at hs
        rcases hs with rfl | rfl <;> exact ⟨by decide, by decide, by decide⟩)
    ⟨by decide, by decide, by decide⟩
  refine ⟨_, _, hb, upload_image _ _, hlen, ?_⟩
  intro i hi
  rcases Nat.lt_or_ge i 255 with hlt | hge
  · have := hpairs _ _ (List.mem_singleton.mpr rfl) i hlt
    simp only [Nat.zero_add] at this
    rw [this]
    simp only [mix, Nat.zero_mul, Nat.zero_add, Nat.sub_zero]
    rw [Nat.mul_div_cancel_left i (by decide : 0 < 255)]
  · have h255 : i = 255 := by omega
    subst h255
    exact he255

/-- C3 with the colour parser of the spec, on a fresh GL context. -/
theorem buildColorMap_twoStop_witness :
    sampleEnv.parseColor "#000000" = .ok { r := 0, g := 0, b := 0 } ∧
    sampleEnv.parseColor "#FFFFFF" = .ok { r := 255, g := 255, b := 255 } ∧
    defaultOptions.maps = [[{ index := 0, color := "#000000" }, { index := 255, color := "#FFFFFF" }]] ∧
    ∃ w' table,
      _buildColorMap sampleEnv
          [{ index := 0, color := "#000000" }, { index := 255, color := "#FFFFFF" }] World.initial
        = (.ok World.initial.nextHandle, w') ∧
      w'.image World.initial.nextHandle = some table ∧
      table.length = 256 * 3 ∧
      ∀ i, i ≤ 255 → entry table i = { r := i, g := i, b := i } :=
  ⟨by decide, by decide, buildColorMap_twoStop sampleEnv World.initial (by decide) (by decide)⟩

/-- C4: for a map with a single keystone at any index `k` in `0..255` whose
colour parses to a byte triple `C`, `_buildColorMap` succeeds and builds a flat
table: each of the 256 entries equals `C`. -/
theorem buildColorMap_singleStop (env : Env) (w : World) (k : Nat) (color : String) (c : RGB)
    (hk : k ≤ 255) (hc : env.parseColor color = .ok c) (hbyte : c.IsByte) :
    ∃ w' table,
      _buildColorMap env [{ index := k, color := color }] w = (.ok w.nextHandle, w') ∧
      w'.image w.nextHandle = some table ∧
      table.length = 256 * 3 ∧
      ∀ i, i ≤ 255 → entry table i = c := by
  have hv : ValidMap env [{ index := k, color := color }] :=
    { nonempty := List.cons_ne_nil _ _
      distinct := List.nodup_singleton _
      inRange := by
        intro k' hk'
        rw [List.mem_singleton.mp hk']; exact hk
      parses := by
        intro k' hk'
        rw [List.mem_singleton.mp hk']; exact ⟨c, hc, hbyte⟩ }
  obtain ⟨first, rest, head, tail, hfr, hp, hcaps, hb, hasc, hasc', h0, hcol0, h255, hsub, hsup,
    hbytes⟩ := build_valid env _ w hv
  have hstones : stonesOf env (sortBy [{ index := k, color := color }])
      = [{ color := c, index := k }] := by
    simp [stonesOf, sortBy, colorOf_eq env _ c hc]
  rw [hstones] at hfr
  obtain ⟨hfirst, hrest⟩ := List.cons.inj hfr
  subst hfirst hrest
  have hcolors : ∀ s ∈ head :: tail, s.color = c := by
    intro s hs
    obtain ⟨s', hs', he⟩ := hsub s hs
    rw [he, List.mem_singleton.mp hs']
  have hallbytes : ∀ s ∈ head :: tail, s.color.IsByte := by
    intro s hs
    rw [hcolors s hs]; exact hbyte
  obtain ⟨hfull, hlen, _, _, _⟩ := table_facts head tail
    ([({ color := c, index := k } : Stone)].getLast (List.cons_ne_nil _ _))
    hasc' h0 h255 hallbytes hbyte
  have hlen' : (chainEntries (head :: tail)).length = 255 := by
    rw [chainEntries_length head tail hasc', h255, h0]
  refine ⟨_, _, hb, upload_image _ _, hlen, ?_⟩
  intro i hi
  rw [hfull]
  have hi' : i < (chainEntries (head :: tail) ++ [c]).length := by
    rw [List.length_append, hlen']; simp; omega
  have hmem := List.getElem_mem hi'
  have hval : (chainEntries (head :: tail) ++ [c])[i] = c := by
    rcases List.mem_append.mp hmem with h | h
    · exact chainEntries_const c _ hcolors _ h
    · exact List.mem_singleton.mp h
  apply entry_flat_byte _ _ _ _ hbyte
  show (chainEntries (head :: tail) ++ [c])[i]? = some c
  rw [List.getElem?_eq_getElem hi', hval]

/-- C4 at the spec's example: index 50, colour `#102030`. -/
theorem buildColorMap_singleStop_witness :
    50 ≤ 255 ∧ sampleEnv.parseColor "#102030" = .ok { r := 16, g := 32, b := 48 } ∧
    RGB.IsByte { r := 16, g := 32, b := 48 } ∧
    ∃ w' table,
      _buildColorMap sampleEnv [{ index := 50, color := "#102030" }] World.initial
        = (.ok World.initial.nextHandle, w') ∧
      w'.image World.initial.nextHandle = some table ∧
      table.length = 256 * 3 ∧
      ∀ i, i ≤ 255 → entry table i = { r := 16, g := 32, b := 48 } :=
  ⟨by decide, by decide, ⟨by decide, by decide, by decide⟩,
    buildColorMap_singleStop sampleEnv World.initial 50 "#102030" { r := 16, g := 32, b := 48 }
      (by decide) (by decide) ⟨by decide, by decide, by decide⟩⟩

/-- C5: when two keystones of the list share an index, `_buildColorMap` throws
`Error("map cannot have repeated indices")` and returns no texture; the
collaborators are left exactly as they were, so no colour has been parsed and
no GL call (`createTexture`, `bindTexture`, `texImage2D`, ...) has been made.
This holds whatever the colour parser would have answered. -/
theorem buildColorMap_duplicate (env : Env) (map : List Keystone) (w : World)
    (hdup : ¬ (map.map Keystone.index).Nodup) :
    _buildColorMap env map w = (.error (.error "map cannot have repeated indices"), w) ∧
    (_buildColorMap env map w).2.trace = w.trace := by
  have h : (uniq ((sortBy map).map (fun mapItem => mapItem.index))).length
      ≠ ((sortBy map).map (fun mapItem => mapItem.index)).length := by
    intro h
    exact hdup ((sortBy_nodup map).mp ((uniq_length_eq_iff _).mp h))
  have hb : _buildColorMap env map w
      = (.error (.error "map cannot have repeated indices"), w) := by
    unfold _buildColorMap
    simp only [bne_iff_ne, ne_eq, h, not_false_eq_true, if_true]
  rw [hb]
  exact ⟨rfl, rfl⟩

/-- C5 at a map with two keystones at index 7 and colours that would not parse. -/
theorem buildColorMap_duplicate_witness :
    ¬ (([{ index := 7, color := "red" }, { index := 3, color := "#000000" },
          { index := 7, color := "blue" }] : List Keystone).map Keystone.index).Nodup ∧
    _buildColorMap sampleEnv [{ index := 7, color := "red" }, { index := 3, color := "#000000" },
        { index := 7, color := "blue" }] World.initial
      = (.error (.error "map cannot have repeated indices"), World.initial) ∧
    (_buildColorMap sampleEnv [{ index := 7, color := "red" }, { index := 3, color := "#000000" },
        { index := 7, color := "blue" }] World.initial).2.trace = World.initial.trace :=
  ⟨by decide, buildColorMap_duplicate sampleEnv _ World.initial (by decide)⟩

/-! ## Properties of `draw` -/

theorem draw_beat_sequential (random : RandomDraw) (self : ColorMap) (w : World)
    (colorMaps : List Texture) (program : Program) (m : Nat)
    (hmode : self.opts.mapCycleMode = "ONBEATSEQUENTIAL")
    (hmaps : self.colorMaps = some colorMaps) (hcount : 1 ≤ colorMaps.length)
    (hprog : self.program = some program) (hcur : self.currentMap = some m) :
    draw true random self w
      = (.ok (), { self with currentMap := some ((m + 1) % colorMaps.length) },
          w.emit (.runProgram program (colorMaps.get? ((m + 1) % colorMaps.length)))) := by
  have hne : colorMaps.length ≠ 0 := by omega
  have hcycle : cycle true random self
      = .ok { self with currentMap := some ((m + 1) % colorMaps.length) } := by
    simp [cycle, hmode, hmaps, hcur, succMod, hne]
  simp only [draw, hcycle, hprog, hmaps, elementAt]

/-- C6: in mode `ONBEATSEQUENTIAL`, in a state holding one texture per
configured map with `mapCount >= 1` maps, a `draw()` on a beat succeeds and
replaces `currentMap = m` by `(m + 1) mod mapCount`, leaving the other fields
alone; and starting from `currentMap = 0` (the value after a rebuild), a run of
`n` beat frames succeeds and leaves `currentMap = n mod mapCount`. -/
theorem draw_sequential (self : ColorMap) (w : World) (colorMaps : List Texture)
    (program : Program)
    (hmode : self.opts.mapCycleMode = "ONBEATSEQUENTIAL")
    (hmaps : self.colorMaps = some colorMaps)
    (hsync : colorMaps.length = self.opts.maps.length)
    (hcount : 1 ≤ self.opts.maps.length)
    (hprog : self.program = some program) :
    (∀ random m, self.currentMap = some m →
      ∃ w', draw true random self w
        = (.ok (), { self with currentMap := some ((m + 1) % self.opts.maps.length) }, w')) ∧
    (self.currentMap = some 0 →
      ∀ frames : List (Bool × RandomDraw), (∀ f ∈ frames, f.1 = true) →
        ∃ w', drawFrames frames self w
          = (.ok (), { self with currentMap := some (frames.length % self.opts.maps.length) },
              w')) := by
  constructor
  · intro random m hcur
    rw [← hsync]
    exact ⟨_, draw_beat_sequential random self w colorMaps program m hmode hmaps
      (by omega) hprog hcur⟩
  · intro hcur frames hbeats
    have key : ∀ (frames : List (Bool × RandomDraw)) (m : Nat) (s : ColorMap) (w : World),
        (∀ f ∈ frames, f.1 = true) → s.opts = self.opts → s.colorMaps = some colorMaps →
        s.program = some program → s.currentMap = some (m % self.opts.maps.length) →
        ∃ w', drawFrames frames s w
          = (.ok (), { s with currentMap := some ((m + frames.length) % self.opts.maps.length) },
              w') := by
      intro frames
      induction frames with
      | nil =>
        intro m s w _ _ _ _ hc
        refine ⟨w, ?_⟩
        simp only [drawFrames, List.length_nil, Nat.add_zero, ← hc]
      | cons f rest ih =>
        intro m s w hb ho hm hp hc
        have hf : f.1 = true := hb f (List.mem_cons_self _ _)
        have hd := draw_beat_sequential f.2 s w colorMaps program (m % self.opts.maps.length)
          (by rw [ho]; exact hmode) hm (by omega) hp hc
        rw [hsync, Nat.mod_add_mod] at hd
        obtain ⟨w', hw'⟩ := ih (m + 1)
          { s with currentMap := some ((m + 1) % self.opts.maps.length) }
          (w.emit (.runProgram program (colorMaps.get? ((m + 1) % self.opts.maps.length))))
          (fun g hg => hb g (List.mem_cons_of_mem _ hg)) ho hm hp rfl
        refine ⟨w', ?_⟩
        simp only [drawFrames, hf, hd, hw', List.length_cons]
        rw [show m + 1 + rest.length = m + (rest.length + 1) by omega]
    obtain ⟨w', hw'⟩ := key frames 0 self w hbeats rfl hmaps hprog
      (by rw [hcur, Nat.zero_mod])
    exact ⟨w', by rw [hw', Nat.zero_add]⟩

/-- C6 with three configured maps: the state is the one `init` produces, and
one, two and three consecutive beats leave `currentMap` at 1, 2 and 0. -/
theorem draw_sequential_witness :
    threeMapOptions.mapCycleMode = "ONBEATSEQUENTIAL" ∧
    (init sampleEnv ⟨threeMapOptions, none, none, none⟩ World.initial).2.1
      = ⟨threeMapOptions, some 0, some [1, 2, 3], some 0⟩ ∧
    (∃ w', draw true RandomDraw.zero ⟨threeMapOptions, some 0, some [1, 2, 3], some 0⟩
        World.initial = (.ok (), ⟨threeMapOptions, some 0, some [1, 2, 3], some 1⟩, w')) ∧
    (∃ w', drawFrames [(true, RandomDraw.zero), (true, RandomDraw.zero)]
        ⟨threeMapOptions, some 0, some [1, 2, 3], some 0⟩ World.initial
      = (.ok (), ⟨threeMapOptions, some 0, some [1, 2, 3], some 2⟩, w')) ∧
    (∃ w', drawFrames [(true, RandomDraw.zero), (true, RandomDraw.zero), (true, RandomDraw.zero)]
        ⟨threeMapOptions, some 0, some [1, 2, 3], some 0⟩ World.initial
      = (.ok (), ⟨threeMapOptions, some 0, some [1, 2, 3], some 0⟩, w')) :=
  have h := draw_sequential ⟨threeMapOptions, some 0, some [1, 2, 3], some 0⟩ World.initial
    [1, 2, 3] 0 (by decide) rfl (by decide) (by decide) rfl
  ⟨by decide, by decide, h.1 RandomDraw.zero 0 rfl,
    h.2 rfl [(true, RandomDraw.zero), (true, RandomDraw.zero)]
      (fun f hf => by
        simp only [List.mem_cons, List.mem_singleton, List.not_mem_nil, or_false] at hf
        rcases hf with rfl | rfl <;> rfl),
    h.2 rfl [(true, RandomDraw.zero), (true, RandomDraw.zero), (true, RandomDraw.zero)]
      (fun f hf => by
        simp only [List.mem_cons, List.mem_singleton, List.not_mem_nil, or_false] at hf
        rcases hf with rfl | rfl | rfl <;> rfl)⟩

theorem cycle_stable (beat : Bool) (random : RandomDraw) (self : ColorMap)
    (h : beat = false ∨ self.opts.mapCycleMode = "SINGLE") : cycle beat random self = .ok self := by
  rcases h with h | h
  · simp [cycle, h]
  · cases beat <;> simp [cycle, h]

theorem draw_stable_step (beat : Bool) (random : RandomDraw) (self : ColorMap) (w : World)
    (h : beat = false ∨ self.opts.mapCycleMode = "SINGLE") :
    (draw beat random self w).2.1 = self := by
  unfold draw
  rw [cycle_stable beat random self h]
  dsimp only
  split
  · rfl
  · split <;> rfl

/-- C7: `draw()` leaves `currentMap` (indeed every field of the component)
unchanged when the beat signal is false, in any cycle mode, and when the cycle
mode is `SINGLE`, for any beat signal; hence after any number `n` of the frames
of a run without a beat (or of any run in mode `SINGLE`) the component is
still in its initial state. -/
theorem draw_stable (self : ColorMap) (w : World) :
    (∀ beat random, beat = false ∨ self.opts.mapCycleMode = "SINGLE" →
      (draw beat random self w).2.1 = self ∧
      (draw beat random self w).2.1.currentMap = self.currentMap) ∧
    (∀ frames : List (Bool × RandomDraw),
      (∀ f ∈ frames, f.1 = false) ∨ self.opts.mapCycleMode = "SINGLE" →
      ∀ n, (drawFrames (frames.take n) self w).2.1 = self ∧
        (drawFrames (frames.take n) self w).2.1.currentMap = self.currentMap) := by
  constructor
  · intro beat random h
    rw [draw_stable_step beat random self w h]
    exact ⟨rfl, rfl⟩
  · intro frames h n
    have key : ∀ (l : List (Bool × RandomDraw)) (w : World),
        (∀ f ∈ l, f.1 = false ∨ self.opts.mapCycleMode = "SINGLE") →
        (drawFrames l self w).2.1 = self := by
      intro l
      induction l with
      | nil => intro w _; rfl
      | cons f rest ih =>
        intro w hl
        have hstep := draw_stable_step f.1 f.2 self w (hl f (List.mem_cons_self _ _))
        have hrest := fun w' => ih w' (fun g hg => hl g (List.mem_cons_of_mem _ hg))
        unfold drawFrames
        rcases hd : draw f.1 f.2 self w with ⟨r, s, w1⟩
        rw [hd] at hstep
        simp only at hstep
        subst hstep
        cases r with
        | error e => rfl
        | ok u => exact hrest w1
    have hall : ∀ f ∈ frames.take n, f.1 = false ∨ self.opts.mapCycleMode = "SINGLE" := by
      intro f hf
      rcases h with h | h
      · exact Or.inl (h f (List.mem_of_mem_take hf))
      · exact Or.inr h
    rw [key _ w hall]
    exact ⟨rfl, rfl⟩

/-- C7 on the three-map component in mode `ONBEATSEQUENTIAL`: a frame without
a beat, and the first two frames of a run of three beat-less frames. -/
theorem draw_stable_witness :
    ((draw false RandomDraw.zero ⟨threeMapOptions, some 0, some [1, 2, 3], some 2⟩
        World.initial).2.1 = ⟨threeMapOptions, some 0, some [1, 2, 3], some 2⟩ ∧
     (draw false RandomDraw.zero ⟨threeMapOptions, some 0, some [1, 2, 3], some 2⟩
        World.initial).2.1.currentMap = some 2) ∧
    ((drawFrames
        ([(false, RandomDraw.zero), (false, RandomDraw.zero), (false, RandomDraw.zero)].take 2)
        ⟨threeMapOptions, some 0, some [1, 2, 3], some 2⟩ World.initial).2.1
      = ⟨threeMapOptions, some 0, some [1, 2, 3], some 2⟩ ∧
     (drawFrames
        ([(false, RandomDraw.zero), (false, RandomDraw.zero), (false, RandomDraw.zero)].take 2)
        ⟨threeMapOptions, some 0, some [1, 2, 3], some 2⟩ World.initial).2.1.currentMap
      = some 2) :=
  ⟨(draw_stable _ World.initial).1 false RandomDraw.zero (Or.inl rfl),
   (draw_stable _ World.initial).2 _ (Or.inl (by
      intro f hf
      simp only [List.mem_cons, List.mem_singleton, List.not_mem_nil, or_false] at hf
      rcases hf with rfl | rfl | rfl <;> rfl)) 2⟩

/-! ## Effects of the rebuild routines on the collaborators -/

theorem parseAll_frame (env : Env) (l : List Keystone) (w : World) :
    ∃ evs, (parseAll env l w).2 = { w with trace := w.trace ++ evs } ∧
      ∀ e ∈ evs, ∃ c, e = Event.parseColor c := by
  induction l generalizing w with
  | nil => exact ⟨[], by simp [parseAll], by simp⟩
  | cons k l ih =>
    obtain ⟨evs, h1, h2⟩ := ih (w.emit (.parseColor k.color))
    unfold parseAll
    cases hk : env.parseColor k.color with
    | error e =>
      exact ⟨[.parseColor k.color], rfl, by simp⟩
    | ok c =>
      refine ⟨.parseColor k.color :: evs, ?_, ?_⟩
      · have h3 : (match parseAll env l (w.emit (.parseColor k.color)) with
            | (.error e, w2) => ((.error e : Except JsError (List Stone)), w2)
            | (.ok stones, w2) => (.ok ({ color := c, index := k.index } :: stones), w2)).2
            = (parseAll env l (w.emit (.parseColor k.color))).2 := by
          rcases parseAll env l (w.emit (.parseColor k.color)) with ⟨r, w2⟩
          cases r <;> rfl
        simp only [World.emit] at h1 h3 ⊢
        rw [h3, h1]
        simp
      · intro e he
        rcases List.mem_cons.mp he with rfl | he
        · exact ⟨_, rfl⟩
        · exact h2 e he

/-- A successful build is an upload on top of the parse events. -/
theorem build_shape (env : Env) (map : List Keystone) (w w' : World) (t : Texture)
    (h : _buildColorMap env map w = (.ok t, w')) :
    ∃ evs table, t = w.nextHandle ∧
      w' = (upload table { w with trace := w.trace ++ evs }).2 ∧
      ∀ e ∈ evs, ∃ c, e = Event.parseColor c := by
  obtain ⟨evs, h1, h2⟩ := parseAll_frame env (sortBy map) w
  unfold _buildColorMap at h
  simp only at h
  split at h
  · simp at h
  · rcases hp : parseAll env (sortBy map) w with ⟨r, w1⟩
    rw [hp] at h h1
    simp only at h1
    subst h1
    cases r with
    | error e => simp at h
    | ok stones =>
      simp only at h
      cases hc : addCaps stones with
      | error e => rw [hc] at h; simp at h
      | ok p =>
        obtain ⟨capped, last⟩ := p
        rw [hc] at h
        simp only [Prod.mk.injEq, Except.ok.injEq] at h
        refine ⟨evs, (lerp capped last).colorMap, ?_, ?_, h2⟩
        · rw [← h.1]; rfl
        · rw [← h.2]

theorem deleteAll_eq (colorMaps : List Texture) (w : World) :
    deleteAll colorMaps w = { w with trace := w.trace ++ colorMaps.map Event.deleteTexture } := by
  unfold deleteAll
  induction colorMaps generalizing w with
  | nil => simp
  | cons t l ih =>
    rw [List.foldl_cons, ih]
    simp [deleteTexture, World.emit]

theorem find_skip (added rest : List (Texture × List Nat)) (t : Texture)
    (h : ∀ p ∈ added, p.1 ≠ t) :
    (added ++ rest).find? (fun p => p.1 == t) = rest.find? (fun p => p.1 == t) := by
  induction added with
  | nil => rfl
  | cons p added ih =>
    have hp : (p.1 == t) = false := by simpa using h p (List.mem_cons_self _ _)
    rw [List.cons_append, List.find?_cons, hp]
    exact ih (fun q hq => h q (List.mem_cons_of_mem _ hq))

/-- What a successful `_.map(this.opts.maps, ...)` has done. -/
theorem buildAll_shape (env : Env) (maps : List (List Keystone)) (w w' : World)
    (textures : List Texture) (h : buildAll env maps w = (.ok textures, w')) :
    textures = List.range' w.nextHandle maps.length ∧
    w'.nextHandle = w.nextHandle + maps.length ∧
    ∃ evs added, w'.trace = w.trace ++ evs ∧
      (∀ t ∈ textures, Event.createTexture t ∈ evs) ∧
      (∀ t, Event.deleteTexture t ∉ evs) ∧
      w'.images = added ++ w.images ∧
      (∀ p ∈ added, w.nextHandle ≤ p.1) ∧
      ∀ i map, maps[i]? = some map → ∃ table wa wb,
        _buildColorMap env map wa = (.ok (w.nextHandle + i), wb) ∧
        wb.image (w.nextHandle + i) = some table ∧
        w'.image (w.nextHandle + i) = some table := by
  induction maps generalizing w w' textures with
  | nil =>
    simp only [buildAll, Prod.mk.injEq, Except.ok.injEq] at h
    obtain ⟨rfl, rfl⟩ := h
    exact ⟨rfl, rfl, [], [], by simp, by simp, by simp, by simp, by simp, by simp⟩
  | cons map rest ih =>
    unfold buildAll at h
    rcases hb : _buildColorMap env map w with ⟨r, w1⟩
    rw [hb] at h
    cases r with
    | error e => simp at h
    | ok t =>
      simp only at h
      rcases hr : buildAll env rest w1 with ⟨r2, w2⟩
      rw [hr] at h
      cases r2 with
      | error e => simp at h
      | ok ts =>
        simp only [Prod.mk.injEq, Except.ok.injEq] at h
        obtain ⟨rfl, rfl⟩ := h
        obtain ⟨evs1, table, ht, hw1, hevs1⟩ := build_shape env map w w1 t hb
        obtain ⟨hts, hnext, evs2, added, htrace, hcreate, hdelete, himages, hkeys, hget⟩ :=
          ih w1 w2 ts hr
        have ht' : @Eq Nat t w.nextHandle := ht
        have hn1 : w1.nextHandle = w.nextHandle + 1 := by rw [hw1, upload_nextHandle]
        obtain ⟨evsA, htr1, hcreateA, hdeleteA⟩ : ∃ evsA, w1.trace = w.trace ++ evsA ∧
            Event.createTexture t ∈ evsA ∧ ∀ x, Event.deleteTexture x ∉ evsA := by
          refine ⟨evs1 ++ [.createTexture t, .bindTexture t, .texImage2D 256 1 table,
             .texParameteri "TEXTURE_MAG_FILTER" "NEAREST",
             .texParameteri "TEXTURE_MIN_FILTER" "NEAREST",
             .texParameteri "TEXTURE_WRAP_S" "CLAMP_TO_EDGE",
             .texParameteri "TEXTURE_WRAP_T" "CLAMP_TO_EDGE"], ?_, by simp, ?_⟩
          · rw [hw1, upload_trace, ht]; simp
          · intro x hx
            rcases List.mem_append.mp hx with hx | hx
            · obtain ⟨c, hc⟩ := hevs1 _ hx
              cases hc
            · simp at hx
        have him1 : w1.images = (t, table) :: w.images := by
          rw [hw1, upload_images, ht]
        refine ⟨?_, ?_, evsA ++ evs2, added ++ [(t, table)], ?_, ?_, ?_, ?_, ?_, ?_⟩
        · rw [hts, hn1, ht, List.length_cons, List.range'_succ]
        · rw [hnext, hn1, List.length_cons]; omega
        · rw [htrace, htr1, List.append_assoc]
        · intro x hx
          rcases List.mem_cons.mp hx with rfl | hx
          · exact List.mem_append_left _ hcreateA
          · exact List.mem_append_right _ (hcreate x hx)
        · intro x hx
          rcases List.mem_append.mp hx with hx | hx
          · exact hdeleteA x hx
          · exact hdelete x hx
        · rw [himages, him1]; simp
        · intro p hp
          rcases List.mem_append.mp hp with hp | hp
          · have := hkeys p hp; omega
          · rw [List.mem_singleton.mp hp, ht]
        · intro i m hm
          cases i with
          | zero =>
            simp only [List.getElem?_cons_zero, Option.some.injEq] at hm
            subst hm
            refine ⟨table, w, w1, ?_, ?_, ?_⟩
            · rw [hb, ht]; rfl
            · rw [Nat.add_zero, ← ht]
              simp [World.image, him1]
            · rw [Nat.add_zero, ← ht]
              unfold World.image
              rw [himages, find_skip added _ t
                (fun p hp => Nat.ne_of_gt (by have := hkeys p hp; omega)), him1]
              simp
          | succ i =>
            simp only [List.getElem?_cons_succ] at hm
            obtain ⟨table', wa, wb, h1, h2, h3⟩ := hget i m hm
            rw [hn1, show w.nextHandle + 1 + i = w.nextHandle + (i + 1) by omega] at h1 h2 h3
            exact ⟨table', wa, wb, h1, h2, h3⟩

theorem colorMapProgram_shape (env : Env) (key : String) (blendMode : Nat) (w : World) :
    ∃ evs, (ColorMapProgram env key blendMode w).2.trace = w.trace ++ evs ∧
      (∀ e ∈ evs, ∃ p o, e = Event.newProgram p o) ∧
      (ColorMapProgram env key blendMode w).2.images = w.images ∧
      w.nextHandle ≤ (ColorMapProgram env key blendMode w).2.nextHandle := by
  unfold ColorMapProgram
  cases keyEq key with
  | error e => exact ⟨[], by simp, by simp, rfl, Nat.le_refl _⟩
  | ok expr =>
    dsimp only
    cases env.quadBoxProgram (programOptions expr blendMode) <;>
      exact ⟨[_], rfl, by simp, rfl, Nat.le_succ _⟩

/-- The frame of `updateProgram`: it touches the program and nothing else. -/
theorem updateProgram_shape (env : Env) (self : ColorMap) (w : World) :
    (updateProgram env self w).2.1.colorMaps = self.colorMaps ∧
    (updateProgram env self w).2.1.currentMap = self.currentMap ∧
    (updateProgram env self w).2.1.opts = self.opts ∧
    (updateProgram env self w).2.2.images = w.images ∧
    w.nextHandle ≤ (updateProgram env self w).2.2.nextHandle ∧
    ∃ evs, (updateProgram env self w).2.2.trace = w.trace ++ evs ∧
      ∀ e ∈ evs, (∃ p, e = Event.cleanupProgram p) ∨ (∃ n, e = Event.getBlendMode n) ∨
        (∃ p o, e = Event.newProgram p o) := by
  obtain ⟨evs0, hw0, hevs0⟩ : ∃ evs0,
      ((match self.program with
        | some program => w.emit (.cleanupProgram program)
        | none => w).emit (.getBlendMode self.opts.output))
        = { w with trace := w.trace ++ evs0 } ∧
      ∀ e ∈ evs0, (∃ p, e = Event.cleanupProgram p) ∨ (∃ n, e = Event.getBlendMode n) ∨
        (∃ p o, e = Event.newProgram p o) := by
    cases self.program with
    | none =>
      exact ⟨[_], rfl, by
        intro e he
        rw [List.mem_singleton.mp he]
        exact Or.inr (Or.inl ⟨_, rfl⟩)⟩
    | some p =>
      refine ⟨[.cleanupProgram p, .getBlendMode self.opts.output], ?_, ?_⟩
      · simp [World.emit]
      · intro e he
        simp only [List.mem_cons, List.mem_singleton, List.not_mem_nil, or_false] at he
        rcases he with rfl | rfl
        · exact Or.inl ⟨_, rfl⟩
        · exact Or.inr (Or.inl ⟨_, rfl⟩)
  unfold updateProgram
  dsimp only
  rw [hw0]
  cases env.getBlendMode self.opts.output with
  | error e => exact ⟨rfl, rfl, rfl, rfl, Nat.le_refl _, evs0, rfl, hevs0⟩
  | ok output =>
    dsimp only
    obtain ⟨evs1, h1, h2, h3, h4⟩ := colorMapProgram_shape env self.opts.key output
      { w with trace := w.trace ++ evs0 }
    generalize ColorMapProgram env self.opts.key output { w with trace := w.trace ++ evs0 }
      = res at h1 h3 h4 ⊢
    obtain ⟨r, w3⟩ := res
    have hev : ∀ e ∈ evs0 ++ evs1, (∃ p, e = Event.cleanupProgram p) ∨
        (∃ n, e = Event.getBlendMode n) ∨ (∃ p o, e = Event.newProgram p o) := by
      intro e he
      rcases List.mem_append.mp he with he | he
      · exact hevs0 e he
      · exact Or.inr (Or.inr (h2 e he))
    cases r <;>
      exact ⟨rfl, rfl, rfl, h3, h4, evs0 ++ evs1, by rw [h1, List.append_assoc], hev⟩

theorem updateMap_rebuilt (env : Env) (self : ColorMap) (w : World)
    (h : (updateMap env self w).1 = .ok ()) :
    Rebuilt env self.colorMaps self.opts.maps w (updateMap env self w).2.1
      (updateMap env self w).2.2 := by
  obtain ⟨dels, hw1, hdels⟩ : ∃ dels,
      (match self.colorMaps with
        | some colorMaps => deleteAll colorMaps w
        | none => w) = { w with trace := w.trace ++ dels } ∧
      ∀ t ∈ self.colorMaps.getD [], Event.deleteTexture t ∈ dels := by
    cases self.colorMaps with
    | none => exact ⟨[], by simp, by simp⟩
    | some l =>
      exact ⟨l.map Event.deleteTexture, deleteAll_eq l w,
        fun t ht => List.mem_map.mpr ⟨t, ht, rfl⟩⟩
  unfold updateMap at h ⊢
  dsimp only at h ⊢
  rw [hw1] at h ⊢
  generalize hb : buildAll env self.opts.maps { w with trace := w.trace ++ dels } = res at h ⊢
  obtain ⟨r, w2⟩ := res
  cases r with
  | error e => simp at h
  | ok textures =>
    obtain ⟨hts, hnext, evs, added, htrace, hcreate, hdelete, himages, hkeys, hget⟩ :=
      buildAll_shape env _ _ _ _ hb
    refine ⟨rfl, textures, dels ++ evs, rfl, ?_, ?_, ?_, ?_, ?_⟩
    · rw [hts, List.length_range']
    · rw [hts]; exact List.nodup_range' _ _
    · show w2.trace = w.trace ++ (dels ++ evs)
      rw [htrace, List.append_assoc]
    · exact fun t ht => List.mem_append_left _ (hdels t ht)
    · intro i map hm
      obtain ⟨table, wa, wb, h1, h2, h3⟩ := hget i map hm
      have hi : i < self.opts.maps.length := (List.getElem?_eq_some_iff.mp hm).1
      refine ⟨w.nextHandle + i, table, wa, wb, ?_, Nat.le_add_right _ _, ?_, h1, h2, h3⟩
      · rw [hts]
        show (List.range' w.nextHandle self.opts.maps.length)[i]? = some (w.nextHandle + i)
        rw [List.getElem?_range' _ _ hi, Nat.one_mul]
      · apply List.mem_append_right
        apply hcreate
        rw [hts]
        exact List.mem_range'_1.mpr ⟨Nat.le_add_right _ _, by
          show w.nextHandle + i < w.nextHandle + self.opts.maps.length
          omega⟩

/-- C8: after a successful `init()`, and after every successful `updateMap()`
(the handler of a change of the `maps` option), `currentMap` is 0, `colorMaps`
holds exactly one texture per configured map, in the configured order, each
newly created and built from that map by `_buildColorMap`, and every texture
held before the rebuild has been passed to `deleteTexture`. -/
theorem rebuild_resets (env : Env) (self : ColorMap) (w : World) :
    onChange.lookup "maps" = some Handler.updateMap ∧
    ((updateMap env self w).1 = .ok () →
      Rebuilt env self.colorMaps self.opts.maps w (updateMap env self w).2.1
        (updateMap env self w).2.2) ∧
    ((init env self w).1 = .ok () →
      Rebuilt env self.colorMaps self.opts.maps w (init env self w).2.1 (init env self w).2.2) := by
  refine ⟨rfl, updateMap_rebuilt env self w, ?_⟩
  intro h
  obtain ⟨hcm, _, hopts, _, hnext, evs0, htr0, _⟩ := updateProgram_shape env self w
  unfold init at h ⊢
  generalize updateProgram env self w = res at h hcm hopts hnext htr0 ⊢
  obtain ⟨r, self1, w1⟩ := res
  cases r with
  | error e => simp at h
  | ok u =>
    dsimp only at h hcm hopts hnext htr0 ⊢
    obtain ⟨h0, colorMaps, evs, h1, h2, h3, h4, h5, h6⟩ := updateMap_rebuilt env self1 w1 h
    rw [hcm] at h5
    rw [hopts] at h2 h6
    refine ⟨h0, colorMaps, evs0 ++ evs, h1, h2, h3, ?_, ?_, ?_⟩
    · rw [h4, htr0, List.append_assoc]
    · exact fun t ht => List.mem_append_right _ (h5 t ht)
    · intro i map hm
      obtain ⟨t, table, wa, wb, g1, g2, g3, g4, g5, g6⟩ := h6 i map hm
      exact ⟨t, table, wa, wb, g1, Nat.le_trans hnext g2, List.mem_append_right _ g3, g4, g5, g6⟩

/-- C8 on the three-map component: a rebuild that replaces the textures 1, 2, 3,
and an `init()` of a new component. -/
theorem rebuild_resets_witness :
    (updateMap sampleEnv ⟨threeMapOptions, some 0, some [1, 2, 3], some 2⟩ ⟨[], 4, none, []⟩).1
      = .ok () ∧
    Rebuilt sampleEnv (some [1, 2, 3]) threeMapOptions.maps ⟨[], 4, none, []⟩
      (updateMap sampleEnv ⟨threeMapOptions, some 0, some [1, 2, 3], some 2⟩ ⟨[], 4, none, []⟩).2.1
      (updateMap sampleEnv ⟨threeMapOptions, some 0, some [1, 2, 3], some 2⟩ ⟨[], 4, none, []⟩).2.2 ∧
    (init sampleEnv ⟨threeMapOptions, none, none, none⟩ World.initial).1 = .ok () ∧
    Rebuilt sampleEnv none threeMapOptions.maps World.initial
      (init sampleEnv ⟨threeMapOptions, none, none, none⟩ World.initial).2.1
      (init sampleEnv ⟨threeMapOptions, none, none, none⟩ World.initial).2.2 ∧
    (updateMap sampleEnv ⟨threeMapOptions, some 0, some [1, 2, 3], some 2⟩ ⟨[], 4, none, []⟩).2.1
      = ⟨threeMapOptions, some 0, some [4, 5, 6], some 0⟩ :=
  ⟨by decide,
   (rebuild_resets sampleEnv ⟨threeMapOptions, some 0, some [1, 2, 3], some 2⟩
      ⟨[], 4, none, []⟩).2.1 (by decide),
   by decide,
   (rebuild_resets sampleEnv ⟨threeMapOptions, none, none, none⟩ World.initial).2.2 (by decide),
   by decide⟩

/-! ## Properties of `updateProgram` and `ColorMapProgram` -/

theorem keyEq_error_iff (key : String) :
    (∃ e, keyEq key = .error e) ↔ key ∉ supportedKeys := by
  unfold keyEq supportedKeys
  split <;> simp_all

theorem keyEq_table (key expr : String)
    (h : (key, expr) ∈
      [("RED", "srcColor.r"), ("GREEN", "srcColor.g"), ("BLUE", "srcColor.b"),
       ("(R+G+B)/2", "min((srcColor.r+srcColor.g+srcColor.b)/2.0, 1.0)"),
       ("(R+G+B)/3", "(srcColor.r+srcColor.g+srcColor.b)/3.0"),
       ("MAX", "max(srcColor.r, max(srcColor.g, srcColor.b))")]) :
    keyEq key = .ok expr := by
  simp only [List.mem_cons, Prod.mk.injEq, List.mem_singleton, List.not_mem_nil, or_false] at h
  rcases h with ⟨rfl, rfl⟩ | ⟨rfl, rfl⟩ | ⟨rfl, rfl⟩ | ⟨rfl, rfl⟩ | ⟨rfl, rfl⟩ | ⟨rfl, rfl⟩ <;> rfl

/-- C9: `key` and `output` are wired to `updateProgram` in the `onChange`
table, and in every component state `updateProgram` leaves `colorMaps`,
`currentMap` and the options unchanged, leaves the table uploaded to every
texture unchanged, and makes no `createTexture` or `deleteTexture` call; for a
supported key (with a blend mode the blending module knows and a base
constructor that succeeds) it succeeds and installs a newly constructed
program. -/
theorem updateProgram_frame (env : Env) (self : ColorMap) (w : World) :
    onChange.lookup "key" = some Handler.updateProgram ∧
    onChange.lookup "output" = some Handler.updateProgram ∧
    (updateProgram env self w).2.1.colorMaps = self.colorMaps ∧
    (updateProgram env self w).2.1.currentMap = self.currentMap ∧
    (updateProgram env self w).2.1.opts = self.opts ∧
    (∀ t, (updateProgram env self w).2.2.image t = w.image t) ∧
    (∃ evs, (updateProgram env self w).2.2.trace = w.trace ++ evs ∧
      ∀ t, Event.createTexture t ∉ evs ∧ Event.deleteTexture t ∉ evs) ∧
    (self.opts.key ∈ supportedKeys →
      ∀ expr blendMode, keyEq self.opts.key = .ok expr →
        env.getBlendMode self.opts.output = .ok blendMode →
        env.quadBoxProgram (programOptions expr blendMode) = .ok () →
        (updateProgram env self w).1 = .ok () ∧
        (updateProgram env self w).2.1.program = some w.nextHandle ∧
        Event.newProgram w.nextHandle (programOptions expr blendMode)
          ∈ (updateProgram env self w).2.2.trace) := by
  obtain ⟨h1, h2, h3, h4, _, evs, h5, h6⟩ := updateProgram_shape env self w
  refine ⟨rfl, rfl, h1, h2, h3, ?_, ⟨evs, h5, ?_⟩, ?_⟩
  · intro t
    unfold World.image
    rw [h4]
  · intro t
    constructor
    · intro ht
      rcases h6 _ ht with ⟨p, hp⟩ | ⟨n, hn⟩ | ⟨p, o, hp⟩ <;> contradiction
    · intro ht
      rcases h6 _ ht with ⟨p, hp⟩ | ⟨n, hn⟩ | ⟨p, o, hp⟩ <;> contradiction
  · intro _ expr blendMode hk hb hq
    unfold updateProgram ColorMapProgram
    simp only [hb, hk, hq]
    cases self.program <;> simp [World.emit]

/-- C9 on the three-map component, whose key is `RED`. -/
theorem updateProgram_frame_witness :
    threeMapOptions.key ∈ supportedKeys ∧
    keyEq threeMapOptions.key = .ok "srcColor.r" ∧
    sampleEnv.getBlendMode threeMapOptions.output = .ok 1 ∧
    sampleEnv.quadBoxProgram (programOptions "srcColor.r" 1) = .ok () ∧
    (updateProgram sampleEnv ⟨threeMapOptions, some 0, some [1, 2, 3], some 2⟩
        ⟨[], 4, none, []⟩).1 = .ok () ∧
    (updateProgram sampleEnv ⟨threeMapOptions, some 0, some [1, 2, 3], some 2⟩
        ⟨[], 4, none, []⟩).2.1.program = some 4 ∧
    Event.newProgram 4 (programOptions "srcColor.r" 1)
      ∈ (updateProgram sampleEnv ⟨threeMapOptions, some 0, some [1, 2, 3], some 2⟩
          ⟨[], 4, none, []⟩).2.2.trace :=
  ⟨by decide, by decide, by decide, by decide,
   (updateProgram_frame sampleEnv ⟨threeMapOptions, some 0, some [1, 2, 3], some 2⟩
      ⟨[], 4, none, []⟩).2.2.2.2.2.2.2 (by decide) "srcColor.r" 1 (by decide) (by decide)
      (by decide)⟩

/-- C10: provided the base constructor itself does not fail, constructing a
`ColorMapProgram` fails exactly when the key is none of `RED`, `GREEN`,
`BLUE`, `(R+G+B)/2`, `(R+G+B)/3`, `MAX`; for an unsupported key it fails
(whatever the base constructor would do) before the base constructor is called,
so nothing is compiled; and for each supported key the base constructor is
called once, with a fragment shader that samples `u_colorMap` at the key
expression of that key. -/
theorem colorMapProgram_key (env : Env) (key : String) (blendMode : Nat) (w : World) :
    ((∀ o, env.quadBoxProgram o = .ok ()) →
      ((∃ e, (ColorMapProgram env key blendMode w).1 = .error e) ↔ key ∉ supportedKeys)) ∧
    (key ∉ supportedKeys →
      (∃ e, (ColorMapProgram env key blendMode w).1 = .error e) ∧
      (ColorMapProgram env key blendMode w).2 = w) ∧
    (∀ expr, (key, expr) ∈
        [("RED", "srcColor.r"), ("GREEN", "srcColor.g"), ("BLUE", "srcColor.b"),
         ("(R+G+B)/2", "min((srcColor.r+srcColor.g+srcColor.b)/2.0, 1.0)"),
         ("(R+G+B)/3", "(srcColor.r+srcColor.g+srcColor.b)/3.0"),
         ("MAX", "max(srcColor.r, max(srcColor.g, srcColor.b))")] →
      key ∈ supportedKeys ∧
      (ColorMapProgram env key blendMode w).2.trace = w.trace ++
        [Event.newProgram w.nextHandle
          { blendMode := blendMode
            swapFrame := true
            fragmentShader :=
              [ "uniform sampler2D u_colorMap;",
                "void main() \x7b",
                "   vec4 srcColor = getSrcColor();",
                "   setFragColor(texture2D(u_colorMap, vec2((" ++ expr ++ "), 0)));",
                "\x7d" ] }] ∧
      (env.quadBoxProgram (programOptions expr blendMode) = .ok () →
        (ColorMapProgram env key blendMode w).1 = .ok w.nextHandle)) := by
  refine ⟨?_, ?_, ?_⟩
  · intro hbase
    rw [← keyEq_error_iff]
    unfold ColorMapProgram
    cases hk : keyEq key with
    | error e => simp
    | ok expr => simp [hbase]
  · intro hkey
    obtain ⟨e, he⟩ := (keyEq_error_iff key).mpr hkey
    unfold ColorMapProgram
    rw [he]
    exact ⟨⟨e, rfl⟩, rfl⟩
  · intro expr hmem
    have hk := keyEq_table key expr hmem
    refine ⟨?_, ?_, ?_⟩
    · by_contra hnot
      obtain ⟨e, he⟩ := (keyEq_error_iff key).mpr hnot
      rw [hk] at he
      cases he
    · unfold ColorMapProgram
      rw [hk]
      dsimp only
      cases env.quadBoxProgram (programOptions expr blendMode) <;> rfl
    · intro hq
      unfold ColorMapProgram
      rw [hk]
      dsimp only
      rw [hq]

/-- C10 with a base constructor that succeeds: the key `MAX` is accepted and
the key `ALPHA` is rejected with nothing constructed. -/
theorem colorMapProgram_key_witness :
    (∀ o, sampleEnv.quadBoxProgram o = .ok ()) ∧
    ((∃ e, (ColorMapProgram sampleEnv "ALPHA" 1 World.initial).1 = .error e)
      ↔ "ALPHA" ∉ supportedKeys) ∧
    "ALPHA" ∉ supportedKeys ∧
    ((∃ e, (ColorMapProgram sampleEnv "ALPHA" 1 World.initial).1 = .error e) ∧
      (ColorMapProgram sampleEnv "ALPHA" 1 World.initial).2 = World.initial) ∧
    "MAX" ∈ supportedKeys ∧
    (ColorMapProgram sampleEnv "MAX" 1 World.initial).2.trace = World.initial.trace ++
        [Event.newProgram World.initial.nextHandle
          { blendMode := 1
            swapFrame := true
            fragmentShader :=
              [ "uniform sampler2D u_colorMap;",
                "void main() \x7b",
                "   vec4 srcColor = getSrcColor();",
                "   setFragColor(texture2D(u_colorMap, vec2((" ++
                  "max(srcColor.r, max(srcColor.g, srcColor.b))" ++ "), 0)));",
                "\x7d" ] }] ∧
    (ColorMapProgram sampleEnv "MAX" 1 World.initial).1 = .ok World.initial.nextHandle :=
  have h1 := (colorMapProgram_key sampleEnv "ALPHA" 1 World.initial).1 (fun _ => rfl)
  have h2 := (colorMapProgram_key sampleEnv "ALPHA" 1 World.initial).2.1 (by decide)
  have h3 := (colorMapProgram_key sampleEnv "MAX" 1 World.initial).2.2
    "max(srcColor.r, max(srcColor.g, srcColor.b))" (by decide)
  ⟨fun _ => rfl, h1, by decide, h2, h3.1, h3.2.1, h3.2.2 rfl⟩

/-! ## The unknown-key error, interpolation bounds and key expressions -/

/-- C20: for the unsupported key `ALPHA` the constructor does not throw
`Error("Unknown colormap key function ALPHA")`: the `default` branch reads
`options.key` where no `options` is in scope, so what is thrown is a
`ReferenceError`, before the message is built and before the base constructor
is called. -/
theorem colorMapProgram_unknown_key_error :
    "ALPHA" ∉ supportedKeys ∧
    ColorMapProgram sampleEnv "ALPHA" 1 World.initial
      = (.error (.referenceError "options is not defined"), World.initial) ∧
    (ColorMapProgram sampleEnv "ALPHA" 1 World.initial).1
      ≠ .error (.error ("Unknown colormap key function " ++ "ALPHA")) := by
  decide

theorem lerp_ge (a b steps i bound : Nat) (ha : bound ≤ a) (hb : bound ≤ b) (hi : i ≤ steps)
    (hs : 0 < steps) : bound ≤ (a * (steps - i) + b * i) / steps := by
  rw [Nat.le_div_iff_mul_le hs]
  calc bound * steps = bound * (steps - i + i) := by rw [Nat.sub_add_cancel hi]
    _ = bound * (steps - i) + bound * i := by rw [Nat.mul_add]
    _ ≤ a * (steps - i) + b * i :=
      Nat.add_le_add (Nat.mul_le_mul_right _ ha) (Nat.mul_le_mul_right _ hb)

theorem lerp_between (a b steps i : Nat) (hi : i < steps) :
    min a b ≤ (a * (steps - i) + b * i) / steps ∧
    (a * (steps - i) + b * i) / steps ≤ max a b :=
  ⟨lerp_ge a b steps i (min a b) (Nat.min_le_left _ _) (Nat.min_le_right _ _) (Nat.le_of_lt hi)
      (by omega),
   lerp_le a b steps i (max a b) (Nat.le_max_left _ _) (Nat.le_max_right _ _) (Nat.le_of_lt hi)⟩

/-- C19: for a pair of stones with byte-valued colours and every step
`i < steps = second.index - first.index`, each channel value
`floor((L * (steps - i) + R * i) / steps)` computed by the lerp lies between
`min(L, R)` and `max(L, R)`, hence is a byte, and the three stores of that step
put exactly these values into the typed array (nothing wraps modulo 256). -/
theorem lerpStep_between (first second : Stone) (s : Cursor) (i : Nat)
    (h1 : first.color.IsByte) (h2 : second.color.IsByte)
    (hi : i < second.index - first.index) :
    (min first.color.r second.color.r
        ≤ (mix first.color second.color (second.index - first.index) i).r ∧
      (mix first.color second.color (second.index - first.index) i).r
        ≤ max first.color.r second.color.r) ∧
    (min first.color.g second.color.g
        ≤ (mix first.color second.color (second.index - first.index) i).g ∧
      (mix first.color second.color (second.index - first.index) i).g
        ≤ max first.color.g second.color.g) ∧
    (min first.color.b second.color.b
        ≤ (mix first.color second.color (second.index - first.index) i).b ∧
      (mix first.color second.color (second.index - first.index) i).b
        ≤ max first.color.b second.color.b) ∧
    (mix first.color second.color (second.index - first.index) i).r ≤ 255 ∧
    (mix first.color second.color (second.index - first.index) i).g ≤ 255 ∧
    (mix first.color second.color (second.index - first.index) i).b ≤ 255 ∧
    (lerpStep first second (second.index - first.index) s i).colorMap
      = ((s.colorMap.set s.cmi
            (mix first.color second.color (second.index - first.index) i).r).set (s.cmi + 1)
            (mix first.color second.color (second.index - first.index) i).g).set (s.cmi + 2)
            (mix first.color second.color (second.index - first.index) i).b := by
  have hbyte := mix_isByte first.color second.color _ i h1 h2 (Nat.le_of_lt hi)
  obtain ⟨b1, b2, b3⟩ := hbyte
  refine ⟨lerp_between _ _ _ _ hi, lerp_between _ _ _ _ hi, lerp_between _ _ _ _ hi,
    by omega, by omega, by omega, ?_⟩
  have e1 := Nat.mod_eq_of_lt b1
  have e2 := Nat.mod_eq_of_lt b2
  have e3 := Nat.mod_eq_of_lt b3
  simp only [mix] at e1 e2 e3 ⊢
  simp only [lerpStep, Cursor.put, e1, e2, e3]

/-- C19 at step 5 of the pair from `#ffFF00` at index 10 to `#102030` at 200. -/
theorem lerpStep_between_witness :
    (min 255 16 ≤ (mix ⟨255, 255, 0⟩ ⟨16, 32, 48⟩ (200 - 10) 5).r ∧
      (mix ⟨255, 255, 0⟩ ⟨16, 32, 48⟩ (200 - 10) 5).r ≤ max 255 16) ∧
    (mix ⟨255, 255, 0⟩ ⟨16, 32, 48⟩ (200 - 10) 5) = ⟨248, 249, 1⟩ ∧
    (lerpStep ⟨⟨255, 255, 0⟩, 10⟩ ⟨⟨16, 32, 48⟩, 200⟩ (200 - 10) ⟨[0, 0, 0, 0], 0, []⟩ 5).colorMap
      = [248, 249, 1, 0] :=
  have h := lerpStep_between ⟨⟨255, 255, 0⟩, 10⟩ ⟨⟨16, 32, 48⟩, 200⟩ ⟨[0, 0, 0, 0], 0, []⟩ 5
    ⟨by decide, by decide, by decide⟩ ⟨by decide, by decide, by decide⟩ (by decide)
  ⟨h.1, by decide, h.2.2.2.2.2.2⟩

theorem keyEq_keyTerm (key : String) (hk : key ∈ supportedKeys) :
    ∃ e, keyTerm key = some e ∧ keyEq key = .ok e.render := by
  simp only [supportedKeys, List.mem_cons, List.mem_singleton, List.not_mem_nil, or_false] at hk
  rcases hk with rfl | rfl | rfl | rfl | rfl | rfl <;> exact ⟨_, rfl, by decide⟩

/-- C16: each of the six supported keys selects a key expression (the GLSL
text put into the shader) whose value, for every source colour with channels
in `[0, 1]` taken as exact rationals, lies in `[0, 1]`; the `(R+G+B)/2` key
is `min((r + g + b) / 2, 1)`, clamped to 1. -/
theorem keyTerm_unit (key : String) (hk : key ∈ supportedKeys) :
    ∃ e, keyTerm key = some e ∧ keyEq key = .ok e.render ∧
      (∀ r g b : ℚ, 0 ≤ r → r ≤ 1 → 0 ≤ g → g ≤ 1 → 0 ≤ b → b ≤ 1 →
        0 ≤ e.eval r g b ∧ e.eval r g b ≤ 1) ∧
      (key = "(R+G+B)/2" → ∀ r g b : ℚ, e.eval r g b = min ((r + g + b) / 2) 1) := by
  simp only [supportedKeys, List.mem_cons, List.mem_singleton, List.not_mem_nil, or_false] at hk
  rcases hk with rfl | rfl | rfl | rfl | rfl | rfl
  · exact ⟨.r, rfl, by decide, fun r g b h1 h2 _ _ _ _ => ⟨h1, h2⟩,
      fun h => absurd h (by decide)⟩
  · exact ⟨.g, rfl, by decide, fun r g b _ _ h1 h2 _ _ => ⟨h1, h2⟩,
      fun h => absurd h (by decide)⟩
  · exact ⟨.b, rfl, by decide, fun r g b _ _ _ _ h1 h2 => ⟨h1, h2⟩,
      fun h => absurd h (by decide)⟩
  · refine ⟨.min (.div (.paren (.add (.add .r .g) .b)) .two) .one, rfl, by decide, ?_, ?_⟩
    · intro r g b h1 h2 h3 h4 h5 h6
      simp only [Glsl.eval]
      constructor
      · apply le_min
        · apply div_nonneg <;> linarith
        · norm_num
      · exact min_le_right _ _
    · intro _ r g b
      simp only [Glsl.eval]
  · refine ⟨.div (.paren (.add (.add .r .g) .b)) .three, rfl, by decide, ?_,
      fun h => absurd h (by decide)⟩
    intro r g b h1 h2 h3 h4 h5 h6
    simp only [Glsl.eval]
    constructor
    · apply div_nonneg <;> linarith
    · rw [div_le_one (by norm_num)]
      linarith
  · refine ⟨.max .r (.max .g .b), rfl, by decide, ?_, fun h => absurd h (by decide)⟩
    intro r g b h1 h2 h3 h4 h5 h6
    simp only [Glsl.eval]
    constructor
    · exact le_trans h1 (le_max_left _ _)
    · exact max_le h2 (max_le h4 h6)

/-- C16 at the key `(R+G+B)/2` and the colour `(1, 1, 1/2)`, whose half-sum
`5/4` is clamped to 1. -/
theorem keyTerm_unit_witness :
    "(R+G+B)/2" ∈ supportedKeys ∧
    keyTerm "(R+G+B)/2" = some (.min (.div (.paren (.add (.add .r .g) .b)) .two) .one) ∧
    ((0 : ℚ) ≤ 1 ∧ (1 : ℚ) ≤ 1 ∧ (0 : ℚ) ≤ 1 / 2 ∧ (1 : ℚ) / 2 ≤ 1) ∧
    (0 ≤ (Glsl.min (.div (.paren (.add (.add .r .g) .b)) .two) .one).eval 1 1 (1 / 2) ∧
     (Glsl.min (.div (.paren (.add (.add .r .g) .b)) .two) .one).eval 1 1 (1 / 2) ≤ 1) ∧
    (Glsl.min (.div (.paren (.add (.add .r .g) .b)) .two) .one).eval 1 1 (1 / 2)
      = min (((1 : ℚ) + 1 + 1 / 2) / 2) 1 := by
  obtain ⟨e, he, _, hunit, hclamp⟩ := keyTerm_unit "(R+G+B)/2" (by decide)
  have he' : e = .min (.div (.paren (.add (.add .r .g) .b)) .two) .one :=
    (Option.some.inj he).symm
  subst he'
  exact ⟨by decide, rfl, by norm_num,
    hunit 1 1 (1 / 2) (by norm_num) (by norm_num) (by norm_num) (by norm_num) (by norm_num)
      (by norm_num),
    hclamp rfl 1 1 (1 / 2)⟩

/-! ## Order independence and exact keystones -/

theorem sortBy_strict (map : List Keystone) (hd : (map.map Keystone.index).Nodup) :
    (sortBy map).Pairwise (fun a b => a.index < b.index) := by
  have h1 := sortBy_sorted map
  have h2 : (sortBy map).Pairwise (fun a b => a.index ≠ b.index) := by
    have := (sortBy_nodup map).mpr hd
    rwa [List.Nodup, List.pairwise_map] at this
  exact (h1.and h2).imp (fun ⟨a, b⟩ => Nat.lt_of_le_of_ne a b)

theorem sortBy_eq_of_perm (map1 map2 : List Keystone) (hperm : map1.Perm map2)
    (hd : (map1.map Keystone.index).Nodup) : sortBy map2 = sortBy map1 := by
  have hd2 : (map2.map Keystone.index).Nodup := (hperm.map _).nodup_iff.mp hd
  have hanti : IsAntisymm Keystone (fun a b => a.index < b.index) :=
    ⟨fun a b h1 h2 => absurd h1 (Nat.lt_asymm h2)⟩
  have hp : (sortBy map2).Perm (sortBy map1) :=
    ((sortBy_perm map2).trans hperm.symm).trans (sortBy_perm map1).symm
  exact List.eq_of_perm_of_sorted hp (sortBy_strict map2 hd2) (sortBy_strict map1 hd)

/-- C17: for a valid keystone list and any permutation of it, `_buildColorMap`
does the same thing on both (same result, same calls, same upload), and the
table it uploads, of 256 entries, is the same. -/
theorem buildColorMap_perm (env : Env) (map1 map2 : List Keystone) (w : World)
    (hv : ValidMap env map1) (hperm : map1.Perm map2) :
    _buildColorMap env map2 w = _buildColorMap env map1 w ∧
    ∃ w1 w2 table,
      _buildColorMap env map1 w = (.ok w.nextHandle, w1) ∧
      _buildColorMap env map2 w = (.ok w.nextHandle, w2) ∧
      w1.image w.nextHandle = some table ∧
      w2.image w.nextHandle = some table ∧
      table.length = 256 * 3 := by
  have hs := sortBy_eq_of_perm map1 map2 hperm hv.distinct
  have heq : _buildColorMap env map2 w = _buildColorMap env map1 w := by
    unfold _buildColorMap
    rw [hs]
  obtain ⟨first, rest, head, tail, _, _, _, hb, _, hasc', h0, _, h255, hsub, _, hbyte⟩ :=
    build_valid env map1 w hv
  have hbytes : ∀ s ∈ head :: tail, s.color.IsByte := by
    intro s hs
    obtain ⟨s', hs', he⟩ := hsub s hs
    rw [he]; exact hbyte s' hs'
  obtain ⟨_, hlen, _, _, _⟩ := table_facts head tail _ hasc' h0 h255 hbytes
    (hbyte _ (List.getLast_mem (List.cons_ne_nil first rest)))
  exact ⟨heq, _, _, _, hb, heq.trans hb, upload_image _ _, upload_image _ _, hlen⟩

/-- C17 at the sample map and the same keystones in the other order. -/
theorem buildColorMap_perm_witness :
    ValidMap sampleEnv sampleMap ∧
    sampleMap.Perm [{ index := 10, color := "#ffFF00" }, { index := 200, color := "#102030" }] ∧
    _buildColorMap sampleEnv
        [{ index := 10, color := "#ffFF00" }, { index := 200, color := "#102030" }] World.initial
      = _buildColorMap sampleEnv sampleMap World.initial ∧
    ∃ w1 w2 table,
      _buildColorMap sampleEnv sampleMap World.initial = (.ok 0, w1) ∧
      _buildColorMap sampleEnv
          [{ index := 10, color := "#ffFF00" }, { index := 200, color := "#102030" }]
          World.initial = (.ok 0, w2) ∧
      w1.image 0 = some table ∧
      w2.image 0 = some table ∧
      table.length = 256 * 3 :=
  have hv : ValidMap sampleEnv sampleMap :=
    { nonempty := by decide
      distinct := by decide
      inRange := by decide
      parses := by
        intro k hk
        simp only [sampleMap, List.mem_cons, List.mem_singleton, List.not_mem_nil, or_false] at hk
        rcases hk with rfl | rfl
        · exact ⟨{ r := 16, g := 32, b := 48 }, rfl, by decide, by decide, by decide⟩
        · exact ⟨{ r := 255, g := 255, b := 0 }, rfl, by decide, by decide, by decide⟩ }
  have hperm : sampleMap.Perm
      [{ index := 10, color := "#ffFF00" }, { index := 200, color := "#102030" }] :=
    List.Perm.swap _ _ []
  ⟨hv, hperm, buildColorMap_perm sampleEnv sampleMap _ World.initial hv hperm⟩

theorem ascending_unique (map : List Stone) (h : Ascending map) (a b : Stone)
    (ha : a ∈ map) (hb : b ∈ map) (hab : a.index = b.index) : a = b := by
  induction map with
  | nil => simp at ha
  | cons x l ih =>
    have h' := List.pairwise_cons.mp h
    rcases List.mem_cons.mp ha with ha1 | ha1
    · rcases List.mem_cons.mp hb with hb1 | hb1
      · rw [ha1, hb1]
      · have := h'.1 b hb1
        rw [← ha1] at this
        omega
    · rcases List.mem_cons.mp hb with hb1 | hb1
      · have := h'.1 a ha1
        rw [← hb1] at this
        omega
      · exact ih h'.2 ha1 hb1

theorem mem_zip_or_last (first : Stone) (rest : List Stone) (s : Stone)
    (hs : s ∈ first :: rest) :
    s = (first :: rest).getLast (List.cons_ne_nil _ _) ∨
    ∃ R, (s, R) ∈ List.zip (first :: rest) rest := by
  induction rest generalizing first with
  | nil =>
    left
    simpa using hs
  | cons second rest ih =>
    rcases List.mem_cons.mp hs with rfl | hs
    · exact Or.inr ⟨second, by simp⟩
    · rcases ih second hs with h | ⟨R, hR⟩
      · left
        rw [List.getLast_cons (List.cons_ne_nil _ _)]
        exact h
      · exact Or.inr ⟨R, by simp [hR]⟩

/-- C18: for a valid keystone list and every keystone `{index k, colour C}` of
it, the build succeeds and entry `k` of the uploaded table equals `C` on all
three channels. -/
theorem buildColorMap_keystone (env : Env) (map : List Keystone) (w : World)
    (hv : ValidMap env map) (k : Keystone) (hk : k ∈ map) (c : RGB)
    (hc : env.parseColor k.color = .ok c) :
    ∃ w' table,
      _buildColorMap env map w = (.ok w.nextHandle, w') ∧
      w'.image w.nextHandle = some table ∧
      entry table k.index = c := by
  obtain ⟨first, rest, head, tail, hfr, _, _, hb, hasc, hasc', h0, _, h255, hsub, hsup, hbyte⟩ :=
    build_valid env map w hv
  have hbytes : ∀ s ∈ head :: tail, s.color.IsByte := by
    intro s hs
    obtain ⟨s', hs', he⟩ := hsub s hs
    rw [he]; exact hbyte s' hs'
  have hlastmem := List.getLast_mem (List.cons_ne_nil first rest)
  obtain ⟨_, _, hpairs, _, he255⟩ := table_facts head tail _ hasc' h0 h255 hbytes
    (hbyte _ hlastmem)
  have hks : ({ color := c, index := k.index } : Stone) ∈ first :: rest := by
    rw [← hfr, ← colorOf_eq env _ c hc]
    exact stonesOf_mem env _ k ((sortBy_perm map).mem_iff.mpr hk)
  refine ⟨_, _, hb, upload_image _ _, ?_⟩
  rcases mem_zip_or_last head tail _ (hsup _ hks) with hl | ⟨R, hR⟩
  · have hidx : k.index = 255 := by
      have := congrArg Stone.index hl
      rw [h255] at this
      exact this
    have hle := ascending_le_getLast _ hasc (List.cons_ne_nil _ _) _ hks
    have hr : ((first :: rest).getLast (List.cons_ne_nil _ _)).index ≤ 255 := by
      obtain ⟨k', hk', hi', _⟩ := mem_stonesOf env (sortBy map) _ (by rw [hfr]; exact hlastmem)
      rw [hi']
      exact hv.inRange k' ((sortBy_perm map).mem_iff.mp hk')
    have hle' : k.index ≤ ((first :: rest).getLast (List.cons_ne_nil _ _)).index := hle
    have hsame := ascending_unique _ hasc _ _ hks hlastmem
      (show k.index = ((first :: rest).getLast (List.cons_ne_nil _ _)).index by omega)
    rw [hidx, he255, ← hsame]
  · have hi : k.index < R.index := (mem_zip_tail_index head tail hasc' _ R hR).2
    have hpos : 0 < R.index - k.index := by omega
    have := hpairs _ R hR 0 hpos
    simp only [Nat.add_zero] at this
    rw [this]
    exact mix_zero _ _ _ hpos

/-- C18 at the sample map: entry 10 is `#ffFF00` and entry 200 is `#102030`. -/
theorem buildColorMap_keystone_witness :
    ValidMap sampleEnv sampleMap ∧
    (∃ w' table,
      _buildColorMap sampleEnv sampleMap World.initial = (.ok 0, w') ∧
      w'.image 0 = some table ∧
      entry table 10 = { r := 255, g := 255, b := 0 }) ∧
    (∃ w' table,
      _buildColorMap sampleEnv sampleMap World.initial = (.ok 0, w') ∧
      w'.image 0 = some table ∧
      entry table 200 = { r := 16, g := 32, b := 48 }) :=
  have hv : ValidMap sampleEnv sampleMap :=
    { nonempty := by decide
      distinct := by decide
      inRange := by decide
      parses := by
        intro k hk
        simp only [sampleMap, List.mem_cons, List.mem_singleton, List.not_mem_nil, or_false] at hk
        rcases hk with rfl | rfl
        · exact ⟨{ r := 16, g := 32, b := 48 }, rfl, by decide, by decide, by decide⟩
        · exact ⟨{ r := 255, g := 255, b := 0 }, rfl, by decide, by decide, by decide⟩ }
  ⟨hv,
   buildColorMap_keystone sampleEnv sampleMap World.initial hv
     { index := 10, color := "#ffFF00" } (by decide) _ rfl,
   buildColorMap_keystone sampleEnv sampleMap World.initial hv
     { index := 200, color := "#102030" } (by decide) _ rfl⟩

/-! ## The cycle mode is never checked -/

/-- C14, as the code has it: `mapCycleMode` has no entry in the `onChange`
table; `updateProgram`, `updateMap` and `init` do the same whatever its value
(same result, same calls, same fields); and `draw` with a value outside
`SINGLE`, `ONBEATRANDOM`, `ONBEATSEQUENTIAL` leaves the component unchanged and
otherwise does what it does in mode `SINGLE`. No value is rejected. -/
theorem cycleMode_unchecked (env : Env) (self : ColorMap) (w : World) (mode : String) :
    onChange.lookup "mapCycleMode" = none ∧
    updateProgram env (withMode self mode) w
      = ((updateProgram env self w).1, withMode (updateProgram env self w).2.1 mode,
          (updateProgram env self w).2.2) ∧
    updateMap env (withMode self mode) w
      = ((updateMap env self w).1, withMode (updateMap env self w).2.1 mode,
          (updateMap env self w).2.2) ∧
    init env (withMode self mode) w
      = ((init env self w).1, withMode (init env self w).2.1 mode, (init env self w).2.2) ∧
    (mode ∉ cycleModes → ∀ beat random,
      (draw beat random (withMode self mode) w).2.1 = withMode self mode ∧
      (draw beat random (withMode self mode) w).1
        = (draw beat random (withMode self "SINGLE") w).1 ∧
      (draw beat random (withMode self mode) w).2.2
        = (draw beat random (withMode self "SINGLE") w).2.2) := by
  have hprog : ∀ (s : ColorMap) (w : World), updateProgram env (withMode s mode) w
      = ((updateProgram env s w).1, withMode (updateProgram env s w).2.1 mode,
          (updateProgram env s w).2.2) := by
    intro s w
    unfold updateProgram
    simp only [withMode]
    cases env.getBlendMode s.opts.output with
    | error e => rfl
    | ok output =>
      dsimp only
      generalize ColorMapProgram env s.opts.key output _ = res
      obtain ⟨r, w3⟩ := res
      cases r <;> rfl
  have hmap : ∀ (s : ColorMap) (w : World), updateMap env (withMode s mode) w
      = ((updateMap env s w).1, withMode (updateMap env s w).2.1 mode,
          (updateMap env s w).2.2) := by
    intro s w
    unfold updateMap
    simp only [withMode]
    generalize buildAll env s.opts.maps _ = res
    obtain ⟨r, w2⟩ := res
    cases r <;> rfl
  refine ⟨rfl, hprog self w, hmap self w, ?_, ?_⟩
  · unfold init
    rw [hprog self w]
    generalize updateProgram env self w = res
    obtain ⟨r, s1, w1⟩ := res
    cases r with
    | error e => rfl
    | ok u => exact hmap s1 w1
  · intro hmode beat random
    simp only [cycleModes, List.mem_cons, List.mem_singleton, List.not_mem_nil, or_false,
      not_or] at hmode
    obtain ⟨_, h2, h3⟩ := hmode
    have hc1 : cycle beat random (withMode self mode) = .ok (withMode self mode) := by
      cases beat <;> simp [cycle, withMode, h2, h3]
    have hc2 : cycle beat random (withMode self "SINGLE") = .ok (withMode self "SINGLE") := by
      cases beat <;> simp [cycle, withMode]
    unfold draw
    rw [hc1, hc2]
    simp only [withMode]
    cases self.program with
    | none => exact ⟨rfl, rfl, rfl⟩
    | some p =>
      cases self.colorMaps with
      | none => exact ⟨rfl, rfl, rfl⟩
      | some cms => exact ⟨rfl, rfl, rfl⟩

/-- C14 at the value `BOGUS` on the initialised three-map component: a beat
leaves `currentMap` at 2. -/
theorem cycleMode_unchecked_witness :
    "BOGUS" ∉ cycleModes ∧
    (draw true RandomDraw.zero
        (withMode ⟨threeMapOptions, some 0, some [1, 2, 3], some 2⟩ "BOGUS") World.initial).2.1
      = withMode ⟨threeMapOptions, some 0, some [1, 2, 3], some 2⟩ "BOGUS" ∧
    (draw true RandomDraw.zero
        (withMode ⟨threeMapOptions, some 0, some [1, 2, 3], some 2⟩ "BOGUS") World.initial).1
      = .ok () :=
  have h := (cycleMode_unchecked sampleEnv ⟨threeMapOptions, some 0, some [1, 2, 3], some 2⟩
    World.initial "BOGUS").2.2.2.2 (by decide) true RandomDraw.zero
  ⟨by decide, h.1, h.2.1.trans (by decide)⟩

/-- C14 fails as stated: with `mapCycleMode = "BOGUS"`, which is none of the
three modes, `init()` succeeds, assigning the value through the option store
succeeds and makes no call at all, and `draw()` on a beat runs the program. -/
theorem cycleMode_unknown_accepted :
    "BOGUS" ∉ cycleModes ∧
    (init sampleEnv (withMode (ColorMap.new threeMapOptions) "BOGUS") World.initial).1 = .ok () ∧
    (session sampleEnv threeMapOptions [.setMapCycleMode "BOGUS"] World.initial).1 = .ok () ∧
    (session sampleEnv threeMapOptions [.setMapCycleMode "BOGUS"] World.initial).2.2.trace.length
      = (session sampleEnv threeMapOptions [] World.initial).2.2.trace.length ∧
    (session sampleEnv threeMapOptions
        [.setMapCycleMode "BOGUS", .draw true RandomDraw.zero] World.initial).1 = .ok () ∧
    drawnWith (session sampleEnv threeMapOptions
        [.setMapCycleMode "BOGUS", .draw true RandomDraw.zero] World.initial).2.2.trace
      = [some 1] := by
  decide

/-! ## `destroy` called twice -/

theorem destroy_eq (self : ColorMap) (w : World) (program : Program) (colorMaps : List Texture)
    (hp : self.program = some program) (hc : self.colorMaps = some colorMaps) :
    destroy self w
      = (.ok (), self,
          { w with trace := w.trace ++
              Event.destroyProgram program :: colorMaps.map Event.deleteTexture }) := by
  unfold destroy
  rw [hp, hc]
  simp only [deleteAll_eq, World.emit, List.append_assoc, List.singleton_append]

/-- C13, as the code has it: `destroy()` on an initialised component succeeds,
calls `destroy()` on the program and passes each texture of `colorMaps` to
`deleteTexture`, and leaves `program` and `colorMaps` as they were; so a second
`destroy()` succeeds as well (no call here throws) and repeats exactly the same
calls: the program is destroyed again and every texture is deleted again. -/
theorem destroy_twice (self : ColorMap) (w : World) (program : Program)
    (colorMaps : List Texture)
    (hp : self.program = some program) (hc : self.colorMaps = some colorMaps) :
    destroy self w
      = (.ok (), self,
          { w with trace := w.trace ++
              Event.destroyProgram program :: colorMaps.map Event.deleteTexture }) ∧
    destroy (destroy self w).2.1 (destroy self w).2.2
      = (.ok (), self,
          { w with trace := w.trace ++
              (Event.destroyProgram program :: colorMaps.map Event.deleteTexture) ++
              (Event.destroyProgram program :: colorMaps.map Event.deleteTexture) }) := by
  refine ⟨destroy_eq self w program colorMaps hp hc, ?_⟩
  rw [destroy_eq self w program colorMaps hp hc]
  simp only
  rw [destroy_eq self _ program colorMaps hp hc]

/-- C13 on the initialised three-map component. -/
theorem destroy_twice_witness :
    destroy ⟨threeMapOptions, some 0, some [1, 2, 3], some 0⟩ World.initial
      = (.ok (), ⟨threeMapOptions, some 0, some [1, 2, 3], some 0⟩,
          ⟨[.destroyProgram 0, .deleteTexture 1, .deleteTexture 2, .deleteTexture 3],
            0, none, []⟩) ∧
    destroy (destroy ⟨threeMapOptions, some 0, some [1, 2, 3], some 0⟩ World.initial).2.1
        (destroy ⟨threeMapOptions, some 0, some [1, 2, 3], some 0⟩ World.initial).2.2
      = (.ok (), ⟨threeMapOptions, some 0, some [1, 2, 3], some 0⟩,
          ⟨[.destroyProgram 0, .deleteTexture 1, .deleteTexture 2, .deleteTexture 3,
            .destroyProgram 0, .deleteTexture 1, .deleteTexture 2, .deleteTexture 3],
            0, none, []⟩) :=
  destroy_twice ⟨threeMapOptions, some 0, some [1, 2, 3], some 0⟩ World.initial 0 [1, 2, 3]
    rfl rfl

/-- C13 fails as stated: on the component `init()` produces from the three-map
options, the first `destroy()` deletes the textures 1, 2, 3 and destroys
program 0, and the second `destroy()` passes the same three, already deleted,
textures to `deleteTexture` and destroys program 0 again. -/
theorem destroy_twice_double_free :
    (session sampleEnv threeMapOptions [] World.initial).1 = .ok () ∧
    (session sampleEnv threeMapOptions [] World.initial).2.1
      = ⟨threeMapOptions, some 0, some [1, 2, 3], some 0⟩ ∧
    deletedIn (destroy (session sampleEnv threeMapOptions [] World.initial).2.1
        (session sampleEnv threeMapOptions [] World.initial).2.2).2.2.trace = [1, 2, 3] ∧
    deletedIn (destroy ⟨threeMapOptions, some 0, some [1, 2, 3], some 0⟩
        (destroy (session sampleEnv threeMapOptions [] World.initial).2.1
          (session sampleEnv threeMapOptions [] World.initial).2.2).2.2).2.2.trace
      = [1, 2, 3, 1, 2, 3] ∧
    destroyedIn (destroy ⟨threeMapOptions, some 0, some [1, 2, 3], some 0⟩
        (destroy (session sampleEnv threeMapOptions [] World.initial).2.1
          (session sampleEnv threeMapOptions [] World.initial).2.2).2.2).2.2.trace
      = [0, 0] := by
  decide

/-! ## Textures created and deleted by the rebuild routines -/

theorem createdIn_append (a b : List Event) : createdIn (a ++ b) = createdIn a ++ createdIn b :=
  List.filterMap_append _ _ _

theorem deletedIn_append (a b : List Event) : deletedIn (a ++ b) = deletedIn a ++ deletedIn b :=
  List.filterMap_append _ _ _

theorem drawnWith_append (a b : List Event) : drawnWith (a ++ b) = drawnWith a ++ drawnWith b :=
  List.filterMap_append _ _ _

theorem parse_events_quiet (evs : List Event) (h : ∀ e ∈ evs, ∃ c, e = Event.parseColor c) :
    createdIn evs = [] ∧ deletedIn evs = [] ∧ drawnWith evs = [] := by
  induction evs with
  | nil => exact ⟨rfl, rfl, rfl⟩
  | cons e evs ih =>
    obtain ⟨c, rfl⟩ := h e (List.mem_cons_self _ _)
    obtain ⟨h1, h2, h3⟩ := ih (fun e' he' => h e' (List.mem_cons_of_mem _ he'))
    exact ⟨by simpa [createdIn] using h1, by simpa [deletedIn] using h2,
      by simpa [drawnWith] using h3⟩

theorem program_events_quiet (evs : List Event)
    (h : ∀ e ∈ evs, (∃ p, e = Event.cleanupProgram p) ∨ (∃ n, e = Event.getBlendMode n) ∨
      (∃ p o, e = Event.newProgram p o)) :
    createdIn evs = [] ∧ deletedIn evs = [] ∧ drawnWith evs = [] := by
  induction evs with
  | nil => exact ⟨rfl, rfl, rfl⟩
  | cons e evs ih =>
    obtain ⟨h1, h2, h3⟩ := ih (fun e' he' => h e' (List.mem_cons_of_mem _ he'))
    rcases h e (List.mem_cons_self _ _) with ⟨p, rfl⟩ | ⟨n, rfl⟩ | ⟨p, o, rfl⟩ <;>
      exact ⟨by simpa [createdIn] using h1, by simpa [deletedIn] using h2,
        by simpa [drawnWith] using h3⟩

theorem delete_events (colorMaps : List Texture) :
    createdIn (colorMaps.map Event.deleteTexture) = [] ∧
    deletedIn (colorMaps.map Event.deleteTexture) = colorMaps ∧
    drawnWith (colorMaps.map Event.deleteTexture) = [] := by
  induction colorMaps with
  | nil => exact ⟨rfl, rfl, rfl⟩
  | cons t l ih =>
    obtain ⟨h1, h2, h3⟩ := ih
    exact ⟨by simp [createdIn], by simpa [deletedIn] using h2, by simp [drawnWith]⟩

theorem build_events (env : Env) (map : List Keystone) (w w' : World) (t : Texture)
    (h : _buildColorMap env map w = (.ok t, w')) :
    ∃ evs, w'.trace = w.trace ++ evs ∧ createdIn evs = [t] ∧ deletedIn evs = [] ∧
      drawnWith evs = [] := by
  obtain ⟨evs, table, ht, hw, hq⟩ := build_shape env map w w' t h
  obtain ⟨q1, q2, q3⟩ := parse_events_quiet evs hq
  refine ⟨evs ++ [.createTexture t, .bindTexture t, .texImage2D 256 1 table,
    .texParameteri "TEXTURE_MAG_FILTER" "NEAREST", .texParameteri "TEXTURE_MIN_FILTER" "NEAREST",
    .texParameteri "TEXTURE_WRAP_S" "CLAMP_TO_EDGE",
    .texParameteri "TEXTURE_WRAP_T" "CLAMP_TO_EDGE"], ?_, ?_, ?_, ?_⟩
  · rw [hw, upload_trace, ht]; simp
  · rw [createdIn_append, q1]; rfl
  · rw [deletedIn_append, q2]; rfl
  · rw [drawnWith_append, q3]; rfl

theorem buildAll_events (env : Env) (maps : List (List Keystone)) (w w' : World)
    (textures : List Texture) (h : buildAll env maps w = (.ok textures, w')) :
    ∃ evs, w'.trace = w.trace ++ evs ∧ createdIn evs = textures ∧ deletedIn evs = [] ∧
      drawnWith evs = [] := by
  induction maps generalizing w w' textures with
  | nil =>
    simp only [buildAll, Prod.mk.injEq, Except.ok.injEq] at h
    obtain ⟨rfl, rfl⟩ := h
    exact ⟨[], by simp, rfl, rfl, rfl⟩
  | cons map rest ih =>
    unfold buildAll at h
    generalize hb : _buildColorMap env map w = res at h
    obtain ⟨r, w1⟩ := res
    cases r with
    | error e => simp at h
    | ok t =>
      simp only at h
      generalize hr : buildAll env rest w1 = res2 at h
      obtain ⟨r2, w2⟩ := res2
      cases r2 with
      | error e => simp at h
      | ok ts =>
        simp only [Prod.mk.injEq, Except.ok.injEq] at h
        obtain ⟨rfl, rfl⟩ := h
        obtain ⟨evs1, a1, a2, a3, a4⟩ := build_events env map w w1 t hb
        obtain ⟨evs2, b1, b2, b3, b4⟩ := ih w1 w2 ts hr
        refine ⟨evs1 ++ evs2, ?_, ?_, ?_, ?_⟩
        · rw [b1, a1, List.append_assoc]
        · rw [createdIn_append, a2, b2]; rfl
        · rw [deletedIn_append, a3, b3]; rfl
        · rw [drawnWith_append, a4, b4]; rfl

/-- A failed build has made no GL call: it has at most parsed colours. -/
theorem build_error_shape (env : Env) (map : List Keystone) (w w' : World) (e : JsError)
    (h : _buildColorMap env map w = (.error e, w')) :
    ∃ evs, w' = { w with trace := w.trace ++ evs } ∧ ∀ ev ∈ evs, ∃ c, ev = Event.parseColor c := by
  obtain ⟨evs, h1, h2⟩ := parseAll_frame env (sortBy map) w
  unfold _buildColorMap at h
  simp only at h
  split at h
  · simp only [Prod.mk.injEq] at h
    exact ⟨[], by rw [← h.2]; simp, by simp⟩
  · generalize parseAll env (sortBy map) w = res at h h1
    obtain ⟨r, w1⟩ := res
    simp only at h1
    subst h1
    cases r with
    | error e1 =>
      simp only [Prod.mk.injEq] at h
      exact ⟨evs, h.2.symm, h2⟩
    | ok stones =>
      simp only at h
      cases hc : addCaps stones with
      | error e1 =>
        rw [hc] at h
        simp only [Prod.mk.injEq] at h
        exact ⟨evs, h.2.symm, h2⟩
      | ok p =>
        rw [hc] at h
        simp at h

/-- When `_.map(this.opts.maps, ...)` throws: the maps before the failing one
have been built, and the failing build has made no GL call. -/
theorem buildAll_error_shape (env : Env) (maps : List (List Keystone)) (w w' : World)
    (e : JsError) (h : buildAll env maps w = (.error e, w')) :
    ∃ (k : Nat) (map : List Keystone) (textures : List Texture) (wk : World) (evs : List Event),
      maps[k]? = some map ∧
      buildAll env (maps.take k) w = (.ok textures, wk) ∧
      _buildColorMap env map wk = (.error e, w') ∧
      w' = { wk with trace := wk.trace ++ evs } ∧
      ∀ ev ∈ evs, ∃ c, ev = Event.parseColor c := by
  induction maps generalizing w w' with
  | nil => simp [buildAll] at h
  | cons map rest ih =>
    unfold buildAll at h
    generalize hb : _buildColorMap env map w = res at h
    obtain ⟨r, w1⟩ := res
    cases r with
    | error e1 =>
      simp only [Prod.mk.injEq, Except.error.injEq] at h
      obtain ⟨rfl, rfl⟩ := h
      obtain ⟨evs, h1, h2⟩ := build_error_shape env map w w1 e1 hb
      exact ⟨0, map, [], w, evs, by simp, rfl, hb, h1, h2⟩
    | ok t =>
      simp only at h
      generalize hr : buildAll env rest w1 = res2 at h
      obtain ⟨r2, w2⟩ := res2
      cases r2 with
      | ok ts => simp at h
      | error e2 =>
        simp only [Prod.mk.injEq, Except.error.injEq] at h
        obtain ⟨rfl, rfl⟩ := h
        obtain ⟨k, m, ts, wk, evs, g1, g2, g3, g4, g5⟩ := ih w1 w2 hr
        refine ⟨k + 1, m, t :: ts, wk, evs, by simpa using g1, ?_, g3, g4, g5⟩
        simp only [List.take_succ_cons, buildAll, hb, g2]

/-! ## A rebuild that fails -/

/-- C12, as the code has it: when `updateMap()` throws, the fields of the
component (`colorMaps`, `currentMap` among them) keep their values, but every
texture held before has been passed to `deleteTexture`, and for each map that
precedes the first failing one a texture has been created and uploaded; the
failing `_buildColorMap` call itself makes no GL call (it throws after at most
parsing colours). Each texture created by the failed call has a fresh handle,
at or above the handle counter the context had when the call started; so when
the textures in `colorMaps` were handed out before the call, `colorMaps`
after the call lists none of the created textures (it still lists the deleted
ones). -/
theorem updateMap_failure (env : Env) (self : ColorMap) (w : World) (e : JsError)
    (h : (updateMap env self w).1 = .error e) :
    (updateMap env self w).2.1 = self ∧
    ∃ (k : Nat) (map : List Keystone) (textures : List Texture) (wk : World)
        (evs all : List Event),
      self.opts.maps[k]? = some map ∧
      buildAll env (self.opts.maps.take k) (deleteAll (self.colorMaps.getD []) w)
        = (.ok textures, wk) ∧
      textures.length = k ∧
      _buildColorMap env map wk = (.error e, (updateMap env self w).2.2) ∧
      (updateMap env self w).2.2 = { wk with trace := wk.trace ++ evs } ∧
      (∀ ev ∈ evs, ∃ c, ev = Event.parseColor c) ∧
      (updateMap env self w).2.2.trace = w.trace ++ all ∧
      deletedIn all = self.colorMaps.getD [] ∧
      createdIn all = textures ∧
      (∀ t ∈ textures, ((updateMap env self w).2.2.image t).isSome = true) ∧
      (∀ t ∈ textures, w.nextHandle ≤ t) ∧
      ((∀ t ∈ self.colorMaps.getD [], t < w.nextHandle) →
        ∀ t ∈ textures, t ∉ (updateMap env self w).2.1.colorMaps.getD []) := by
  have hw1 : (match self.colorMaps with
      | some colorMaps => deleteAll colorMaps w
      | none => w) = deleteAll (self.colorMaps.getD []) w := by
    cases self.colorMaps <;> rfl
  unfold updateMap at h ⊢
  dsimp only at h ⊢
  rw [hw1] at h ⊢
  generalize hb : buildAll env self.opts.maps (deleteAll (self.colorMaps.getD []) w) = res at h ⊢
  obtain ⟨r, w2⟩ := res
  cases r with
  | ok textures => simp at h
  | error e1 =>
    simp only [Except.error.injEq] at h
    subst h
    obtain ⟨k, map, textures, wk, evs, g1, g2, g3, g4, g5⟩ :=
      buildAll_error_shape env _ _ _ _ hb
    obtain ⟨hts, _, _, _, _, _, _, _, _, hget⟩ := buildAll_shape env _ _ _ _ g2
    obtain ⟨evs2, b1, b2, b3, _⟩ := buildAll_events env _ _ _ _ g2
    obtain ⟨q1, q2, _⟩ := parse_events_quiet evs g5
    obtain ⟨d1, d2, _⟩ := delete_events (self.colorMaps.getD [])
    have hk : k < self.opts.maps.length := (List.getElem?_eq_some_iff.mp g1).1
    have hlen : (List.take k self.opts.maps).length = k := by
      rw [List.length_take]; omega
    have hfresh : ∀ t ∈ textures, w.nextHandle ≤ t := by
      intro t ht
      rw [hts] at ht
      obtain ⟨i, _, rfl⟩ := List.mem_range'.mp ht
      rw [deleteAll_eq]
      exact Nat.le_add_right _ _
    refine ⟨rfl, k, map, textures, wk, evs,
      (self.colorMaps.getD []).map Event.deleteTexture ++ evs2 ++ evs,
      g1, g2, ?_, g3, g4, g5, ?_, ?_, ?_, ?_, hfresh, ?_⟩
    · rw [hts, List.length_range', hlen]
    · show w2.trace = _
      rw [g4]
      simp only [b1, deleteAll_eq, List.append_assoc]
    · rw [deletedIn_append, deletedIn_append, d2, b3, q2]; simp
    · rw [createdIn_append, createdIn_append, d1, b2, q1]; simp
    · intro t ht
      rw [hts] at ht
      obtain ⟨i, hi, rfl⟩ := List.mem_range'.mp ht
      rw [hlen] at hi
      have hm : (List.take k self.opts.maps)[i]? = self.opts.maps[i]? := by
        rw [List.getElem?_take]; simp [hi]
      obtain ⟨m, hm'⟩ : ∃ m, self.opts.maps[i]? = some m :=
        ⟨_, List.getElem?_eq_getElem (by omega)⟩
      obtain ⟨table, _, _, _, _, h3⟩ := hget i m (hm.trans hm')
      show (w2.image _).isSome = true
      rw [g4]
      have : ({ wk with trace := wk.trace ++ evs } : World).image
          ((deleteAll (self.colorMaps.getD []) w).nextHandle + 1 * i)
          = wk.image ((deleteAll (self.colorMaps.getD []) w).nextHandle + 1 * i) := rfl
      rw [this, Nat.one_mul, h3]
      rfl
    · intro hold t ht hmem
      exact absurd (hold t hmem) (Nat.not_lt.mpr (hfresh t ht))

/-- C12 on the initialised three-map component after its `maps` option has
been given a second map with a repeated index: the fields stay, the textures
1, 2, 3 are deleted, texture 4 is created and uploaded for the first map; the
held textures 1, 2, 3 are below the handle counter 4, and every texture the
failed call created is at or above 4 and not among 1, 2, 3. -/
theorem updateMap_failure_witness :
    (updateMap sampleEnv ⟨{ threeMapOptions with maps := brokenMaps }, some 0, some [1, 2, 3], some 2⟩
        ⟨[], 4, none, []⟩).1 = .error (.error "map cannot have repeated indices") ∧
    (updateMap sampleEnv ⟨{ threeMapOptions with maps := brokenMaps }, some 0, some [1, 2, 3], some 2⟩
        ⟨[], 4, none, []⟩).2.1
      = ⟨{ threeMapOptions with maps := brokenMaps }, some 0, some [1, 2, 3], some 2⟩ ∧
    deletedIn (updateMap sampleEnv
        ⟨{ threeMapOptions with maps := brokenMaps }, some 0, some [1, 2, 3], some 2⟩
        ⟨[], 4, none, []⟩).2.2.trace = [1, 2, 3] ∧
    createdIn (updateMap sampleEnv
        ⟨{ threeMapOptions with maps := brokenMaps }, some 0, some [1, 2, 3], some 2⟩
        ⟨[], 4, none, []⟩).2.2.trace = [4] ∧
    (∀ t ∈ [1, 2, 3], t < 4) ∧
    (∀ t ∈ createdIn (updateMap sampleEnv
        ⟨{ threeMapOptions with maps := brokenMaps }, some 0, some [1, 2, 3], some 2⟩
        ⟨[], 4, none, []⟩).2.2.trace, 4 ≤ t ∧ t ∉ [1, 2, 3]) := by
  have h0 : (updateMap sampleEnv
      ⟨{ threeMapOptions with maps := brokenMaps }, some 0, some [1, 2, 3], some 2⟩
      ⟨[], 4, none, []⟩).1 = .error (.error "map cannot have repeated indices") := by decide
  have hold : ∀ t ∈ [1, 2, 3], t < 4 := by decide
  obtain ⟨h1, _, _, textures, _, _, all, _, _, _, _, _, _, h8, _, h10, _, h12, h13⟩ :=
    updateMap_failure sampleEnv
      ⟨{ threeMapOptions with maps := brokenMaps }, some 0, some [1, 2, 3], some 2⟩
      ⟨[], 4, none, []⟩ _ h0
  refine ⟨h0, h1, by decide, by decide, hold, ?_⟩
  intro t ht
  rw [h8, List.nil_append, h10] at ht
  refine ⟨h12 t ht, ?_⟩
  have hnot := h13 hold t ht
  rw [h1] at hnot
  exact hnot

/-- C12 fails as stated: the component `init()` produces from the three-map
options holds the live textures 1, 2, 3; after its `maps` option is replaced
by a valid map followed by a map with a repeated index, `updateMap()` throws,
and then the live textures are no longer 1, 2, 3 but the single texture 4,
which was created and uploaded by the failed call for the valid first map,
while `colorMaps` still names the deleted textures 1, 2, 3. -/
theorem updateMap_failure_partial :
    (session sampleEnv threeMapOptions [] World.initial).1 = .ok () ∧
    (session sampleEnv threeMapOptions [] World.initial).2.1
      = ⟨threeMapOptions, some 0, some [1, 2, 3], some 0⟩ ∧
    liveTextures (session sampleEnv threeMapOptions [] World.initial).2.2.trace = [1, 2, 3] ∧
    (updateMap sampleEnv ⟨{ threeMapOptions with maps := brokenMaps }, some 0, some [1, 2, 3], some 0⟩
        (session sampleEnv threeMapOptions [] World.initial).2.2).1
      = .error (.error "map cannot have repeated indices") ∧
    (updateMap sampleEnv ⟨{ threeMapOptions with maps := brokenMaps }, some 0, some [1, 2, 3], some 0⟩
        (session sampleEnv threeMapOptions [] World.initial).2.2).2.1.colorMaps
      = some [1, 2, 3] ∧
    liveTextures (updateMap sampleEnv
        ⟨{ threeMapOptions with maps := brokenMaps }, some 0, some [1, 2, 3], some 0⟩
        (session sampleEnv threeMapOptions [] World.initial).2.2).2.2.trace = [4] ∧
    ((updateMap sampleEnv
        ⟨{ threeMapOptions with maps := brokenMaps }, some 0, some [1, 2, 3], some 0⟩
        (session sampleEnv threeMapOptions [] World.initial).2.2).2.2.image 4).isSome = true ∧
    ((session sampleEnv threeMapOptions [] World.initial).2.2.image 4).isSome = false := by
  decide

/-! ## Invariants of a run -/

theorem runCalls_invariant (env : Env) (P : ColorMap → World → Prop) (allowed : Call → Prop)
    (hstep : ∀ call self w, allowed call → P self w → (runCall env call self w).1 = .ok () →
      P (runCall env call self w).2.1 (runCall env call self w).2.2)
    (calls : List Call) (self : ColorMap) (w : World) (hall : ∀ c ∈ calls, allowed c)
    (hP : P self w) (hok : (runCalls env calls self w).1 = .ok ()) :
    P (runCalls env calls self w).2.1 (runCalls env calls self w).2.2 := by
  induction calls generalizing self w with
  | nil => exact hP
  | cons call rest ih =>
    have h1 := hstep call self w (hall call (List.mem_cons_self _ _)) hP
    unfold runCalls at hok ⊢
    generalize runCall env call self w = res at h1 hok ⊢
    obtain ⟨r, s1, w1⟩ := res
    cases r with
    | error e => simp at hok
    | ok u =>
      exact ih s1 w1 (fun c hc => hall c (List.mem_cons_of_mem _ hc)) (h1 rfl) hok

theorem updateProgram_ok_program (env : Env) (self : ColorMap) (w : World)
    (h : (updateProgram env self w).1 = .ok ()) :
    ∃ p, (updateProgram env self w).2.1.program = some p := by
  unfold updateProgram at h ⊢
  dsimp only at h ⊢
  generalize env.getBlendMode self.opts.output = bm at h ⊢
  cases bm with
  | error e => simp at h
  | ok output =>
    dsimp only at h ⊢
    generalize ColorMapProgram env self.opts.key output _ = res at h ⊢
    obtain ⟨r, w3⟩ := res
    cases r with
    | error e => simp at h
    | ok p => exact ⟨p, rfl⟩

/-- What a successful `updateMap()` has done, in terms of created and deleted
textures. -/
theorem updateMap_events (env : Env) (self : ColorMap) (w : World)
    (h : (updateMap env self w).1 = .ok ()) :
    ∃ (textures : List Texture) (evs : List Event),
      (updateMap env self w).2.1
        = { self with colorMaps := some textures, currentMap := some 0 } ∧
      (updateMap env self w).2.2.trace = w.trace ++ evs ∧
      createdIn evs = textures ∧
      deletedIn evs = self.colorMaps.getD [] ∧
      drawnWith evs = [] ∧
      textures = List.range' w.nextHandle self.opts.maps.length ∧
      (updateMap env self w).2.2.nextHandle = w.nextHandle + self.opts.maps.length := by
  have hw1 : (match self.colorMaps with
      | some colorMaps => deleteAll colorMaps w
      | none => w) = deleteAll (self.colorMaps.getD []) w := by
    cases self.colorMaps <;> rfl
  unfold updateMap at h ⊢
  dsimp only at h ⊢
  rw [hw1] at h ⊢
  generalize hb : buildAll env self.opts.maps (deleteAll (self.colorMaps.getD []) w) = res at h ⊢
  obtain ⟨r, w2⟩ := res
  cases r with
  | error e => simp at h
  | ok textures =>
    obtain ⟨hts, hnext, _⟩ := buildAll_shape env _ _ _ _ hb
    obtain ⟨evs, b1, b2, b3, b4⟩ := buildAll_events env _ _ _ _ hb
    obtain ⟨d1, d2, d3⟩ := delete_events (self.colorMaps.getD [])
    refine ⟨textures, (self.colorMaps.getD []).map Event.deleteTexture ++ evs, rfl, ?_, ?_, ?_,
      ?_, ?_, ?_⟩
    · show w2.trace = _
      rw [b1, deleteAll_eq, List.append_assoc]
    · rw [createdIn_append, d1, b2]; rfl
    · rw [deletedIn_append, d2, b3]; simp
    · rw [drawnWith_append, d3, b4]; rfl
    · rw [hts, deleteAll_eq]
    · show w2.nextHandle = _
      rw [hnext, deleteAll_eq]

theorem cycle_fields (beat : Bool) (random : RandomDraw) (self self' : ColorMap)
    (h : cycle beat random self = .ok self') :
    self'.program = self.program ∧ self'.colorMaps = self.colorMaps ∧ self'.opts = self.opts := by
  unfold cycle at h
  split at h
  · split at h
    · cases h; exact ⟨rfl, rfl, rfl⟩
    · split at h
      · split at h
        · cases h
        · cases h; exact ⟨rfl, rfl, rfl⟩
      · cases h; exact ⟨rfl, rfl, rfl⟩
  · cases h; exact ⟨rfl, rfl, rfl⟩

/-- The frame of `draw`: it creates and deletes nothing and keeps the program,
the textures and the options. -/
theorem draw_shape (beat : Bool) (random : RandomDraw) (self : ColorMap) (w : World) :
    (draw beat random self w).2.1.program = self.program ∧
    (draw beat random self w).2.1.colorMaps = self.colorMaps ∧
    (draw beat random self w).2.1.opts = self.opts ∧
    (draw beat random self w).2.2.nextHandle = w.nextHandle ∧
    ∃ evs, (draw beat random self w).2.2.trace = w.trace ++ evs ∧
      createdIn evs = [] ∧ deletedIn evs = [] := by
  unfold draw
  cases hc : cycle beat random self with
  | error e => exact ⟨rfl, rfl, rfl, rfl, [], by simp, rfl, rfl⟩
  | ok s1 =>
    obtain ⟨h1, h2, h3⟩ := cycle_fields beat random self s1 hc
    dsimp only
    cases hp : s1.program with
    | none => exact ⟨by rw [← h1, hp], h2, h3, rfl, [], by simp, rfl, rfl⟩
    | some p =>
      dsimp only
      cases hm : s1.colorMaps with
      | none => exact ⟨by rw [← h1, hp], h2, h3, rfl, [], by simp, rfl, rfl⟩
      | some cms => exact ⟨by rw [← h1, hp], h2, h3, rfl, [_], rfl, rfl, rfl⟩

theorem owns_quiet (self self' : ColorMap) (evs evs' : List Event) (bound bound' : Nat)
    (h : Owns self evs bound) (hc : createdIn evs' = []) (hd : deletedIn evs' = [])
    (hb : bound ≤ bound') (hcm : self'.colorMaps = self.colorMaps)
    (hp : ∃ p, self'.program = some p) : Owns self' (evs ++ evs') bound' := by
  obtain ⟨p, cms, _, h2, h3, h4, h5⟩ := h
  obtain ⟨p', hp'⟩ := hp
  refine ⟨p', cms, hp', by rw [hcm, h2], ?_, ?_, ?_⟩
  · rw [createdIn_append, deletedIn_append, hc, hd, List.append_nil, List.append_nil, h3]
  · rw [createdIn_append, hc, List.append_nil]; exact h4
  · rw [createdIn_append, hc, List.append_nil]
    intro t ht
    exact Nat.lt_of_lt_of_le (h5 t ht) hb

theorem owns_updateMap (env : Env) (self : ColorMap) (w : World) (evs : List Event)
    (held : List Texture) (program : Program)
    (hp : self.program = some program) (hheld : self.colorMaps.getD [] = held)
    (h3 : createdIn evs = deletedIn evs ++ held) (h4 : (createdIn evs).Nodup)
    (h5 : ∀ t ∈ createdIn evs, t < w.nextHandle)
    (hok : (updateMap env self w).1 = .ok ()) :
    ∃ evs', (updateMap env self w).2.2.trace = w.trace ++ evs' ∧
      Owns (updateMap env self w).2.1 (evs ++ evs') (updateMap env self w).2.2.nextHandle := by
  obtain ⟨textures, evs', g1, g2, g3, g4, _, g6, g7⟩ := updateMap_events env self w hok
  refine ⟨evs', g2, program, textures, by rw [g1]; exact hp, by rw [g1], ?_, ?_, ?_⟩
  · rw [createdIn_append, deletedIn_append, g3, g4, hheld, h3, List.append_assoc]
  · rw [createdIn_append, g3, List.nodup_append]
    refine ⟨h4, by rw [g6]; exact List.nodup_range' _ _, ?_⟩
    intro t ht1 ht2
    rw [g6] at ht2
    have a1 : @LT.lt Nat _ t w.nextHandle := h5 t ht1
    have a2 : @LE.le Nat _ w.nextHandle t := (List.mem_range'_1.mp ht2).1
    omega
  · rw [createdIn_append, g3, g7]
    intro t ht
    rcases List.mem_append.mp ht with ht | ht
    · have a1 : @LT.lt Nat _ t w.nextHandle := h5 t ht
      show @LT.lt Nat _ t (w.nextHandle + self.opts.maps.length)
      omega
    · rw [g6] at ht
      exact (List.mem_range'_1.mp ht).2

/-- One successful call keeps the texture bookkeeping. -/
theorem owns_step (env : Env) (w0 : World) (call : Call) (self : ColorMap) (w : World)
    (h : ∃ evs, w.trace = w0.trace ++ evs ∧ Owns self evs w.nextHandle)
    (hok : (runCall env call self w).1 = .ok ()) :
    ∃ evs, (runCall env call self w).2.2.trace = w0.trace ++ evs ∧
      Owns (runCall env call self w).2.1 evs (runCall env call self w).2.2.nextHandle := by
  obtain ⟨evs, htr, hown⟩ := h
  have hprog : ∀ s : ColorMap, s.program = self.program → s.colorMaps = self.colorMaps →
      (updateProgram env s w).1 = .ok () →
      ∃ evs, (updateProgram env s w).2.2.trace = w0.trace ++ evs ∧
        Owns (updateProgram env s w).2.1 evs (updateProgram env s w).2.2.nextHandle := by
    intro s _ hs2 hok
    obtain ⟨a1, _, _, _, a5, evs', a6, a7⟩ := updateProgram_shape env s w
    obtain ⟨q1, q2, _⟩ := program_events_quiet evs' a7
    exact ⟨evs ++ evs', by rw [a6, htr, List.append_assoc],
      owns_quiet self _ evs evs' _ _ hown q1 q2 a5 (by rw [a1, hs2])
        (updateProgram_ok_program env s w hok)⟩
  have hmap : ∀ s : ColorMap, s.program = self.program → s.colorMaps = self.colorMaps →
      (updateMap env s w).1 = .ok () →
      ∃ evs, (updateMap env s w).2.2.trace = w0.trace ++ evs ∧
        Owns (updateMap env s w).2.1 evs (updateMap env s w).2.2.nextHandle := by
    intro s hs1 hs2 hok
    obtain ⟨p, cms, b1, b2, b3, b4, b5⟩ := hown
    obtain ⟨evs', c1, c2⟩ := owns_updateMap env s w evs cms p (by rw [hs1, b1])
      (by rw [hs2, b2]; rfl) b3 b4 b5 hok
    exact ⟨evs ++ evs', by rw [c1, htr, List.append_assoc], c2⟩
  cases call with
  | updateMap => exact hmap self rfl rfl hok
  | updateProgram => exact hprog self rfl rfl hok
  | draw beat random =>
    obtain ⟨d1, d2, _, d4, evs', d5, d6, d7⟩ := draw_shape beat random self w
    obtain ⟨p, _, b1, _⟩ := hown
    refine ⟨evs ++ evs', ?_, ?_⟩
    · show (draw beat random self w).2.2.trace = _
      rw [d5, htr, List.append_assoc]
    · show Owns (draw beat random self w).2.1 _ (draw beat random self w).2.2.nextHandle
      rw [d4]
      exact owns_quiet self _ evs evs' _ _ ⟨p, _, b1, ‹_›⟩ d6 d7 (Nat.le_refl _) d2
        ⟨p, by rw [d1, b1]⟩
  | setMaps maps => exact hmap _ rfl rfl hok
  | setKey key => exact hprog _ rfl rfl hok
  | setOutput output => exact hprog _ rfl rfl hok
  | setMapCycleMode mode =>
    obtain ⟨p, cms, b1, b2, b3, b4, b5⟩ := hown
    exact ⟨evs, htr, p, cms, b1, b2, b3, b4, b5⟩

theorem live_of_owns (created deleted colorMaps : List Texture)
    (h : created = deleted ++ colorMaps) (hn : created.Nodup) :
    created.filter (fun t => !deleted.contains t) = colorMaps := by
  subst h
  obtain ⟨_, _, hdis⟩ := List.nodup_append.mp hn
  rw [List.filter_append]
  have h1 : deleted.filter (fun t => !deleted.contains t) = [] := by
    rw [List.filter_eq_nil_iff]
    intro t ht
    simp [ht]
  have h2 : colorMaps.filter (fun t => !deleted.contains t) = colorMaps := by
    rw [List.filter_eq_self]
    intro t ht
    have : t ∉ deleted := fun hd => hdis hd ht
    simp [this]
  rw [h1, h2, List.nil_append]

/-- A successful `init()` on a new component establishes the bookkeeping. -/
theorem owns_init (env : Env) (opts : Options) (w : World)
    (hok : (init env (ColorMap.new opts) w).1 = .ok ()) :
    ∃ evs, (init env (ColorMap.new opts) w).2.2.trace = w.trace ++ evs ∧
      Owns (init env (ColorMap.new opts) w).2.1 evs
        (init env (ColorMap.new opts) w).2.2.nextHandle := by
  obtain ⟨a1, _, _, _, _, evs0, a6, a7⟩ := updateProgram_shape env (ColorMap.new opts) w
  obtain ⟨q1, q2, _⟩ := program_events_quiet evs0 a7
  have hprog := updateProgram_ok_program env (ColorMap.new opts) w
  unfold init at hok ⊢
  generalize updateProgram env (ColorMap.new opts) w = res at a1 a6 hprog hok ⊢
  obtain ⟨r, s1, w1⟩ := res
  cases r with
  | error e => simp at hok
  | ok u =>
    dsimp only at a1 a6 hprog hok ⊢
    obtain ⟨p, hp⟩ := hprog rfl
    obtain ⟨evs', c1, c2⟩ := owns_updateMap env s1 w1 evs0 [] p hp (by rw [a1]; rfl)
      (by rw [q1, q2]; rfl) (by rw [q1]; exact List.nodup_nil) (by rw [q1]; simp) hok
    exact ⟨evs0 ++ evs', by rw [c1, a6, List.append_assoc], c2⟩

/-- C11: in every run made of a successful `init()` on a new component and
then any sequence of successful calls (`updateMap`, `updateProgram`, `draw`,
option changes with their rebuilds), the textures the run has created and not
passed to `deleteTexture` are exactly the elements of `colorMaps`; and after
one `destroy()`, which succeeds, no texture of the run is live and every
texture the run ever created has been created once and deleted exactly once. -/
theorem no_texture_leak (env : Env) (opts : Options) (calls : List Call) (w : World)
    (hok : (session env opts calls w).1 = .ok ()) :
    ∃ (evs : List Event) (colorMaps : List Texture),
      (session env opts calls w).2.2.trace = w.trace ++ evs ∧
      (session env opts calls w).2.1.colorMaps = some colorMaps ∧
      liveTextures evs = colorMaps ∧
      (destroy (session env opts calls w).2.1 (session env opts calls w).2.2).1 = .ok () ∧
      ∃ evs' : List Event,
        (destroy (session env opts calls w).2.1 (session env opts calls w).2.2).2.2.trace
          = w.trace ++ evs ++ evs' ∧
        liveTextures (evs ++ evs') = [] ∧
        ∀ t ∈ createdIn (evs ++ evs'),
          (createdIn (evs ++ evs')).count t = 1 ∧ (deletedIn (evs ++ evs')).count t = 1 := by
  have hinv : ∃ evs, (session env opts calls w).2.2.trace = w.trace ++ evs ∧
      Owns (session env opts calls w).2.1 evs (session env opts calls w).2.2.nextHandle := by
    have hinit := owns_init env opts w
    unfold session at hok ⊢
    generalize init env (ColorMap.new opts) w = res at hinit hok ⊢
    obtain ⟨r, s1, w1⟩ := res
    cases r with
    | error e => simp at hok
    | ok u =>
      exact runCalls_invariant env
        (fun s w' => ∃ evs, w'.trace = w.trace ++ evs ∧ Owns s evs w'.nextHandle)
        (fun _ => True) (fun call s w' _ hP h => owns_step env w call s w' hP h)
        calls s1 w1 (fun _ _ => trivial) (hinit rfl) hok
  obtain ⟨evs, htr, p, cms, hp, hc, h3, h4, _⟩ := hinv
  have hd := destroy_eq (session env opts calls w).2.1 (session env opts calls w).2.2 p cms hp hc
  obtain ⟨d1, d2, _⟩ := delete_events cms
  have hcr : createdIn (evs ++ Event.destroyProgram p :: cms.map Event.deleteTexture)
      = createdIn evs := by
    rw [createdIn_append]
    show createdIn evs ++ createdIn (cms.map Event.deleteTexture) = _
    rw [d1, List.append_nil]
  have hdl : deletedIn (evs ++ Event.destroyProgram p :: cms.map Event.deleteTexture)
      = createdIn evs := by
    rw [deletedIn_append]
    show deletedIn evs ++ deletedIn (cms.map Event.deleteTexture) = _
    rw [d2, h3]
  refine ⟨evs, cms, htr, hc, live_of_owns _ _ _ h3 h4, by rw [hd],
    Event.destroyProgram p :: cms.map Event.deleteTexture, ?_, ?_, ?_⟩
  · rw [hd]
    show _ ++ _ = _
    rw [htr]
  · unfold liveTextures
    rw [hcr, hdl, List.filter_eq_nil_iff]
    intro t ht
    simp [ht]
  · intro t ht
    rw [hcr] at ht ⊢
    rw [hdl]
    exact ⟨List.count_eq_one_of_mem h4 ht, List.count_eq_one_of_mem h4 ht⟩

/-- C11 on a run of the three-map component: a draw on a beat, a rebuild, a
change of key, a change of the map set to the sample map alone. -/
theorem no_texture_leak_witness :
    (session sampleEnv threeMapOptions
        [.draw true RandomDraw.zero, .updateMap, .setKey "MAX", .setMaps [sampleMap]]
        World.initial).1 = .ok () ∧
    (session sampleEnv threeMapOptions
        [.draw true RandomDraw.zero, .updateMap, .setKey "MAX", .setMaps [sampleMap]]
        World.initial).2.1.colorMaps = some [8] ∧
    liveTextures (session sampleEnv threeMapOptions
        [.draw true RandomDraw.zero, .updateMap, .setKey "MAX", .setMaps [sampleMap]]
        World.initial).2.2.trace = [8] ∧
    createdIn (session sampleEnv threeMapOptions
        [.draw true RandomDraw.zero, .updateMap, .setKey "MAX", .setMaps [sampleMap]]
        World.initial).2.2.trace = [1, 2, 3, 4, 5, 6, 8] ∧
    ∃ (evs : List Event) (colorMaps : List Texture),
      (session sampleEnv threeMapOptions
        [.draw true RandomDraw.zero, .updateMap, .setKey "MAX", .setMaps [sampleMap]]
        World.initial).2.2.trace = World.initial.trace ++ evs ∧
      (session sampleEnv threeMapOptions
        [.draw true RandomDraw.zero, .updateMap, .setKey "MAX", .setMaps [sampleMap]]
        World.initial).2.1.colorMaps = some colorMaps ∧
      liveTextures evs = colorMaps :=
  have hok : (session sampleEnv threeMapOptions
      [.draw true RandomDraw.zero, .updateMap, .setKey "MAX", .setMaps [sampleMap]]
      World.initial).1 = .ok () := by decide
  have h := no_texture_leak sampleEnv threeMapOptions
    [.draw true RandomDraw.zero, .updateMap, .setKey "MAX", .setMaps [sampleMap]]
    World.initial hok
  ⟨hok, by decide, by decide, by decide,
    h.elim fun evs h1 => h1.elim fun cms h2 => ⟨evs, cms, h2.1, h2.2.1, h2.2.2.1⟩⟩

/-! ## The map cursor stays in range -/

/-- The search of `shiftFrom` ends at a shift that fits, and at the least one. -/
theorem shiftFrom_spec (fuel : Nat) : ∀ (s x : Nat), (s = 0 ∨ 2 ^ (52 + s) ≤ x) →
    x < 2 ^ (53 + s + fuel) →
    x < 2 ^ (53 + shiftFrom fuel s x) ∧
      (shiftFrom fuel s x = 0 ∨ 2 ^ (52 + shiftFrom fuel s x) ≤ x) := by
  induction fuel with
  | zero => intro s x hs hx; exact ⟨by simpa [shiftFrom] using hx, by simpa [shiftFrom] using hs⟩
  | succ fuel ih =>
    intro s x hs hx
    unfold shiftFrom
    by_cases h : x < 2 ^ (53 + s)
    · rw [if_pos h]; exact ⟨h, hs⟩
    · rw [if_neg h]
      refine ih (s + 1) x (Or.inr ?_) ?_
      · have : 52 + (s + 1) = 53 + s := by omega
        rw [this]; exact Nat.le_of_not_lt h
      · have : 53 + (s + 1) + fuel = 53 + s + (fuel + 1) := by omega
        rw [this]; exact hx

/-- After dropping `lostBits x` digits `x` has at most 53 bits, and exactly 53 when
some digit is dropped. -/
theorem lostBits_spec (x : Nat) :
    x < 2 ^ (53 + lostBits x) ∧ (lostBits x = 0 ∨ 2 ^ (52 + lostBits x) ≤ x) := by
  refine shiftFrom_spec x 0 x (Or.inl rfl) ?_
  calc x < 2 ^ x := Nat.lt_two_pow x
    _ ≤ 2 ^ (53 + 0 + x) := Nat.pow_le_pow_right (by decide) (by omega)

/-- Rounding moves a number up by at most half a unit in the last place. -/
theorem roundDouble_le (x : Nat) :
    roundDouble x ≤ x ∨
      (lostBits x ≠ 0 ∧ 2 * roundDouble x ≤ 2 * x + 2 ^ lostBits x) := by
  unfold roundDouble
  simp only []
  have hdm := Nat.div_add_mod x (2 ^ lostBits x)
  have hmul : x / 2 ^ lostBits x * 2 ^ lostBits x = 2 ^ lostBits x * (x / 2 ^ lostBits x) :=
    Nat.mul_comm _ _
  split
  · rename_i hup
    right
    constructor
    · intro h0
      rw [h0] at hup
      simp [Nat.mod_one] at hup
    · have hrem : 2 ^ lostBits x ≤ 2 * (x % 2 ^ lostBits x) := by
        rcases hup with h | h
        · exact Nat.le_of_lt h
        · exact Nat.le_of_eq h.1.symm
      rw [Nat.add_mul, Nat.one_mul, hmul]
      omega
  · left
    rw [hmul]; omega

/-- A double below 1 is at most `1 - 2 ^ -53`. -/
theorem random_gap (random : RandomDraw) :
    random.num * 2 ^ 53 + 2 ^ random.exp ≤ 2 ^ 53 * 2 ^ random.exp := by
  have h1 := random.significand
  have h2 := random.lt_one
  rcases Nat.le_total (2 ^ random.exp) (2 ^ 53) with h | h
  · calc random.num * 2 ^ 53 + 2 ^ random.exp
        ≤ random.num * 2 ^ 53 + 2 ^ 53 := Nat.add_le_add_left h _
      _ = (random.num + 1) * 2 ^ 53 := by rw [Nat.add_mul, Nat.one_mul]
      _ ≤ 2 ^ random.exp * 2 ^ 53 := Nat.mul_le_mul_right _ h2
      _ = 2 ^ 53 * 2 ^ random.exp := Nat.mul_comm _ _
  · calc random.num * 2 ^ 53 + 2 ^ random.exp
        ≤ random.num * 2 ^ random.exp + 2 ^ random.exp :=
          Nat.add_le_add_right (Nat.mul_le_mul_left _ h) _
      _ = (random.num + 1) * 2 ^ random.exp := by rw [Nat.add_mul, Nat.one_mul]
      _ ≤ 2 ^ 53 * 2 ^ random.exp := Nat.mul_le_mul_right _ h1

/-- The value of `Math.floor(Math.random() * n)` is below `n`, also after the product
is rounded. -/
theorem floorMul_lt (random : RandomDraw) (n : Nat) (hn : 0 < n) : random.floorMul n < n := by
  unfold RandomDraw.floorMul
  rw [Nat.div_lt_iff_lt_mul (Nat.pos_pow_of_pos _ (by decide))]
  have hlt : random.num * n < n * 2 ^ random.exp := by
    calc random.num * n < 2 ^ random.exp * n := Nat.mul_lt_mul_of_pos_right random.lt_one hn
      _ = n * 2 ^ random.exp := Nat.mul_comm _ _
  rcases roundDouble_le (random.num * n) with h | ⟨hs, h⟩
  · exact Nat.lt_of_le_of_lt h hlt
  · have hbig : 2 ^ (52 + lostBits (random.num * n)) ≤ random.num * n := by
      rcases (lostBits_spec (random.num * n)).2 with h0 | h0
      · exact absurd h0 hs
      · exact h0
    have hgap := Nat.mul_le_mul_right n (random_gap random)
    generalize lostBits (random.num * n) = s at hs h hbig
    generalize roundDouble (random.num * n) = r at h
    obtain ⟨d, hd⟩ : ∃ d, n * 2 ^ random.exp = random.num * n + d := ⟨_, (Nat.add_sub_cancel' (Nat.le_of_lt hlt)).symm⟩
    have hpow : 2 ^ 53 * 2 ^ s = 2 * 2 ^ (52 + s) := by
      have e : 53 + s = (52 + s) + 1 := by omega
      rw [← Nat.pow_add, e, Nat.pow_succ']
    have e1 : (random.num * 2 ^ 53 + 2 ^ random.exp) * n
        = 2 ^ 53 * (random.num * n) + n * 2 ^ random.exp := by ring
    have e2 : 2 ^ 53 * 2 ^ random.exp * n = 2 ^ 53 * (n * 2 ^ random.exp) := by ring
    rw [e1, e2, hd, Nat.mul_add] at hgap
    rw [hd] at hlt ⊢
    generalize random.num * n = N at *
    by_contra hcon
    have h2d : 2 * d ≤ 2 ^ s := by omega
    have h3 := Nat.mul_le_mul_left (2 ^ 53) h2d
    rw [hpow] at h3
    generalize 2 ^ (52 + s) = P at *
    generalize 2 ^ s = Q at *
    have e3 : 2 ^ 53 * (2 * d) = 2 * (2 ^ 53 * d) := by ring
    rw [e3] at h3
    generalize 2 ^ 53 * d = D at *
    generalize 2 ^ 53 * N = M at *
    omega

theorem cycle_inRange (beat : Bool) (random : RandomDraw) (self : ColorMap) (h : InRange self) :
    ∃ s', cycle beat random self = .ok s' ∧ InRange s' ∧ s'.program = self.program := by
  obtain ⟨cms, m, h1, h2, h3, h4⟩ := h
  have hpos : 0 < cms.length := by omega
  unfold cycle
  split
  · split
    · exact ⟨_, rfl, ⟨cms, _, h1, h2, rfl, by rw [h2]; exact floorMul_lt _ _ (by omega)⟩, rfl⟩
    · split
      · rw [h1]
        refine ⟨_, rfl, ⟨cms, (m + 1) % cms.length, rfl, h2, ?_, Nat.mod_lt _ hpos⟩, rfl⟩
        show succMod self.currentMap cms.length = _
        rw [h3]
        simp [succMod, Nat.ne_of_gt hpos]
      · exact ⟨self, rfl, ⟨cms, m, h1, h2, h3, h4⟩, rfl⟩
  · exact ⟨self, rfl, ⟨cms, m, h1, h2, h3, h4⟩, rfl⟩

/-- A `draw()` in range stays in range and hands a defined texture to the program. -/
theorem draw_inRange (beat : Bool) (random : RandomDraw) (self : ColorMap) (w : World)
    (h : InRange self) :
    InRange (draw beat random self w).2.1 ∧
    ∃ evs, (draw beat random self w).2.2.trace = w.trace ++ evs ∧
      ∀ tex ∈ drawnWith evs, tex ≠ none := by
  obtain ⟨s', hc, hin, _⟩ := cycle_inRange beat random self h
  obtain ⟨cms, m, h1, h2, h3, h4⟩ := hin
  unfold draw
  rw [hc]
  dsimp only
  cases s'.program with
  | none => exact ⟨⟨cms, m, h1, h2, h3, h4⟩, [], by simp, by simp [drawnWith]⟩
  | some p =>
    dsimp only
    rw [h1]
    refine ⟨⟨cms, m, h1, h2, h3, h4⟩, [_], rfl, ?_⟩
    intro tex htex
    simp only [drawnWith, List.filterMap_cons, List.filterMap_nil, List.mem_singleton] at htex
    rw [htex, h3]
    simp only [elementAt, List.get?_eq_getElem?, List.getElem?_eq_getElem h4]
    exact Option.some_ne_none _

theorem inRange_updateMap (env : Env) (self : ColorMap) (w : World)
    (hmaps : self.opts.maps ≠ []) (hok : (updateMap env self w).1 = .ok ()) :
    InRange (updateMap env self w).2.1 ∧
    ∃ evs, (updateMap env self w).2.2.trace = w.trace ++ evs ∧ drawnWith evs = [] := by
  obtain ⟨textures, evs, g1, g2, _, _, g5, g6, _⟩ := updateMap_events env self w hok
  refine ⟨⟨textures, 0, by rw [g1], ?_, by rw [g1], ?_⟩, evs, g2, g5⟩
  · rw [g1, g6, List.length_range']
  · rw [g6, List.length_range']
    exact List.length_pos.mpr hmaps

/-- One successful call keeps the cursor in range and every drawn texture defined. -/
theorem inRange_step (env : Env) (w0 : World) (call : Call) (self : ColorMap) (w : World)
    (hcall : call.KeepsAMap)
    (h : InRange self ∧ ∃ evs, w.trace = w0.trace ++ evs ∧ ∀ tex ∈ drawnWith evs, tex ≠ none)
    (hok : (runCall env call self w).1 = .ok ()) :
    InRange (runCall env call self w).2.1 ∧
    ∃ evs, (runCall env call self w).2.2.trace = w0.trace ++ evs ∧
      ∀ tex ∈ drawnWith evs, tex ≠ none := by
  obtain ⟨hin, evs, htr, hdr⟩ := h
  have hnonempty : self.opts.maps ≠ [] := by
    obtain ⟨cms, m, _, h2, _, h4⟩ := hin
    intro h0
    rw [h0] at h2
    simp only [List.length_nil] at h2
    omega
  have hquiet : ∀ (evs' : List Event), drawnWith evs' = [] →
      ∀ tex ∈ drawnWith (evs ++ evs'), tex ≠ none := by
    intro evs' h0 tex htex
    rw [drawnWith_append, h0, List.append_nil] at htex
    exact hdr tex htex
  have hprog : ∀ s : ColorMap, s.colorMaps = self.colorMaps → s.currentMap = self.currentMap →
      s.opts.maps = self.opts.maps →
      InRange (updateProgram env s w).2.1 ∧
      ∃ evs, (updateProgram env s w).2.2.trace = w0.trace ++ evs ∧
        ∀ tex ∈ drawnWith evs, tex ≠ none := by
    intro s e1 e2 e3
    obtain ⟨a1, a2, a3, _, _, evs', a6, a7⟩ := updateProgram_shape env s w
    obtain ⟨_, _, q3⟩ := program_events_quiet evs' a7
    obtain ⟨cms, m, h1, h2, h3, h4⟩ := hin
    exact ⟨⟨cms, m, by rw [a1, e1, h1], by rw [a3, e3, h2], by rw [a2, e2, h3], h4⟩,
      evs ++ evs', by rw [a6, htr, List.append_assoc], hquiet evs' q3⟩
  have hmap : ∀ s : ColorMap, s.opts.maps ≠ [] → (updateMap env s w).1 = .ok () →
      InRange (updateMap env s w).2.1 ∧
      ∃ evs, (updateMap env s w).2.2.trace = w0.trace ++ evs ∧
        ∀ tex ∈ drawnWith evs, tex ≠ none := by
    intro s hs hok
    obtain ⟨b1, evs', b2, b3⟩ := inRange_updateMap env s w hs hok
    exact ⟨b1, evs ++ evs', by rw [b2, htr, List.append_assoc], hquiet evs' b3⟩
  cases call with
  | updateMap => exact hmap self hnonempty hok
  | updateProgram => exact hprog self rfl rfl rfl
  | draw beat random =>
    obtain ⟨d1, evs', d2, d3⟩ := draw_inRange beat random self w hin
    refine ⟨d1, evs ++ evs', ?_, ?_⟩
    · show (draw beat random self w).2.2.trace = _
      rw [d2, htr, List.append_assoc]
    · intro tex htex
      rw [drawnWith_append] at htex
      rcases List.mem_append.mp htex with htex | htex
      · exact hdr tex htex
      · exact d3 tex htex
  | setMaps maps => exact hmap _ (hcall maps rfl) hok
  | setKey key => exact hprog _ rfl rfl rfl
  | setOutput output => exact hprog _ rfl rfl rfl
  | setMapCycleMode mode =>
    obtain ⟨cms, m, h1, h2, h3, h4⟩ := hin
    exact ⟨⟨cms, m, h1, h2, h3, h4⟩, evs, htr, hdr⟩

/-- C15: in every state reached by a successful `init()` on a new component
with at least one map and then any sequence of successful calls (`updateMap`,
`updateProgram`, `draw` with any beat signal and any double in `[0, 1)` as the
value of `Math.random()`, option changes that keep at least one map, any
cycle mode), `colorMaps` holds one texture per configured map and
`currentMap` is a natural number below their number; every texture handed to
`program.run` during the run was defined; and a further beat in mode
`ONBEATRANDOM` sets `currentMap` to a value in `[0, mapCount - 1]`, where the
product `Math.random() * maps.length` is rounded as double multiplication
rounds it before the floor is taken. -/
theorem currentMap_in_range (env : Env) (opts : Options) (calls : List Call) (w : World)
    (hmaps : opts.maps ≠ []) (hcalls : ∀ c ∈ calls, c.KeepsAMap)
    (hok : (session env opts calls w).1 = .ok ()) :
    (∃ (colorMaps : List Texture) (m : Nat),
      (session env opts calls w).2.1.colorMaps = some colorMaps ∧
      colorMaps.length = (session env opts calls w).2.1.opts.maps.length ∧
      (session env opts calls w).2.1.currentMap = some m ∧
      m < colorMaps.length) ∧
    (∃ evs, (session env opts calls w).2.2.trace = w.trace ++ evs ∧
      ∀ tex ∈ drawnWith evs, tex ≠ none) ∧
    (∀ (random : RandomDraw) (w' : World),
      (session env opts calls w).2.1.opts.mapCycleMode = "ONBEATRANDOM" →
      ∃ m, (draw true random (session env opts calls w).2.1 w').2.1.currentMap = some m ∧
        m ≤ (session env opts calls w).2.1.opts.maps.length - 1) := by
  have hinv : InRange (session env opts calls w).2.1 ∧
      ∃ evs, (session env opts calls w).2.2.trace = w.trace ++ evs ∧
        ∀ tex ∈ drawnWith evs, tex ≠ none := by
    obtain ⟨a1, a2, a3, _, _, evs0, a6, a7⟩ := updateProgram_shape env (ColorMap.new opts) w
    obtain ⟨_, _, q3⟩ := program_events_quiet evs0 a7
    unfold session at hok ⊢
    unfold init at hok ⊢
    generalize updateProgram env (ColorMap.new opts) w = res at a1 a2 a3 a6 hok ⊢
    obtain ⟨r, s0, w0⟩ := res
    cases r with
    | error e => simp at hok
    | ok u =>
      dsimp only at a1 a2 a3 a6 hok ⊢
      have hm := inRange_updateMap env s0 w0 (by rw [a3]; exact hmaps)
      generalize updateMap env s0 w0 = res at hm hok ⊢
      obtain ⟨r, s1, w1⟩ := res
      cases r with
      | error e => simp at hok
      | ok u =>
        obtain ⟨b1, evs', b2, b3⟩ := hm rfl
        exact runCalls_invariant env
          (fun s w' => InRange s ∧ ∃ evs, w'.trace = w.trace ++ evs ∧
            ∀ tex ∈ drawnWith evs, tex ≠ none)
          Call.KeepsAMap (fun call s w' hc hP h => inRange_step env w call s w' hc hP h)
          calls s1 w1 hcalls
          ⟨b1, evs0 ++ evs', by rw [b2, a6, List.append_assoc], by
            intro tex htex
            rw [drawnWith_append, q3, b3] at htex
            simp at htex⟩ hok
  obtain ⟨hin, hev⟩ := hinv
  refine ⟨hin, hev, ?_⟩
  intro random w' hmode
  obtain ⟨cms, m, h1, h2, h3, h4⟩ := hin
  have hc : cycle true random (session env opts calls w).2.1
      = .ok { (session env opts calls w).2.1 with
          currentMap := some (random.floorMul (session env opts calls w).2.1.opts.maps.length) } := by
    simp [cycle, hmode]
  have hlt := floorMul_lt random (session env opts calls w).2.1.opts.maps.length (by omega)
  refine ⟨random.floorMul (session env opts calls w).2.1.opts.maps.length, ?_, by omega⟩
  unfold draw
  rw [hc]
  dsimp only
  cases (session env opts calls w).2.1.program with
  | none => rfl
  | some p =>
    dsimp only
    cases (session env opts calls w).2.1.colorMaps <;> rfl

/-- C15 on a run in which the random beat with draw 0.6666666666666666 picks
map 2 of 3 (the product rounds up to 2), a sequential beat wraps to map 0,
and the map set is then replaced by two maps: the cursor ends at 0 of 2, the
program was run with textures 3 and 1, and a further random beat with the
same draw picks map 1. The largest double below 1 picks map 2 of 3. -/
theorem currentMap_in_range_witness :
    randomModeOptions.maps ≠ [] ∧
    (∀ c ∈ sampleCalls, c.KeepsAMap) ∧
    (session sampleEnv randomModeOptions sampleCalls World.initial).1 = .ok () ∧
    (∃ (colorMaps : List Texture) (m : Nat),
      (session sampleEnv randomModeOptions sampleCalls World.initial).2.1.colorMaps
        = some colorMaps ∧
      colorMaps.length
        = (session sampleEnv randomModeOptions sampleCalls World.initial).2.1.opts.maps.length ∧
      (session sampleEnv randomModeOptions sampleCalls World.initial).2.1.currentMap = some m ∧
      m < colorMaps.length) ∧
    (session sampleEnv randomModeOptions sampleCalls World.initial).2.1.colorMaps = some [4, 5] ∧
    (session sampleEnv randomModeOptions sampleCalls World.initial).2.1.currentMap = some 0 ∧
    drawnWith (session sampleEnv randomModeOptions sampleCalls World.initial).2.2.trace
      = [some 3, some 1] ∧
    (∃ m, (draw true RandomDraw.twoThirds
        (session sampleEnv randomModeOptions sampleCalls World.initial).2.1
        World.initial).2.1.currentMap = some m ∧
      m ≤ (session sampleEnv randomModeOptions sampleCalls World.initial).2.1.opts.maps.length
        - 1) ∧
    (draw true RandomDraw.twoThirds
        (session sampleEnv randomModeOptions sampleCalls World.initial).2.1
        World.initial).2.1.currentMap = some 1 ∧
    RandomDraw.twoThirds.floorMul 3 = 2 ∧
    (cycle true RandomDraw.twoThirds (ColorMap.new randomModeOptions)).map
        (fun s => s.currentMap) = .ok (some 2) ∧
    RandomDraw.largest.floorMul 3 = 2 :=
  have hmaps : randomModeOptions.maps ≠ [] := by decide
  have hcalls : ∀ c ∈ sampleCalls, c.KeepsAMap := by
    intro c hc maps hm
    subst hm
    simp only [sampleCalls, List.mem_cons, List.mem_singleton, List.not_mem_nil, or_false,
      reduceCtorEq, false_or, Call.setMaps.injEq] at hc
    rw [hc]
    decide
  have hok : (session sampleEnv randomModeOptions sampleCalls World.initial).1 = .ok () := by
    decide
  have h := currentMap_in_range sampleEnv randomModeOptions sampleCalls World.initial hmaps
    hcalls hok
  ⟨hmaps, hcalls, hok, h.1, by decide, by decide, by decide,
    h.2.2 RandomDraw.twoThirds World.initial (by decide), by decide, by decide, by decide,
    by decide⟩

end Webvs
